import Mathlib

/-! NeuralGram: verification of `app/src/main/cpp/neuralgram.c`

A shallow embedding of the personalisation core of `neuralgram.c`.

Conventions of the embedding.

* C `float` values are rational numbers. The pixel loop of `processImage`
  (`transform_pixel`, `transform_pixels`) and the definitions of the namespace
  `Binary32` round the result of every float operation to binary32 with `f32`
  (round to nearest, ties to even, subnormal numbers included), each operation on
  its own; overflow to infinity and NaN are not modelled (the theorems about
  these definitions bound every value they round by 2^24). The other definitions, among them
  `extract_photo_signature` outside the namespace `Binary32` and
  `transform_pixel_exact`, are the same computations in exact arithmetic.
* C `int` values are integers; signed overflow (undefined behaviour in C) is not
  modelled.
* A C array is a total map from the integer index to the element, so that
  `a[i]` is `a i`; the stores of the code are `store`, `memcpy` and `memmove`.
* A `jbyte` buffer is a map from the index to the signed byte value; reading it
  through a `uint8_t` pointer or an `(uint8_t)` cast is `u8`.
* `time(NULL)` is an argument `now` of the operations that call it.
* The JNI entry points are modelled from the point where the byte arrays have
  been obtained; the mutex and the logging are left out.
-/

namespace NeuralGram

/-! ## Configuration -/

def MAX_FAVORITES : Int := 100
def FEATURE_COUNT : Int := 10
def PARAM_COUNT : Int := 5
def SCENE_COUNT : Int := 7

/-! ## Arrays, loops and C library functions -/

/-- The store `a[i] = v`. -/
def store {α : Type} (a : Int → α) (i : Int) (v : α) : Int → α :=
  fun k => if k = i then v else a k

/-- The call `memcpy(&a[dst], &b[src], n * sizeof(elem))`. -/
def memcpy {α : Type} (a : Int → α) (dst : Int) (b : Int → α) (src n : Int) : Int → α :=
  fun k => if dst ≤ k ∧ k < dst + n then b (src + (k - dst)) else a k

/-- The call `memmove(&a[dst], &a[src], n * sizeof(elem))`: the source is read
before anything is written. -/
def memmove {α : Type} (a : Int → α) (dst src n : Int) : Int → α :=
  memcpy a dst a src n

/-- The loop `for (int i = 0; i < n; i++) body`, for a constant bound `n`. -/
def forUpTo {σ : Type} : Nat → (Int → σ → σ) → σ → σ
  | 0, _, s => s
  | n + 1, body, s => body (n : Int) (forUpTo n body s)

/-- The loop `for (; x < bound; x += step) body`, started at `x`. -/
def strideLoop {σ : Type} (step : Int) (hstep : 0 < step) (bound : Int)
    (body : Int → σ → σ) (x : Int) (s : σ) : σ :=
  if x < bound then strideLoop step hstep bound body (x + step) (body x s) else s
termination_by (bound - x).toNat
decreasing_by omega

/-- The C functions `fmaxf` and `fminf` on numbers. -/
def fmaxf (a b : ℚ) : ℚ := max a b

def fminf (a b : ℚ) : ℚ := min a b

/-- The value of a `jbyte` read as `uint8_t`. -/
def u8 (v : Int) : Int := v % 256

/-- The conversion of a `float` to an integer type: truncation toward zero. -/
def truncToInt (v : ℚ) : Int := if 0 ≤ v then ⌊v⌋ else ⌈v⌉

/-- The cast `(jbyte) v` of a float: truncation, then the signed byte with the same
low eight bits. -/
def toJbyte (v : ℚ) : Int := (truncToInt v + 128) % 256 - 128

/-- The local array initialised from a brace list, `float a[] = {..}`. -/
def arrayOf (l : List ℚ) : Int → ℚ :=
  fun k => if 0 ≤ k then l.getD k.toNat 0 else 0

/-! ## Binary32 rounding -/

/-- The integer nearest to a number, the even one of the two when it lies half way
(the IEEE 754 rounding to nearest, ties to even). -/
def roundNearestEven (q : ℚ) : Int :=
  if q - ⌊q⌋ < 1 / 2 then ⌊q⌋
  else if q - ⌊q⌋ > 1 / 2 then ⌊q⌋ + 1
  else if ⌊q⌋ % 2 = 0 then ⌊q⌋ else ⌊q⌋ + 1

/-- The exponent of the binade of a number in binary32: `floor (log2 |q|)`, and -126
for the subnormal numbers and zero. -/
def binade (q : ℚ) : Int := if q = 0 then -126 else max (Int.log 2 |q|) (-126)

/-- The spacing of the binary32 numbers in the binade of `q`: the significand has 24
bits. -/
def ulp (q : ℚ) : ℚ := (2 : ℚ) ^ (binade q - 23)

/-- The binary32 number that a real result is rounded to: the nearest multiple of the
spacing, ties to even. Overflow to infinity is not modelled. -/
def f32 (q : ℚ) : ℚ := (roundNearestEven (q / ulp q) : ℚ) * ulp q

/-! ## Structures and global state -/

structure PersonalMemory where
  favorite_features : Int → ℚ
  favorite_parameters : Int → ℚ
  favorite_count : Int
  personal_bias : Int → ℚ
  learning_strength : Int
  last_update : Int
  scene_patterns : Int → Int

/-- The global state of the file: `personal_memory`, `total_images_processed`,
`current_scene_type` and `last_params`. -/
structure Globals where
  personal_memory : PersonalMemory
  total_images_processed : Int
  current_scene_type : Int
  last_params : Int → ℚ

/-- The five values written through the output pointers of
`generate_personalized_parameters`. -/
structure EnhancementParameters where
  exposure : ℚ
  contrast : ℚ
  saturation : ℚ
  sharpness : ℚ
  warmth : ℚ

/-! ## Initialisation -/

def initPersonality (s : Globals) (now : Int) : Globals :=
  let pm := s.personal_memory
  let pm := { pm with favorite_count := 0, learning_strength := 75, last_update := now }
  let pm := { pm with
    personal_bias := forUpTo 10 (fun i b => store b i (0.5 : ℚ)) pm.personal_bias }
  let pm := { pm with
    scene_patterns := forUpTo 7 (fun i p => store p i (0 : Int)) pm.scene_patterns }
  { s with personal_memory := pm }

/-! ## Photo signature -/

/-- The local variables of `extract_photo_signature` that the sampling loops
update. -/
structure Sampling where
  brightness_sum : ℚ
  r_sum : ℚ
  g_sum : ℚ
  b_sum : ℚ
  min_bright : ℚ
  max_bright : ℚ
  warm_sum : ℚ
  cool_sum : ℚ
  saturation_sum : ℚ
  sample_count : Int

/-- The body of the inner sampling loop at grid position `(x, y)`. -/
def sample_pixel (image : Int → Int) (width total_bytes y x : Int) (a : Sampling) :
    Sampling :=
  let idx := (y * width + x) * 3
  if idx + 2 ≥ total_bytes then a
  else
    let r : ℚ := (u8 (image idx) : ℚ) / 255
    let g : ℚ := (u8 (image (idx + 1)) : ℚ) / 255
    let b : ℚ := (u8 (image (idx + 2)) : ℚ) / 255
    let brightness : ℚ := 0.299 * r + 0.587 * g + 0.114 * b
    let max_ch := fmaxf (fmaxf r g) b
    let min_ch := fminf (fminf r g) b
    { brightness_sum := a.brightness_sum + brightness
      r_sum := a.r_sum + r
      g_sum := a.g_sum + g
      b_sum := a.b_sum + b
      min_bright := if brightness < a.min_bright then brightness else a.min_bright
      max_bright := if brightness > a.max_bright then brightness else a.max_bright
      warm_sum := a.warm_sum + (r + g * 0.5)
      cool_sum := a.cool_sum + b
      saturation_sum :=
        if max_ch > 0 then a.saturation_sum + (max_ch - min_ch) / max_ch
        else a.saturation_sum
      sample_count := a.sample_count + 1 }

/-- The state of the locals after the two sampling loops. -/
def sample_image (image : Int → Int) (width height : Int) : Sampling :=
  let total_bytes := width * height * 3
  strideLoop 8 (by decide) height
    (fun y a => strideLoop 8 (by decide) width (sample_pixel image width total_bytes y) 0 a)
    0
    { brightness_sum := 0, r_sum := 0, g_sum := 0, b_sum := 0
      min_bright := 1, max_bright := 0
      warm_sum := 0, cool_sum := 0, saturation_sum := 0, sample_count := 0 }

/-- The array `signature` as `extract_photo_signature` leaves it; the ten
elements 0..9 are the ones the function writes. -/
def extract_photo_signature (image : Int → Int) (width height : Int) : Int → ℚ :=
  let a := sample_image image width height
  let sample_count : Int := if a.sample_count = 0 then 1 else a.sample_count
  arrayOf
    [ a.brightness_sum / sample_count,
      a.r_sum / sample_count,
      a.g_sum / sample_count,
      a.b_sum / sample_count,
      a.max_bright - a.min_bright,
      a.warm_sum / (a.warm_sum + a.cool_sum + 0.001),
      a.saturation_sum / sample_count,
      a.r_sum / (a.g_sum + 0.001),
      a.g_sum / (a.b_sum + 0.001),
      (a.r_sum + a.g_sum) / (a.b_sum + 0.001) ]

/-! ## Scene detection -/

def detect_scene_type (signature : Int → ℚ) : Int :=
  let brightness := signature 0
  let contrast := signature 4
  let warmth := signature 5
  let saturation := signature 6
  let rg_ratio := signature 7
  if brightness < 0.3 ∧ contrast < 0.2 then 2
  else if brightness > 0.4 ∧ brightness < 0.7 ∧ rg_ratio > 1.1 then 0
  else if warmth > 0.7 ∧ brightness > 0.3 then 3
  else if brightness > 0.6 ∧ contrast > 0.3 then 1
  else if saturation > 0.7 then 5
  else if brightness > 0.3 ∧ brightness < 0.6 then 4
  else 6

/-! ## Adding a favorite -/

def addFavorite (s : Globals) (image : Int → Int) (width height : Int)
    (exposure contrast saturation sharpness warmth : ℚ) (now : Int) : Globals :=
  let pm := s.personal_memory
  -- Evict oldest if full
  let pm :=
    if pm.favorite_count ≥ MAX_FAVORITES then
      { pm with
        favorite_features :=
          memmove pm.favorite_features 0 FEATURE_COUNT ((MAX_FAVORITES - 1) * FEATURE_COUNT)
        favorite_parameters :=
          memmove pm.favorite_parameters 0 PARAM_COUNT ((MAX_FAVORITES - 1) * PARAM_COUNT)
        favorite_count := pm.favorite_count - 1 }
    else pm
  let idx := pm.favorite_count
  let signature := extract_photo_signature image width height
  let pm := { pm with
    favorite_features :=
      memcpy pm.favorite_features (idx * FEATURE_COUNT) signature 0 FEATURE_COUNT }
  let pm := { pm with
    favorite_parameters := store pm.favorite_parameters (idx * PARAM_COUNT + 0) exposure }
  let pm := { pm with
    favorite_parameters := store pm.favorite_parameters (idx * PARAM_COUNT + 1) contrast }
  let pm := { pm with
    favorite_parameters := store pm.favorite_parameters (idx * PARAM_COUNT + 2) saturation }
  let pm := { pm with
    favorite_parameters := store pm.favorite_parameters (idx * PARAM_COUNT + 3) sharpness }
  let pm := { pm with
    favorite_parameters := store pm.favorite_parameters (idx * PARAM_COUNT + 4) warmth }
  let pm := { pm with favorite_count := pm.favorite_count + 1, last_update := now }
  let scene := detect_scene_type signature
  let pm := { pm with scene_patterns := store pm.scene_patterns scene (pm.scene_patterns scene + 1) }
  let learn_rate : ℚ := 0.1 * ((pm.learning_strength : ℚ) / 100)
  let pm := { pm with
    personal_bias :=
      forUpTo 10
        (fun i b => store b i (b i * (1 - learn_rate) + signature i * learn_rate))
        pm.personal_bias }
  { s with personal_memory := pm, current_scene_type := scene }

/-! ## Personalised parameters -/

/-- The `switch (current_scene_type)` of `generate_personalized_parameters`, on the
local array `params`. -/
def scene_switch (current_scene_type : Int) (params : Int → ℚ) : Int → ℚ :=
  if current_scene_type = 0 then
    let params := store params 2 (params 2 * 1.1)
    let params := store params 3 (params 3 * 0.8)
    store params 4 (params 4 * 1.2)
  else if current_scene_type = 1 then
    let params := store params 0 (params 0 * 1.15)
    let params := store params 1 (params 1 * 1.2)
    store params 2 (params 2 * 1.3)
  else if current_scene_type = 2 then
    let params := store params 0 (params 0 * 1.3)
    store params 3 (params 3 * 0.5)
  else if current_scene_type = 3 then
    let params := store params 4 (params 4 * 1.4)
    store params 2 (params 2 * 1.25)
  else if current_scene_type = 4 then
    let params := store params 0 (params 0 * 1.1)
    store params 3 (params 3 * 0.7)
  else if current_scene_type = 5 then
    let params := store params 2 (params 2 * 1.2)
    store params 3 (params 3 * 1.3)
  else params

/-- The local array `params` at the end of `generate_personalized_parameters`. -/
def generate_params (s : Globals) : Int → ℚ :=
  let pm := s.personal_memory
  let params := arrayOf [1.1, 1.15, 1.2, 0.08, 0.5]
  let params :=
    if pm.favorite_count > 0 then
      let bias_strength : ℚ := (pm.learning_strength : ℚ) / 200
      let params := store params 0 (params 0 + (pm.personal_bias 0 - 0.5) * 0.3 * bias_strength)
      let params := store params 1 (params 1 + (pm.personal_bias 4 - 0.5) * 0.4 * bias_strength)
      let params := store params 2 (params 2 + (pm.personal_bias 6 - 0.5) * 0.4 * bias_strength)
      let params := store params 4 (0.5 + (pm.personal_bias 5 - 0.5) * bias_strength)
      scene_switch s.current_scene_type params
    else params
  let params := store params 0 (fmaxf 0.8 (fminf 1.8 (params 0)))
  let params := store params 1 (fmaxf 0.8 (fminf 1.5 (params 1)))
  let params := store params 2 (fmaxf 0.8 (fminf 1.8 (params 2)))
  let params := store params 3 (fmaxf 0.01 (fminf 0.2 (params 3)))
  let params := store params 4 (fmaxf 0.2 (fminf 0.8 (params 4)))
  params

/-- The function `generate_personalized_parameters`: the globals after the call
(only `last_params` changes) and the five values written through the pointers. -/
def generate_personalized_parameters (s : Globals) : Globals × EnhancementParameters :=
  let params := generate_params s
  ({ s with last_params := memcpy s.last_params 0 params 0 PARAM_COUNT },
   { exposure := params 0, contrast := params 1, saturation := params 2,
     sharpness := params 3, warmth := params 4 })

/-! ## Processing an image -/

/-- The body of the pixel loop of `processImage` at byte offset `i`. Every float
operation is rounded to binary32; the literals 0.5f, 1.0f and 255.0f and the integer
255 are binary32 numbers. -/
def transform_pixel (inp : Int → Int) (p : EnhancementParameters) (i : Int)
    (out : Int → Int) : Int → Int :=
  let r : ℚ := f32 ((u8 (inp i) : ℚ) / 255)
  let g : ℚ := f32 ((u8 (inp (i + 1)) : ℚ) / 255)
  let b : ℚ := f32 ((u8 (inp (i + 2)) : ℚ) / 255)
  -- Warmth
  let rb : ℚ × ℚ :=
    if p.warmth > 0.5 then
      (f32 (r * f32 (1 + f32 (f32 (p.warmth - 0.5) * f32 0.4))),
       f32 (b * f32 (1 - f32 (f32 (p.warmth - 0.5) * f32 0.3))))
    else
      (f32 (r * f32 (1 - f32 (f32 (0.5 - p.warmth) * f32 0.3))),
       f32 (b * f32 (1 + f32 (f32 (0.5 - p.warmth) * f32 0.4))))
  let r := rb.1
  let b := rb.2
  -- Exposure
  let r := f32 (r * p.exposure)
  let g := f32 (g * p.exposure)
  let b := f32 (b * p.exposure)
  -- Contrast
  let r := f32 (0.5 + f32 (f32 (r - 0.5) * p.contrast))
  let g := f32 (0.5 + f32 (f32 (g - 0.5) * p.contrast))
  let b := f32 (0.5 + f32 (f32 (b - 0.5) * p.contrast))
  -- Saturation
  let lum : ℚ := f32 (f32 (f32 (f32 0.299 * r) + f32 (f32 0.587 * g)) + f32 (f32 0.114 * b))
  let r := f32 (lum + f32 (p.saturation * f32 (r - lum)))
  let g := f32 (lum + f32 (p.saturation * f32 (g - lum)))
  let b := f32 (lum + f32 (p.saturation * f32 (b - lum)))
  -- Clamp
  let r := fmaxf 0 (fminf 1 r)
  let g := fmaxf 0 (fminf 1 g)
  let b := fmaxf 0 (fminf 1 b)
  let out := store out i (toJbyte (f32 (r * 255)))
  let out := store out (i + 1) (toJbyte (f32 (g * 255)))
  store out (i + 2) (toJbyte (f32 (b * 255)))

/-- The pixel loop of `processImage`: the buffer `out` after it. -/
def transform_pixels (inp out : Int → Int) (width height : Int)
    (p : EnhancementParameters) : Int → Int :=
  let total_pixels := width * height
  strideLoop 3 (by decide) (total_pixels * 3) (transform_pixel inp p) 0 out

/-- The body of the pixel loop in exact arithmetic: `transform_pixel` without the
roundings. -/
def transform_pixel_exact (inp : Int → Int) (p : EnhancementParameters) (i : Int)
    (out : Int → Int) : Int → Int :=
  let r : ℚ := (u8 (inp i) : ℚ) / 255
  let g : ℚ := (u8 (inp (i + 1)) : ℚ) / 255
  let b : ℚ := (u8 (inp (i + 2)) : ℚ) / 255
  -- Warmth
  let rb : ℚ × ℚ :=
    if p.warmth > 0.5 then
      (r * (1 + (p.warmth - 0.5) * 0.4), b * (1 - (p.warmth - 0.5) * 0.3))
    else
      (r * (1 - (0.5 - p.warmth) * 0.3), b * (1 + (0.5 - p.warmth) * 0.4))
  let r := rb.1
  let b := rb.2
  -- Exposure
  let r := r * p.exposure
  let g := g * p.exposure
  let b := b * p.exposure
  -- Contrast
  let r := 0.5 + (r - 0.5) * p.contrast
  let g := 0.5 + (g - 0.5) * p.contrast
  let b := 0.5 + (b - 0.5) * p.contrast
  -- Saturation
  let lum : ℚ := 0.299 * r + 0.587 * g + 0.114 * b
  let r := lum + p.saturation * (r - lum)
  let g := lum + p.saturation * (g - lum)
  let b := lum + p.saturation * (b - lum)
  -- Clamp
  let r := fmaxf 0 (fminf 1 r)
  let g := fmaxf 0 (fminf 1 g)
  let b := fmaxf 0 (fminf 1 b)
  let out := store out i (toJbyte (r * 255))
  let out := store out (i + 1) (toJbyte (g * 255))
  store out (i + 2) (toJbyte (b * 255))

/-- The pixel loop in exact arithmetic. -/
def transform_pixels_exact (inp out : Int → Int) (width height : Int)
    (p : EnhancementParameters) : Int → Int :=
  let total_pixels := width * height
  strideLoop 3 (by decide) (total_pixels * 3) (transform_pixel_exact inp p) 0 out

/-- The part of `processImage` that runs under the mutex: the globals after it and
the parameters handed to the pixel loop. -/
def processImage_update (s : Globals) (inp : Int → Int) (width height : Int) :
    Globals × EnhancementParameters :=
  let s := { s with total_images_processed := s.total_images_processed + 1 }
  let signature := extract_photo_signature inp width height
  let s := { s with current_scene_type := detect_scene_type signature }
  generate_personalized_parameters s

/-- The function `processImage`: the globals and the buffer `output` after the
call. -/
def processImage (s : Globals) (inp out : Int → Int) (width height : Int) :
    Globals × (Int → Int) :=
  let (s, p) := processImage_update s inp width height
  (s, transform_pixels inp out width height p)

/-! ## Interface functions -/

/-- The index `most_common` that `getPersonalityStats` computes from its copy of
`scene_patterns`. -/
def most_common (patterns : Int → Int) : Int :=
  strideLoop 1 (by decide) SCENE_COUNT
    (fun i most_common => if patterns i > patterns most_common then i else most_common)
    1 0

def getFavoriteCount (s : Globals) : Int := s.personal_memory.favorite_count

def setLearningStrength (s : Globals) (strength : Int) : Globals :=
  { s with personal_memory := { s.personal_memory with learning_strength := strength } }

def clearPersonality (s : Globals) : Globals :=
  let pm := { s.personal_memory with favorite_count := 0 }
  let s := { s with personal_memory := pm, total_images_processed := 0, current_scene_type := 0 }
  let pm := { s.personal_memory with
    personal_bias := forUpTo 10 (fun i b => store b i (0.5 : ℚ)) s.personal_memory.personal_bias }
  let pm := { pm with
    scene_patterns := forUpTo 7 (fun i p => store p i (0 : Int)) pm.scene_patterns }
  { s with personal_memory := pm }

/-! ## Specification-side definitions

The definitions of this section follow the words of the specification; the
theorems below compare them with the definitions taken from the code. -/

/-- The seven scene categories; `SceneCategory.id` is the index the code uses for
each (the order of its `scene_names` table). -/
inductive SceneCategory where
  | Portrait
  | Landscape
  | LowLight
  | Sunset
  | Indoor
  | Macro
  | Unknown
  deriving DecidableEq, Repr

def SceneCategory.id : SceneCategory → Int
  | .Portrait => 0
  | .Landscape => 1
  | .LowLight => 2
  | .Sunset => 3
  | .Indoor => 4
  | .Macro => 5
  | .Unknown => 6

/-- Rule 1 of the cascade: brightness < 0.3 and contrast < 0.2. -/
def rule1 (sig : Int → ℚ) : Prop := sig 0 < 0.3 ∧ sig 4 < 0.2

/-- Rule 2: 0.4 < brightness < 0.7 and r/g ratio > 1.1. -/
def rule2 (sig : Int → ℚ) : Prop := 0.4 < sig 0 ∧ sig 0 < 0.7 ∧ sig 7 > 1.1

/-- Rule 3: warmth > 0.7 and brightness > 0.3. -/
def rule3 (sig : Int → ℚ) : Prop := sig 5 > 0.7 ∧ sig 0 > 0.3

/-- Rule 4: brightness > 0.6 and contrast > 0.3. -/
def rule4 (sig : Int → ℚ) : Prop := sig 0 > 0.6 ∧ sig 4 > 0.3

/-- Rule 5: saturation > 0.7. -/
def rule5 (sig : Int → ℚ) : Prop := sig 6 > 0.7

/-- Rule 6: 0.3 < brightness < 0.6. -/
def rule6 (sig : Int → ℚ) : Prop := 0.3 < sig 0 ∧ sig 0 < 0.6

instance (sig : Int → ℚ) : Decidable (rule1 sig) := by unfold rule1; infer_instance
instance (sig : Int → ℚ) : Decidable (rule2 sig) := by unfold rule2; infer_instance
instance (sig : Int → ℚ) : Decidable (rule3 sig) := by unfold rule3; infer_instance
instance (sig : Int → ℚ) : Decidable (rule4 sig) := by unfold rule4; infer_instance
instance (sig : Int → ℚ) : Decidable (rule5 sig) := by unfold rule5; infer_instance
instance (sig : Int → ℚ) : Decidable (rule6 sig) := by unfold rule6; infer_instance

/-- The ordered cascade of the specification: each rule with its category. -/
def cascade (sig : Int → ℚ) : List (Bool × SceneCategory) :=
  [ (decide (rule1 sig), .LowLight),
    (decide (rule2 sig), .Portrait),
    (decide (rule3 sig), .Sunset),
    (decide (rule4 sig), .Landscape),
    (decide (rule5 sig), .Macro),
    (decide (rule6 sig), .Indoor) ]

/-- The category of the first rule of the cascade that matches, `Unknown` when
none does. -/
def classify (sig : Int → ℚ) : SceneCategory :=
  match (cascade sig).find? (fun r => r.1) with
  | some r => r.2
  | none => .Unknown

/-- The default parameters nudged by the bias vector (specification 4.4). -/
def biased_parameters (s : Globals) : EnhancementParameters :=
  let bias := s.personal_memory.personal_bias
  let biasStrength : ℚ := (s.personal_memory.learning_strength : ℚ) / 200
  { exposure := 1.1 + (bias 0 - 0.5) * 0.3 * biasStrength
    contrast := 1.15 + (bias 4 - 0.5) * 0.4 * biasStrength
    saturation := 1.2 + (bias 6 - 0.5) * 0.4 * biasStrength
    sharpness := 0.08
    warmth := 0.5 + (bias 5 - 0.5) * biasStrength }

/-- The multiplicative adjustment of each scene category. -/
def sceneAdjustOf (c : SceneCategory) (p : EnhancementParameters) : EnhancementParameters :=
  match c with
  | .Portrait => { p with saturation := p.saturation * 1.1, sharpness := p.sharpness * 0.8,
                          warmth := p.warmth * 1.2 }
  | .Landscape => { p with exposure := p.exposure * 1.15, contrast := p.contrast * 1.2,
                           saturation := p.saturation * 1.3 }
  | .LowLight => { p with exposure := p.exposure * 1.3, sharpness := p.sharpness * 0.5 }
  | .Sunset => { p with warmth := p.warmth * 1.4, saturation := p.saturation * 1.25 }
  | .Indoor => { p with exposure := p.exposure * 1.1, sharpness := p.sharpness * 0.7 }
  | .Macro => { p with saturation := p.saturation * 1.2, sharpness := p.sharpness * 1.3 }
  | .Unknown => p

/-- The category a scene index stands for; an index outside 0..5 has no adjustment
of its own and is treated as `Unknown`. -/
def sceneOfId (scene : Int) : SceneCategory :=
  if scene = 0 then .Portrait
  else if scene = 1 then .Landscape
  else if scene = 2 then .LowLight
  else if scene = 3 then .Sunset
  else if scene = 4 then .Indoor
  else if scene = 5 then .Macro
  else .Unknown

/-- The scene adjustment keyed on the current scene index. -/
def sceneAdjust (scene : Int) (p : EnhancementParameters) : EnhancementParameters :=
  sceneAdjustOf (sceneOfId scene) p

/-- The clamp of a value to `[lo, hi]`. -/
def clampTo (lo hi x : ℚ) : ℚ := max lo (min hi x)

/-- The final clamp of every parameter to its documented range. -/
def clampParameters (p : EnhancementParameters) : EnhancementParameters :=
  { exposure := clampTo 0.8 1.8 p.exposure
    contrast := clampTo 0.8 1.5 p.contrast
    saturation := clampTo 0.8 1.8 p.saturation
    sharpness := clampTo 0.01 0.2 p.sharpness
    warmth := clampTo 0.2 0.8 p.warmth }

/-- The default parameters {1.1, 1.15, 1.2, 0.08, 0.5}. -/
def defaultParameters : EnhancementParameters :=
  { exposure := 1.1, contrast := 1.15, saturation := 1.2, sharpness := 0.08, warmth := 0.5 }

/-- The parameters before the final clamp, in the words of the specification. -/
def unclampedParameters (s : Globals) : EnhancementParameters :=
  if s.personal_memory.favorite_count > 0 then
    sceneAdjust s.current_scene_type (biased_parameters s)
  else defaultParameters

/-- The five parameters held in a `params` array. -/
def paramsOfArray (a : Int → ℚ) : EnhancementParameters :=
  { exposure := a 0, contrast := a 1, saturation := a 2, sharpness := a 3, warmth := a 4 }

/-- The globals as the program starts: the static `personal_memory` is zero-filled
and `last_params` holds its initialiser. -/
def startGlobals : Globals :=
  { personal_memory :=
      { favorite_features := fun _ => 0
        favorite_parameters := fun _ => 0
        favorite_count := 0
        personal_bias := fun _ => 0
        learning_strength := 0
        last_update := 0
        scene_patterns := fun _ => 0 }
    total_images_processed := 0
    current_scene_type := 0
    last_params := arrayOf [1.1, 1.15, 1.2, 0.08, 0.5] }

/-- The arguments of one `addFavorite` call. -/
structure FavoriteCall where
  image : Int → Int
  width : Int
  height : Int
  exposure : ℚ
  contrast : ℚ
  saturation : ℚ
  sharpness : ℚ
  warmth : ℚ
  now : Int

/-- The call `addFavorite` with the arguments `c`. -/
def addFavoriteCall (s : Globals) (c : FavoriteCall) : Globals :=
  addFavorite s c.image c.width c.height c.exposure c.contrast c.saturation c.sharpness
    c.warmth c.now

/-- The state after the first `n` calls of the sequence `calls 0, calls 1, ..`,
made in this order from the state `s`. -/
def addFavorites (calls : Nat → FavoriteCall) : Nat → Globals → Globals
  | 0, s => s
  | n + 1, s => addFavoriteCall (addFavorites calls n s) (calls n)

/-- Favorite slot `j` of the state holds the signature of the image of the call `c`
and its five user parameters. -/
def slotHolds (s : Globals) (j : Int) (c : FavoriteCall) : Prop :=
  (∀ i : Fin 10, s.personal_memory.favorite_features (j * 10 + ((i : Nat) : Int))
      = extract_photo_signature c.image c.width c.height ((i : Nat) : Int)) ∧
  s.personal_memory.favorite_parameters (j * 5 + 0) = c.exposure ∧
  s.personal_memory.favorite_parameters (j * 5 + 1) = c.contrast ∧
  s.personal_memory.favorite_parameters (j * 5 + 2) = c.saturation ∧
  s.personal_memory.favorite_parameters (j * 5 + 3) = c.sharpness ∧
  s.personal_memory.favorite_parameters (j * 5 + 4) = c.warmth

/-! ## Concrete inputs -/

/-- The uniform gray image: every byte is the `jbyte` -128, whose unsigned value
is 128. -/
def grayImage : Int → Int := fun _ => -128

/-- An image whose bytes differ from one offset to the next. -/
def rampImage : Int → Int := fun k => k * 37 - 100

/-- The `k`-th call of a sequence of favorites told apart by their exposure. -/
def numberedCall (k : Nat) : FavoriteCall :=
  { image := grayImage, width := 16, height := 16, exposure := (k : ℚ), contrast := 1,
    saturation := 1, sharpness := 0.08, warmth := 0.5, now := (k : Int) }

/-- A state with one favorite, full learning strength, every bias component 1 and
the Sunset scene current. -/
def sunsetGlobals : Globals :=
  { personal_memory :=
      { favorite_features := fun _ => 0
        favorite_parameters := fun _ => 0
        favorite_count := 1
        personal_bias := fun _ => 1
        learning_strength := 100
        last_update := 0
        scene_patterns := fun _ => 0 }
    total_images_processed := 0
    current_scene_type := 3
    last_params := arrayOf [1.1, 1.15, 1.2, 0.08, 0.5] }

/-- The parameters that leave a pixel as it is, with any sharpness. -/
def identityParameters (sharpness : ℚ) : EnhancementParameters :=
  { exposure := 1, contrast := 1, saturation := 1, sharpness := sharpness, warmth := 0.5 }

/-! ## Sequences of operations -/

/-- One call of an entry point that changes the globals, with its arguments. -/
inductive Op where
  | addFavorite (c : FavoriteCall)
  | processImage (inp out : Int → Int) (width height : Int)
  | setLearningStrength (strength : Int)
  | clearPersonality

/-- The globals after one operation. -/
def step (s : Globals) : Op → Globals
  | .addFavorite c => addFavoriteCall s c
  | .processImage inp out width height => (processImage s inp out width height).1
  | .setLearningStrength strength => setLearningStrength s strength
  | .clearPersonality => clearPersonality s

/-- The globals after a sequence of operations, made in the order of the list. -/
def run (s : Globals) (ops : List Op) : Globals := ops.foldl step s

/-- The value of the local `idx` of `addFavorite`: the favorite count after the
optional eviction, which is the slot the call writes to. -/
def addFavorite_idx (s : Globals) : Int :=
  if s.personal_memory.favorite_count ≥ MAX_FAVORITES then s.personal_memory.favorite_count - 1
  else s.personal_memory.favorite_count

/-- The sum of the 7 scene pattern counts. -/
def patternSum (s : Globals) : Int :=
  s.personal_memory.scene_patterns 0 + s.personal_memory.scene_patterns 1
    + s.personal_memory.scene_patterns 2 + s.personal_memory.scene_patterns 3
    + s.personal_memory.scene_patterns 4 + s.personal_memory.scene_patterns 5
    + s.personal_memory.scene_patterns 6

/-- The count of `addFavorite` calls since the last `clearPersonality`, after one
more operation. -/
def addsStep (n : Nat) : Op → Nat
  | .addFavorite _ => n + 1
  | .clearPersonality => 0
  | _ => n

/-- The number of `addFavorite` calls of a sequence made after its last
`clearPersonality` (all of them when there is none). -/
def addsSinceClear (ops : List Op) : Nat := ops.foldl addsStep 0

/-- The part of the state that the specification's PersonalMemory consists of, the
timestamp and the content of the favorites buffers aside: favorite count, learning
strength, the 10 bias components, the 7 scene pattern counts, the number of images
processed and the current scene. -/
structure LogicalState where
  favoriteCount : Int
  learningStrength : Int
  bias : List ℚ
  scenePatternCounts : List Int
  imagesProcessed : Int
  currentScene : Int
  deriving DecidableEq

def logicalState (s : Globals) : LogicalState :=
  { favoriteCount := s.personal_memory.favorite_count
    learningStrength := s.personal_memory.learning_strength
    bias := (List.range 10).map (fun (i : Nat) => s.personal_memory.personal_bias (i : Int))
    scenePatternCounts :=
      (List.range 7).map (fun (i : Nat) => s.personal_memory.scene_patterns (i : Int))
    imagesProcessed := s.total_images_processed
    currentScene := s.current_scene_type }

/-- The locals of `extract_photo_signature` as they are initialised, before the
sampling loops. -/
def initialSampling : Sampling :=
  { brightness_sum := 0, r_sum := 0, g_sum := 0, b_sum := 0, min_bright := 1,
    max_bright := 0, warm_sum := 0, cool_sum := 0, saturation_sum := 0, sample_count := 0 }

/-! ## Sampled pixels -/

/-- The channel value the code reads at byte offset `idx`: the unsigned byte over
255. -/
def channel (image : Int → Int) (idx : Int) : ℚ := (u8 (image idx) : ℚ) / 255

/-- The brightness `0.299 r + 0.587 g + 0.114 b` of the pixel at column `x` of row
`y`. -/
def luma (image : Int → Int) (width x y : Int) : ℚ :=
  0.299 * channel image ((y * width + x) * 3)
    + 0.587 * channel image ((y * width + x) * 3 + 1)
    + 0.114 * channel image ((y * width + x) * 3 + 2)

/-- The saturation term of a pixel: `(max - min) / max` over its three channels, 0
when the maximum is 0. -/
def saturationTerm (r g b : ℚ) : ℚ :=
  if fmaxf (fmaxf r g) b > 0 then
    (fmaxf (fmaxf r g) b - fminf (fminf r g) b) / fmaxf (fmaxf r g) b
  else 0

/-- The positions of the 8 x 8 stride grid inside the image. -/
def onGrid (width height x y : Int) : Prop :=
  (0 ≤ x ∧ x < width ∧ x % 8 = 0) ∧ (0 ≤ y ∧ y < height ∧ y % 8 = 0)

/-- The grid positions `(x', y')` that the sampling loops have visited when they
reach column `x` of row `y`. -/
def visitedBefore (width height y x x' y' : Int) : Prop :=
  onGrid width height x' y' ∧ (y' < y ∨ (y' = y ∧ x' < x))

/-- The invariant of the sampling loops at column `x` of row `y`. -/
structure SamplingInv (image : Int → Int) (width height y x : Int) (a : Sampling) : Prop where
  count_eq : a.sample_count = (y / 8) * ((width + 7) / 8) + x / 8
  count_nonneg : 0 ≤ a.sample_count
  brightness_lo : 0 ≤ a.brightness_sum
  brightness_hi : a.brightness_sum ≤ a.sample_count
  r_lo : 0 ≤ a.r_sum
  r_hi : a.r_sum ≤ a.sample_count
  g_lo : 0 ≤ a.g_sum
  g_hi : a.g_sum ≤ a.sample_count
  b_lo : 0 ≤ a.b_sum
  b_hi : a.b_sum ≤ a.sample_count
  saturation_lo : 0 ≤ a.saturation_sum
  saturation_hi : a.saturation_sum ≤ a.sample_count
  warm_lo : 0 ≤ a.warm_sum
  cool_lo : 0 ≤ a.cool_sum
  between : ∀ x' y', visitedBefore width height y x x' y' →
    a.min_bright ≤ luma image width x' y' ∧ luma image width x' y' ≤ a.max_bright
  min_attained : a.min_bright = 1 ∨
    ∃ x' y', visitedBefore width height y x x' y' ∧ a.min_bright = luma image width x' y'
  max_attained : a.max_bright = 0 ∨
    ∃ x' y', visitedBefore width height y x x' y' ∧ a.max_bright = luma image width x' y'

/-- The operations with valid arguments: `addFavorite` on an image with width and
height at least 1, `setLearningStrength` with a value in [0, 100], and every
`processImage` and `clearPersonality`. -/
def Op.valid : Op → Prop
  | .addFavorite c => 1 ≤ c.width ∧ 1 ≤ c.height
  | .processImage _ _ _ _ => True
  | .setLearningStrength strength => 0 ≤ strength ∧ strength ≤ 100
  | .clearPersonality => True

/-- The value of the local `learn_rate` of `addFavorite` in a state:
`0.1 * (learning_strength / 100)`. -/
def learnRate (s : Globals) : ℚ := 0.1 * ((s.personal_memory.learning_strength : ℚ) / 100)

/-- A sequence with valid arguments: the learning strength is set to 0, then a
favorite is added, then the memory is cleared and a favorite is added again. -/
def sampleOps : List Op :=
  [Op.setLearningStrength 0, Op.addFavorite (numberedCall 1), Op.clearPersonality,
    Op.setLearningStrength 100, Op.addFavorite (numberedCall 2)]

/-! ## Photo signature in binary32

The definitions of the namespace `Binary32` are `sample_pixel`, `sample_image` and
`extract_photo_signature` with every float operation rounded to binary32, as the code
computes them. -/

namespace Binary32

/-- The body of the inner sampling loop at grid position `(x, y)`. -/
def sample_pixel (image : Int → Int) (width total_bytes y x : Int) (a : Sampling) :
    Sampling :=
  let idx := (y * width + x) * 3
  if idx + 2 ≥ total_bytes then a
  else
    let r : ℚ := f32 ((u8 (image idx) : ℚ) / 255)
    let g : ℚ := f32 ((u8 (image (idx + 1)) : ℚ) / 255)
    let b : ℚ := f32 ((u8 (image (idx + 2)) : ℚ) / 255)
    let brightness : ℚ :=
      f32 (f32 (f32 (f32 0.299 * r) + f32 (f32 0.587 * g)) + f32 (f32 0.114 * b))
    let max_ch := fmaxf (fmaxf r g) b
    let min_ch := fminf (fminf r g) b
    { brightness_sum := f32 (a.brightness_sum + brightness)
      r_sum := f32 (a.r_sum + r)
      g_sum := f32 (a.g_sum + g)
      b_sum := f32 (a.b_sum + b)
      min_bright := if brightness < a.min_bright then brightness else a.min_bright
      max_bright := if brightness > a.max_bright then brightness else a.max_bright
      warm_sum := f32 (a.warm_sum + f32 (r + f32 (g * 0.5)))
      cool_sum := f32 (a.cool_sum + b)
      saturation_sum :=
        if max_ch > 0 then f32 (a.saturation_sum + f32 (f32 (max_ch - min_ch) / max_ch))
        else a.saturation_sum
      sample_count := a.sample_count + 1 }

/-- The state of the locals after the two sampling loops. -/
def sample_image (image : Int → Int) (width height : Int) : Sampling :=
  let total_bytes := width * height * 3
  strideLoop 8 (by decide) height
    (fun y a => strideLoop 8 (by decide) width (sample_pixel image width total_bytes y) 0 a)
    0
    { brightness_sum := 0, r_sum := 0, g_sum := 0, b_sum := 0
      min_bright := 1, max_bright := 0
      warm_sum := 0, cool_sum := 0, saturation_sum := 0, sample_count := 0 }

/-- The array `signature` as `extract_photo_signature` leaves it; `sample_count` is
converted to binary32 in the divisions. -/
def extract_photo_signature (image : Int → Int) (width height : Int) : Int → ℚ :=
  let a := sample_image image width height
  let sample_count : Int := if a.sample_count = 0 then 1 else a.sample_count
  arrayOf
    [ f32 (a.brightness_sum / f32 (sample_count : ℚ)),
      f32 (a.r_sum / f32 (sample_count : ℚ)),
      f32 (a.g_sum / f32 (sample_count : ℚ)),
      f32 (a.b_sum / f32 (sample_count : ℚ)),
      f32 (a.max_bright - a.min_bright),
      f32 (a.warm_sum / f32 (f32 (a.warm_sum + a.cool_sum) + f32 0.001)),
      f32 (a.saturation_sum / f32 (sample_count : ℚ)),
      f32 (a.r_sum / f32 (a.g_sum + f32 0.001)),
      f32 (a.g_sum / f32 (a.b_sum + f32 0.001)),
      f32 (f32 (a.r_sum + a.g_sum) / f32 (a.b_sum + f32 0.001)) ]

end Binary32

/-- The channel value the code reads at byte offset `idx`, in binary32. -/
def channel32 (image : Int → Int) (idx : Int) : ℚ := f32 ((u8 (image idx) : ℚ) / 255)

/-- The brightness of the pixel at column `x` of row `y` as the code computes it in
binary32. -/
def luma32 (image : Int → Int) (width x y : Int) : ℚ :=
  f32 (f32 (f32 (f32 0.299 * channel32 image ((y * width + x) * 3))
      + f32 (f32 0.587 * channel32 image ((y * width + x) * 3 + 1)))
    + f32 (f32 0.114 * channel32 image ((y * width + x) * 3 + 2)))

/-- The saturation term of a pixel in binary32. -/
def saturationTerm32 (r g b : ℚ) : ℚ :=
  f32 (f32 (fmaxf (fmaxf r g) b - fminf (fminf r g) b) / fmaxf (fmaxf r g) b)

/-- The invariant of the binary32 sampling loops at column `x` of row `y`. -/
structure SamplingInv32 (image : Int → Int) (width height y x : Int) (a : Sampling) :
    Prop where
  count_eq : a.sample_count = (y / 8) * ((width + 7) / 8) + x / 8
  count_nonneg : 0 ≤ a.sample_count
  brightness_lo : 0 ≤ a.brightness_sum
  brightness_hi : a.brightness_sum ≤ a.sample_count ∧ a.brightness_sum ≤ 16777216
  r_lo : 0 ≤ a.r_sum
  r_hi : a.r_sum ≤ a.sample_count ∧ a.r_sum ≤ 16777216
  g_lo : 0 ≤ a.g_sum
  g_hi : a.g_sum ≤ a.sample_count ∧ a.g_sum ≤ 16777216
  b_lo : 0 ≤ a.b_sum
  b_hi : a.b_sum ≤ a.sample_count ∧ a.b_sum ≤ 16777216
  saturation_lo : 0 ≤ a.saturation_sum
  saturation_hi : a.saturation_sum ≤ a.sample_count ∧ a.saturation_sum ≤ 16777216
  warm_lo : 0 ≤ a.warm_sum
  warm_float : f32 a.warm_sum = a.warm_sum
  cool_lo : 0 ≤ a.cool_sum
  between : ∀ x' y', visitedBefore width height y x x' y' →
    a.min_bright ≤ luma32 image width x' y' ∧ luma32 image width x' y' ≤ a.max_bright
  min_attained : a.min_bright = 1 ∨
    ∃ x' y', visitedBefore width height y x x' y' ∧ a.min_bright = luma32 image width x' y'
  max_attained : a.max_bright = 0 ∨
    ∃ x' y', visitedBefore width height y x x' y' ∧ a.max_bright = luma32 image width x' y'

/-- The pure yellow image: every pixel has R = G = 255 (the `jbyte` -1) and B = 0. -/
def yellowImage : Int → Int := fun k => if k % 3 = 2 then 0 else -1

/-! ## Helper lemmas -/

theorem roundNearestEven_error (q : ℚ) : |(roundNearestEven q : ℚ) - q| ≤ 1 / 2 := by
  have h1 := Int.floor_le q
  have h2 := Int.lt_floor_add_one q
  unfold roundNearestEven
  rw [abs_le]
  split_ifs with a b c <;> push_cast <;> constructor <;> linarith

theorem roundNearestEven_intCast (z : Int) : roundNearestEven (z : ℚ) = z := by
  unfold roundNearestEven
  rw [Int.floor_intCast]
  norm_num

theorem roundNearestEven_mono (x y : ℚ) (h : x ≤ y) :
    roundNearestEven x ≤ roundNearestEven y := by
  have hf : ⌊x⌋ ≤ ⌊y⌋ := Int.floor_mono h
  have hx1 := Int.floor_le x
  have hx2 := Int.lt_floor_add_one x
  have hy1 := Int.floor_le y
  have hy2 := Int.lt_floor_add_one y
  by_cases hfe : ⌊x⌋ = ⌊y⌋
  · unfold roundNearestEven
    rw [hfe] at hx1 hx2 ⊢
    split_ifs <;> first | omega | (exfalso; linarith)
  · have hlt : ⌊x⌋ + 1 ≤ ⌊y⌋ := by omega
    have hxle : roundNearestEven x ≤ ⌊x⌋ + 1 := by
      unfold roundNearestEven
      split_ifs <;> omega
    have hyge : ⌊y⌋ ≤ roundNearestEven y := by
      unfold roundNearestEven
      split_ifs <;> omega
    omega

theorem ulp_pos (q : ℚ) : 0 < ulp q := by
  unfold ulp
  positivity

theorem binade_ge (q : ℚ) : -126 ≤ binade q := by
  unfold binade
  split_ifs
  · exact le_refl _
  · exact le_max_right _ _

theorem binade_zero : binade 0 = -126 := by
  unfold binade
  rw [if_pos rfl]

/-- A number is below the top of its binade. -/
theorem abs_lt_binade (q : ℚ) : |q| < (2 : ℚ) ^ (binade q + 1) := by
  by_cases hq : q = 0
  · rw [hq, abs_zero]
    positivity
  have h := Int.lt_zpow_succ_log_self (by decide : 1 < 2) |q|
  have hle : Int.log 2 |q| + 1 ≤ binade q + 1 := by
    have := le_max_left (Int.log 2 |q|) (-126)
    unfold binade
    rw [if_neg hq]
    omega
  calc |q| < ((2 : ℕ) : ℚ) ^ (Int.log 2 |q| + 1) := h
    _ = (2 : ℚ) ^ (Int.log 2 |q| + 1) := by norm_num
    _ ≤ (2 : ℚ) ^ (binade q + 1) := zpow_le_zpow_right₀ (by norm_num) hle

/-- A normal number is at least the bottom of its binade. -/
theorem binade_le_abs (q : ℚ) (h : -126 < binade q) : (2 : ℚ) ^ binade q ≤ |q| := by
  have hq : q ≠ 0 := by
    intro h0
    rw [h0, binade_zero] at h
    omega
  have hb : binade q = Int.log 2 |q| := by
    unfold binade at h ⊢
    rw [if_neg hq] at h ⊢
    rcases max_cases (Int.log 2 |q|) (-126) with ⟨h1, -⟩ | ⟨h1, -⟩
    · exact h1
    · rw [h1] at h; omega
  have hpos : 0 < |q| := abs_pos.mpr hq
  have := Int.zpow_log_le_self (by decide : 1 < 2) hpos
  rw [hb]
  calc (2 : ℚ) ^ Int.log 2 |q| = ((2 : ℕ) : ℚ) ^ Int.log 2 |q| := by norm_num
    _ ≤ |q| := this

/-- The binade of a number below `2 ^ (E + 1)` is at most `E`. -/
theorem binade_le_of_abs_lt (q : ℚ) (E : Int) (hE : -126 ≤ E) (h : |q| < (2 : ℚ) ^ (E + 1)) :
    binade q ≤ E := by
  by_contra hc
  have hlt : E < binade q := by omega
  have hn : -126 < binade q := by omega
  have h1 := binade_le_abs q hn
  have h2 : (2 : ℚ) ^ (E + 1) ≤ (2 : ℚ) ^ binade q :=
    zpow_le_zpow_right₀ (by norm_num) (by omega)
  linarith

/-- The binade of a number of absolute value at least `2 ^ E` is at least `E`. -/
theorem le_binade_of_le_abs (q : ℚ) (E : Int) (h : (2 : ℚ) ^ E ≤ |q|) : E ≤ binade q := by
  by_contra hc
  have hlt : binade q + 1 ≤ E := by omega
  have h1 := abs_lt_binade q
  have h2 : (2 : ℚ) ^ (binade q + 1) ≤ (2 : ℚ) ^ E := zpow_le_zpow_right₀ (by norm_num) hlt
  linarith

theorem f32_zero : f32 0 = 0 := by
  unfold f32
  rw [zero_div]
  have : roundNearestEven 0 = 0 := by
    have := roundNearestEven_intCast 0
    simpa using this
  rw [this]
  simp

/-- The rounding error is at most half the spacing. -/
theorem f32_error (q : ℚ) : |f32 q - q| ≤ ulp q / 2 := by
  have hu := ulp_pos q
  have h := roundNearestEven_error (q / ulp q)
  have he : f32 q - q = ((roundNearestEven (q / ulp q) : ℚ) - q / ulp q) * ulp q := by
    unfold f32
    field_simp
  rw [he, abs_mul, abs_of_pos hu]
  calc |(roundNearestEven (q / ulp q) : ℚ) - q / ulp q| * ulp q ≤ 1 / 2 * ulp q :=
        mul_le_mul_of_nonneg_right h (le_of_lt hu)
    _ = ulp q / 2 := by ring

/-- The rounding error of a number below `2 ^ (E + 1)` is at most `2 ^ (E - 24)`. -/
theorem f32_error_of_abs_lt (q : ℚ) (E : Int) (hE : -126 ≤ E) (h : |q| < (2 : ℚ) ^ (E + 1)) :
    |f32 q - q| ≤ (2 : ℚ) ^ (E - 24) := by
  have hb := binade_le_of_abs_lt q E hE h
  have h1 := f32_error q
  have h2 : ulp q ≤ (2 : ℚ) ^ (E - 23) := by
    unfold ulp
    exact zpow_le_zpow_right₀ (by norm_num) (by omega)
  have h3 : (2 : ℚ) ^ (E - 23) = 2 * (2 : ℚ) ^ (E - 24) := by
    have : E - 23 = 1 + (E - 24) := by ring
    rw [this, zpow_add₀ (by norm_num)]
    norm_num
  linarith

theorem f32_nonneg (q : ℚ) (h : 0 ≤ q) : 0 ≤ f32 q := by
  unfold f32
  have hu := ulp_pos q
  have h0 : roundNearestEven 0 ≤ roundNearestEven (q / ulp q) :=
    roundNearestEven_mono 0 (q / ulp q) (div_nonneg h (le_of_lt hu))
  have hz : roundNearestEven 0 = 0 := by
    have := roundNearestEven_intCast 0
    simpa using this
  rw [hz] at h0
  have : (0 : ℚ) ≤ (roundNearestEven (q / ulp q) : ℚ) := by exact_mod_cast h0
  positivity

/-- A multiple of a power of two not finer than the spacing of its binade is a
binary32 number: rounding leaves it as it is. -/
theorem f32_of_multiple (m p : Int) (hp : binade ((m : ℚ) * (2 : ℚ) ^ p) - 23 ≤ p) :
    f32 ((m : ℚ) * (2 : ℚ) ^ p) = (m : ℚ) * (2 : ℚ) ^ p := by
  obtain ⟨k, hk⟩ : ∃ k : Nat, p = binade ((m : ℚ) * (2 : ℚ) ^ p) - 23 + (k : Int) :=
    ⟨(p - (binade ((m : ℚ) * (2 : ℚ) ^ p) - 23)).toNat, by omega⟩
  have hdiv : (m : ℚ) * (2 : ℚ) ^ p / ulp ((m : ℚ) * (2 : ℚ) ^ p)
      = ((m * 2 ^ k : Int) : ℚ) := by
    unfold ulp
    have h2 : ((2 : ℚ) ^ (binade ((m : ℚ) * (2 : ℚ) ^ p) - 23)) ≠ 0 := by positivity
    rw [div_eq_iff h2]
    push_cast
    rw [mul_assoc, ← zpow_natCast, ← zpow_add₀ (by norm_num : (2 : ℚ) ≠ 0)]
    congr 2
    omega
  unfold f32
  rw [hdiv, roundNearestEven_intCast, ← hdiv]
  have hu := ulp_pos ((m : ℚ) * (2 : ℚ) ^ p)
  field_simp

/-- A number `m * 2 ^ p` with `|m| < 2 ^ 24` and `p >= -149` is a binary32 number. -/
theorem f32_of_significand (m p : Int) (hm : |m| < 2 ^ 24) (hp : -149 ≤ p) :
    f32 ((m : ℚ) * (2 : ℚ) ^ p) = (m : ℚ) * (2 : ℚ) ^ p := by
  apply f32_of_multiple
  have hlt : |(m : ℚ) * (2 : ℚ) ^ p| < (2 : ℚ) ^ (23 + p + 1) := by
    have h2 : (0 : ℚ) < (2 : ℚ) ^ p := by positivity
    rw [abs_mul, abs_of_pos h2]
    have hmq : |(m : ℚ)| < (2 : ℚ) ^ (24 : Int) := by
      have : ((|m| : Int) : ℚ) < ((2 ^ 24 : Int) : ℚ) := by exact_mod_cast hm
      rw [Int.cast_abs] at this
      calc |(m : ℚ)| < ((2 ^ 24 : Int) : ℚ) := this
        _ = (2 : ℚ) ^ (24 : Int) := by norm_num
    have he : (2 : ℚ) ^ (23 + p + 1) = (2 : ℚ) ^ (24 : Int) * (2 : ℚ) ^ p := by
      rw [← zpow_add₀ (by norm_num : (2 : ℚ) ≠ 0)]
      congr 1
      ring
    rw [he]
    exact mul_lt_mul_of_pos_right hmq h2
  have := binade_le_of_abs_lt _ (23 + p) (by omega) hlt
  omega

theorem f32_intCast (n : Int) (hn : |n| < 2 ^ 24) : f32 (n : ℚ) = (n : ℚ) := by
  have h := f32_of_significand n 0 hn (by decide)
  simpa using h

theorem binade_mono (x y : ℚ) (hx : 0 ≤ x) (h : x ≤ y) : binade x ≤ binade y := by
  by_contra hc
  have hlt : binade y + 1 ≤ binade x := by omega
  have hn : -126 < binade x := by
    have := binade_ge y
    omega
  have h1 := binade_le_abs x hn
  have h2 := abs_lt_binade y
  rw [abs_of_nonneg hx] at h1
  rw [abs_of_nonneg (le_trans hx h)] at h2
  have h3 : (2 : ℚ) ^ (binade y + 1) ≤ (2 : ℚ) ^ binade x :=
    zpow_le_zpow_right₀ (by norm_num) hlt
  linarith

/-- The rounded value stays inside the closed binade of the number. -/
theorem f32_le_binade_top (x : ℚ) (hx : 0 ≤ x) : f32 x ≤ (2 : ℚ) ^ (binade x + 1) := by
  have hu := ulp_pos x
  have h1 := abs_lt_binade x
  rw [abs_of_nonneg hx] at h1
  have hdiv : x / ulp x ≤ ((2 ^ 24 : Int) : ℚ) := by
    rw [div_le_iff₀ hu]
    have he : ((2 ^ 24 : Int) : ℚ) * ulp x = (2 : ℚ) ^ (binade x + 1) := by
      unfold ulp
      have : ((2 ^ 24 : Int) : ℚ) = (2 : ℚ) ^ (24 : Int) := by norm_num
      rw [this, ← zpow_add₀ (by norm_num : (2 : ℚ) ≠ 0)]
      congr 1
      ring
    rw [he]
    exact le_of_lt h1
  have hr := roundNearestEven_mono _ _ hdiv
  rw [roundNearestEven_intCast] at hr
  have hrq : (roundNearestEven (x / ulp x) : ℚ) ≤ ((2 ^ 24 : Int) : ℚ) := by exact_mod_cast hr
  unfold f32
  calc (roundNearestEven (x / ulp x) : ℚ) * ulp x ≤ ((2 ^ 24 : Int) : ℚ) * ulp x :=
        mul_le_mul_of_nonneg_right hrq (le_of_lt hu)
    _ = (2 : ℚ) ^ (binade x + 1) := by
        unfold ulp
        have : ((2 ^ 24 : Int) : ℚ) = (2 : ℚ) ^ (24 : Int) := by norm_num
        rw [this, ← zpow_add₀ (by norm_num : (2 : ℚ) ≠ 0)]
        congr 1
        ring

theorem binade_bottom_le_f32 (y : ℚ) (hy : 0 ≤ y) (hn : -126 < binade y) :
    (2 : ℚ) ^ binade y ≤ f32 y := by
  have hu := ulp_pos y
  have h1 := binade_le_abs y hn
  rw [abs_of_nonneg hy] at h1
  have he : ((2 ^ 23 : Int) : ℚ) * ulp y = (2 : ℚ) ^ binade y := by
    unfold ulp
    have : ((2 ^ 23 : Int) : ℚ) = (2 : ℚ) ^ (23 : Int) := by norm_num
    rw [this, ← zpow_add₀ (by norm_num : (2 : ℚ) ≠ 0)]
    congr 1
    ring
  have hdiv : ((2 ^ 23 : Int) : ℚ) ≤ y / ulp y := by
    rw [le_div_iff₀ hu, he]
    exact h1
  have hr := roundNearestEven_mono _ _ hdiv
  rw [roundNearestEven_intCast] at hr
  have hrq : ((2 ^ 23 : Int) : ℚ) ≤ (roundNearestEven (y / ulp y) : ℚ) := by exact_mod_cast hr
  unfold f32
  calc (2 : ℚ) ^ binade y = ((2 ^ 23 : Int) : ℚ) * ulp y := he.symm
    _ ≤ (roundNearestEven (y / ulp y) : ℚ) * ulp y :=
        mul_le_mul_of_nonneg_right hrq (le_of_lt hu)

/-- Rounding to binary32 is monotone (stated for numbers that are not negative). -/
theorem f32_mono (x y : ℚ) (hx : 0 ≤ x) (h : x ≤ y) : f32 x ≤ f32 y := by
  have hb := binade_mono x y hx h
  by_cases he : binade x = binade y
  · have hu : ulp x = ulp y := by unfold ulp; rw [he]
    have hpos := ulp_pos y
    unfold f32
    rw [hu]
    have hr := roundNearestEven_mono (x / ulp y) (y / ulp y)
      (div_le_div_of_nonneg_right h (le_of_lt hpos))
    have hrq : (roundNearestEven (x / ulp y) : ℚ) ≤ (roundNearestEven (y / ulp y) : ℚ) := by
      exact_mod_cast hr
    exact mul_le_mul_of_nonneg_right hrq (le_of_lt hpos)
  · have hlt : binade x + 1 ≤ binade y := by omega
    have hn : -126 < binade y := by
      have := binade_ge x
      omega
    calc f32 x ≤ (2 : ℚ) ^ (binade x + 1) := f32_le_binade_top x hx
      _ ≤ (2 : ℚ) ^ binade y := zpow_le_zpow_right₀ (by norm_num) hlt
      _ ≤ f32 y := binade_bottom_le_f32 y (le_trans hx h) hn

/-- Rounding a binary32 number again leaves it as it is (stated for numbers that are
not negative). -/
theorem f32_idem (x : ℚ) (hx : 0 ≤ x) : f32 (f32 x) = f32 x := by
  have htop := f32_le_binade_top x hx
  have h0 := f32_nonneg x hx
  rcases eq_or_lt_of_le htop with heq | hlt
  · rw [heq]
    have h := f32_of_significand 1 (binade x + 1) (by decide) (by have := binade_ge x; omega)
    simpa using h
  · have hb : binade (f32 x) ≤ binade x := by
      apply binade_le_of_abs_lt _ _ (binade_ge x)
      rw [abs_of_nonneg h0]
      exact hlt
    have hm := f32_of_multiple (roundNearestEven (x / ulp x)) (binade x - 23)
      (by
        have he : (roundNearestEven (x / ulp x) : ℚ) * (2 : ℚ) ^ (binade x - 23) = f32 x := rfl
        rw [he]
        omega)
    exact hm

theorem binade_eq (x : ℚ) (e : Int) (he : -126 ≤ e) (h1 : (2 : ℚ) ^ e ≤ |x|)
    (h2 : |x| < (2 : ℚ) ^ (e + 1)) : binade x = e := by
  have := le_binade_of_le_abs x e h1
  have := binade_le_of_abs_lt x e he h2
  omega

theorem roundNearestEven_of_near (q : ℚ) (m : Int) (h : |q - (m : ℚ)| < 1 / 2) :
    roundNearestEven q = m := by
  rw [abs_lt] at h
  obtain ⟨hlo, hhi⟩ := h
  have hf1 := Int.floor_le q
  have hf2 := Int.lt_floor_add_one q
  have hfm : ⌊q⌋ = m ∨ ⌊q⌋ = m - 1 := by
    have a : ⌊q⌋ < m + 1 := by
      have : ((⌊q⌋ : Int) : ℚ) < ((m + 1 : Int) : ℚ) := by push_cast; linarith
      exact_mod_cast this
    have b : m - 2 < ⌊q⌋ := by
      have : ((m - 2 : Int) : ℚ) < ((⌊q⌋ : Int) : ℚ) := by push_cast; linarith
      exact_mod_cast this
    omega
  unfold roundNearestEven
  rcases hfm with hf | hf
  · rw [hf] at hf1 hf2 ⊢
    split_ifs <;> rfl
  · rw [hf] at hf1 hf2 ⊢
    push_cast at hf1 hf2 ⊢
    split_ifs <;> first | omega | (exfalso; linarith)

theorem roundNearestEven_tie (m : Int) (hm : m % 2 = 0) :
    roundNearestEven ((m : ℚ) + 1 / 2) = m := by
  have hf : ⌊(m : ℚ) + 1 / 2⌋ = m := by
    rw [Int.floor_eq_iff]
    constructor <;> linarith
  unfold roundNearestEven
  rw [hf]
  have h1 : ¬ ((m : ℚ) + 1 / 2 - (m : ℚ) < 1 / 2) := by norm_num
  have h2 : ¬ ((m : ℚ) + 1 / 2 - (m : ℚ) > 1 / 2) := by norm_num
  rw [if_neg h1, if_neg h2, if_pos hm]

/-- Evaluation of a rounding: in the binade of exponent `e`, a number within half a
spacing of `m * 2 ^ (e - 23)` rounds to it. -/
theorem f32_eq_of_near (x : ℚ) (e m : Int) (he : -126 ≤ e) (h1 : (2 : ℚ) ^ e ≤ |x|)
    (h2 : |x| < (2 : ℚ) ^ (e + 1)) (hm : |x / (2 : ℚ) ^ (e - 23) - (m : ℚ)| < 1 / 2) :
    f32 x = (m : ℚ) * (2 : ℚ) ^ (e - 23) := by
  have hb := binade_eq x e he h1 h2
  unfold f32 ulp
  rw [hb, roundNearestEven_of_near _ m hm]

/-- Evaluation of a rounding at a tie: a number half way between two neighbours
rounds to the one with the even significand. -/
theorem f32_eq_of_tie (x : ℚ) (e m : Int) (he : -126 ≤ e) (h1 : (2 : ℚ) ^ e ≤ |x|)
    (h2 : |x| < (2 : ℚ) ^ (e + 1)) (hm : x / (2 : ℚ) ^ (e - 23) = (m : ℚ) + 1 / 2)
    (heven : m % 2 = 0) :
    f32 x = (m : ℚ) * (2 : ℚ) ^ (e - 23) := by
  have hb := binade_eq x e he h1 h2
  unfold f32 ulp
  rw [hb, hm, roundNearestEven_tie m heven]

theorem f32_one : f32 1 = 1 := by
  have h := f32_intCast 1 (by decide)
  simpa using h

theorem f32_half : f32 (1 / 2) = 1 / 2 := by
  have h := f32_of_significand 1 (-1) (by decide) (by decide)
  norm_num at h
  exact h

theorem f32_c299 : f32 0.299 = 10032775 * (2 : ℚ) ^ (-25 : Int) := by
  have h := f32_eq_of_near 0.299 (-2) 10032775 (by decide) (by norm_num [abs_of_pos])
    (by norm_num [abs_of_pos]) (by rw [abs_lt]; constructor <;> norm_num)
  norm_num at h ⊢
  exact h


theorem forUpTo_store_apply {α : Type} (n : Nat) (g : Int → α → α) (a : Int → α) (k : Int) :
    forUpTo n (fun i b => store b i (g i (b i))) a k
      = if 0 ≤ k ∧ k < n then g k (a k) else a k := by
  induction n with
  | zero =>
    have hk : ¬ (0 ≤ k ∧ k < ((0 : Nat) : Int)) := by
      push_cast; omega
    rw [if_neg hk]; rfl
  | succ n ih =>
    simp only [forUpTo, store]
    by_cases hk : k = (n : Int)
    · subst hk
      simp [ih]
    · rw [if_neg hk, ih]
      by_cases h : 0 ≤ k ∧ k < (n : Int)
      · rw [if_pos h, if_pos]; push_cast; omega
      · rw [if_neg h, if_neg]; push_cast; omega

theorem arrayOf_five (a b c d e : ℚ) :
    arrayOf [a, b, c, d, e] 0 = a ∧ arrayOf [a, b, c, d, e] 1 = b ∧
    arrayOf [a, b, c, d, e] 2 = c ∧ arrayOf [a, b, c, d, e] 3 = d ∧
    arrayOf [a, b, c, d, e] 4 = e := by
  refine ⟨?_, ?_, ?_, ?_, ?_⟩ <;> simp [arrayOf]

theorem scene_switch_spec (scene : Int) (a : Int → ℚ) :
    paramsOfArray (scene_switch scene a) = sceneAdjust scene (paramsOfArray a) := by
  have hs : scene = 0 ∨ scene = 1 ∨ scene = 2 ∨ scene = 3 ∨ scene = 4 ∨ scene = 5 ∨
      (scene ≠ 0 ∧ scene ≠ 1 ∧ scene ≠ 2 ∧ scene ≠ 3 ∧ scene ≠ 4 ∧ scene ≠ 5) := by
    omega
  rcases hs with c | c | c | c | c | c | ⟨c0, c1, c2, c3, c4, c5⟩
  · subst c; simp [paramsOfArray, scene_switch, sceneAdjust, sceneOfId, sceneAdjustOf, store]
  · subst c; simp [paramsOfArray, scene_switch, sceneAdjust, sceneOfId, sceneAdjustOf, store]
  · subst c; simp [paramsOfArray, scene_switch, sceneAdjust, sceneOfId, sceneAdjustOf, store]
  · subst c; simp [paramsOfArray, scene_switch, sceneAdjust, sceneOfId, sceneAdjustOf, store]
  · subst c; simp [paramsOfArray, scene_switch, sceneAdjust, sceneOfId, sceneAdjustOf, store]
  · subst c; simp [paramsOfArray, scene_switch, sceneAdjust, sceneOfId, sceneAdjustOf, store]
  · simp [paramsOfArray, scene_switch, sceneAdjust, sceneOfId, sceneAdjustOf, c0, c1, c2, c3,
      c4, c5]

theorem generate_params_spec (s : Globals) :
    paramsOfArray (generate_params s) = clampParameters (unclampedParameters s) := by
  obtain ⟨h0, h1, h2, h3, h4⟩ := arrayOf_five 1.1 1.15 1.2 0.08 0.5
  by_cases hc : s.personal_memory.favorite_count > 0
  · have h := scene_switch_spec s.current_scene_type
      (store (store (store (store (arrayOf [1.1, 1.15, 1.2, 0.08, 0.5]) 0
        (arrayOf [1.1, 1.15, 1.2, 0.08, 0.5] 0 +
          (s.personal_memory.personal_bias 0 - 0.5) * 0.3 *
            ((s.personal_memory.learning_strength : ℚ) / 200))) 1
        (arrayOf [1.1, 1.15, 1.2, 0.08, 0.5] 1 +
          (s.personal_memory.personal_bias 4 - 0.5) * 0.4 *
            ((s.personal_memory.learning_strength : ℚ) / 200))) 2
        (arrayOf [1.1, 1.15, 1.2, 0.08, 0.5] 2 +
          (s.personal_memory.personal_bias 6 - 0.5) * 0.4 *
            ((s.personal_memory.learning_strength : ℚ) / 200))) 4
        (0.5 + (s.personal_memory.personal_bias 5 - 0.5) *
            ((s.personal_memory.learning_strength : ℚ) / 200)))
    have hb : paramsOfArray
      (store (store (store (store (arrayOf [1.1, 1.15, 1.2, 0.08, 0.5]) 0
        (arrayOf [1.1, 1.15, 1.2, 0.08, 0.5] 0 +
          (s.personal_memory.personal_bias 0 - 0.5) * 0.3 *
            ((s.personal_memory.learning_strength : ℚ) / 200))) 1
        (arrayOf [1.1, 1.15, 1.2, 0.08, 0.5] 1 +
          (s.personal_memory.personal_bias 4 - 0.5) * 0.4 *
            ((s.personal_memory.learning_strength : ℚ) / 200))) 2
        (arrayOf [1.1, 1.15, 1.2, 0.08, 0.5] 2 +
          (s.personal_memory.personal_bias 6 - 0.5) * 0.4 *
            ((s.personal_memory.learning_strength : ℚ) / 200))) 4
        (0.5 + (s.personal_memory.personal_bias 5 - 0.5) *
            ((s.personal_memory.learning_strength : ℚ) / 200))) = biased_parameters s := by
      simp [paramsOfArray, biased_parameters, store, h0, h1, h2, h3]
    rw [hb] at h
    simp only [unclampedParameters, if_pos hc, ← h]
    simp [paramsOfArray, generate_params, clampParameters, store, clampTo, fmaxf, fminf, hc]
  · simp [paramsOfArray, generate_params, unclampedParameters, defaultParameters,
      clampParameters, store, clampTo, fmaxf, fminf, hc, h0, h1, h2, h3, h4]

theorem generate_result (s : Globals) :
    (generate_personalized_parameters s).2 = clampParameters (unclampedParameters s) := by
  rw [← generate_params_spec]
  rfl

theorem clampTo_range (lo hi x : ℚ) (h : lo ≤ hi) :
    lo ≤ clampTo lo hi x ∧ clampTo lo hi x ≤ hi :=
  ⟨le_max_left _ _, max_le h (min_le_left _ _)⟩

theorem sceneCategory_id_injective (c d : SceneCategory) (h : c.id = d.id) : c = d := by
  cases c <;> cases d <;> first | rfl | (exact absurd h (by decide))

theorem detect_scene_type_classify (sig : Int → ℚ) :
    detect_scene_type sig = (classify sig).id := by
  unfold detect_scene_type classify cascade
  by_cases h1 : rule1 sig
  · have h1c := h1
    unfold rule1 at h1c
    simp [h1, h1c, SceneCategory.id]
  by_cases h2 : rule2 sig
  · have h1c := h1
    have h2c := h2
    unfold rule1 at h1c
    unfold rule2 at h2c
    simp only [List.find?, h1, h2, decide_True, decide_False, SceneCategory.id]
    rw [if_neg h1c, if_pos h2c]
  by_cases h3 : rule3 sig
  · have h1c := h1
    have h2c := h2
    have h3c := h3
    unfold rule1 at h1c
    unfold rule2 at h2c
    unfold rule3 at h3c
    simp only [List.find?, h1, h2, h3, decide_True, decide_False, SceneCategory.id]
    rw [if_neg h1c, if_neg h2c, if_pos h3c]
  by_cases h4 : rule4 sig
  · have h1c := h1
    have h2c := h2
    have h3c := h3
    have h4c := h4
    unfold rule1 at h1c
    unfold rule2 at h2c
    unfold rule3 at h3c
    unfold rule4 at h4c
    simp only [List.find?, h1, h2, h3, h4, decide_True, decide_False, SceneCategory.id]
    rw [if_neg h1c, if_neg h2c, if_neg h3c, if_pos h4c]
  by_cases h5 : rule5 sig
  · have h1c := h1
    have h2c := h2
    have h3c := h3
    have h4c := h4
    have h5c := h5
    unfold rule1 at h1c
    unfold rule2 at h2c
    unfold rule3 at h3c
    unfold rule4 at h4c
    unfold rule5 at h5c
    simp only [List.find?, h1, h2, h3, h4, h5, decide_True, decide_False, SceneCategory.id]
    rw [if_neg h1c, if_neg h2c, if_neg h3c, if_neg h4c, if_pos h5c]
  have h1c := h1
  have h2c := h2
  have h3c := h3
  have h4c := h4
  have h5c := h5
  unfold rule1 at h1c
  unfold rule2 at h2c
  unfold rule3 at h3c
  unfold rule4 at h4c
  unfold rule5 at h5c
  by_cases h6 : rule6 sig
  · have h6c := h6
    unfold rule6 at h6c
    simp only [List.find?, h1, h2, h3, h4, h5, h6, decide_True, decide_False, SceneCategory.id]
    rw [if_neg h1c, if_neg h2c, if_neg h3c, if_neg h4c, if_neg h5c, if_pos h6c]
  · have h6c := h6
    unfold rule6 at h6c
    simp only [List.find?, h1, h2, h3, h4, h5, h6, decide_True, decide_False, SceneCategory.id]
    rw [if_neg h1c, if_neg h2c, if_neg h3c, if_neg h4c, if_neg h5c, if_neg h6c]

theorem addFavorite_append (s : Globals) (c : FavoriteCall)
    (hc : s.personal_memory.favorite_count < 100) :
    (addFavoriteCall s c).personal_memory.favorite_count
      = s.personal_memory.favorite_count + 1 ∧
    slotHolds (addFavoriteCall s c) s.personal_memory.favorite_count c ∧
    ∀ (j : Int) (d : FavoriteCall), j < s.personal_memory.favorite_count →
      slotHolds s j d → slotHolds (addFavoriteCall s c) j d := by
  have hn : ¬ s.personal_memory.favorite_count ≥ MAX_FAVORITES := by
    unfold MAX_FAVORITES; omega
  refine ⟨?_, ?_, ?_⟩
  · simp only [addFavoriteCall, addFavorite, if_neg hn]
  · refine ⟨?_, ?_⟩
    · intro i
      have := i.isLt
      simp only [addFavoriteCall, addFavorite, if_neg hn, memcpy, FEATURE_COUNT]
      rw [if_pos (by omega)]
      congr 1
      omega
    · simp only [addFavoriteCall, addFavorite, if_neg hn, store, PARAM_COUNT]
      simp
  · intro j d hj hd
    obtain ⟨hf, h0, h1, h2, h3, h4⟩ := hd
    refine ⟨?_, ?_⟩
    · intro i
      have := i.isLt
      rw [← hf i]
      simp only [addFavoriteCall, addFavorite, if_neg hn, memcpy, FEATURE_COUNT]
      rw [if_neg (by omega)]
    · rw [← h0, ← h1, ← h2, ← h3, ← h4]
      simp only [addFavoriteCall, addFavorite, if_neg hn, store, PARAM_COUNT]
      refine ⟨?_, ?_, ?_, ?_, ?_⟩ <;>
        (repeat rw [if_neg (by omega)])

theorem addFavorite_evict (s : Globals) (c : FavoriteCall)
    (hc : s.personal_memory.favorite_count = 100) :
    (addFavoriteCall s c).personal_memory.favorite_count = 100 ∧
    slotHolds (addFavoriteCall s c) 99 c ∧
    ∀ (j : Int) (d : FavoriteCall), 0 ≤ j → j < 99 →
      slotHolds s (j + 1) d → slotHolds (addFavoriteCall s c) j d := by
  have hn : s.personal_memory.favorite_count ≥ MAX_FAVORITES := by
    unfold MAX_FAVORITES; omega
  refine ⟨?_, ?_, ?_⟩
  · simp only [addFavoriteCall, addFavorite, if_pos hn]
    omega
  · refine ⟨?_, ?_⟩
    · intro i
      have := i.isLt
      simp only [addFavoriteCall, addFavorite, if_pos hn]
      simp only [memcpy, FEATURE_COUNT, hc]
      rw [if_pos (by omega)]
      congr 1
      omega
    · simp only [addFavoriteCall, addFavorite, if_pos hn]
      simp only [store, PARAM_COUNT, hc]
      simp
  · intro j d hj0 hj hd
    obtain ⟨hf, h0, h1, h2, h3, h4⟩ := hd
    refine ⟨?_, ?_⟩
    · intro i
      have := i.isLt
      rw [← hf i]
      simp only [addFavoriteCall, addFavorite, if_pos hn]
      simp only [memcpy, memmove, FEATURE_COUNT, MAX_FAVORITES, hc]
      rw [if_neg (by omega), if_pos (by omega)]
      congr 1
      omega
    · rw [← h0, ← h1, ← h2, ← h3, ← h4]
      simp only [addFavoriteCall, addFavorite, if_pos hn]
      simp only [store, memcpy, memmove, PARAM_COUNT, MAX_FAVORITES, hc]
      refine ⟨?_, ?_, ?_, ?_, ?_⟩ <;>
        (repeat rw [if_neg (by omega)]) <;>
        rw [if_pos (by omega)] <;> congr 1 <;> omega

/-- The invariant of a run of `n` calls from a state with no favorite. -/
theorem addFavorites_invariant (calls : Nat → FavoriteCall) (s : Globals)
    (h0 : s.personal_memory.favorite_count = 0) (n : Nat) :
    (addFavorites calls n s).personal_memory.favorite_count = ((min n 100 : Nat) : Int) ∧
    ∀ j : Nat, j < min n 100 →
      slotHolds (addFavorites calls n s) (j : Int) (calls (n - min n 100 + j)) := by
  induction n with
  | zero =>
    refine ⟨by simpa [addFavorites] using h0, ?_⟩
    intro j hj
    simp at hj
  | succ n ih =>
    obtain ⟨hcount, hslots⟩ := ih
    by_cases hn : n < 100
    · have hmin : min n 100 = n := by omega
      have hmin1 : min (n + 1) 100 = n + 1 := by omega
      rw [hmin] at hcount hslots
      obtain ⟨hc, hnew, hold⟩ := addFavorite_append (addFavorites calls n s) (calls n)
        (by rw [hcount]; omega)
      rw [hmin1]
      refine ⟨?_, ?_⟩
      · show (addFavoriteCall (addFavorites calls n s) (calls n)).personal_memory.favorite_count
          = _
        rw [hc, hcount]; push_cast; rfl
      · intro j hj
        show slotHolds (addFavoriteCall (addFavorites calls n s) (calls n)) _ _
        by_cases hjn : j = n
        · subst hjn
          rw [hcount] at hnew
          have he : j + 1 - (j + 1) + j = j := by omega
          rw [he]
          exact hnew
        · have hlt : j < n := by omega
          have he : n + 1 - (n + 1) + j = n - n + j := by omega
          rw [he]
          exact hold j _ (by rw [hcount]; omega) (hslots j hlt)
    · have hmin : min n 100 = 100 := by omega
      have hmin1 : min (n + 1) 100 = 100 := by omega
      rw [hmin] at hcount hslots
      obtain ⟨hc, hnew, hold⟩ := addFavorite_evict (addFavorites calls n s) (calls n)
        (by rw [hcount]; rfl)
      rw [hmin1]
      refine ⟨?_, ?_⟩
      · show (addFavoriteCall (addFavorites calls n s) (calls n)).personal_memory.favorite_count
          = _
        rw [hc]; rfl
      · intro j hj
        show slotHolds (addFavoriteCall (addFavorites calls n s) (calls n)) _ _
        by_cases hjn : j = 99
        · subst hjn
          have he : n + 1 - 100 + 99 = n := by omega
          rw [he]
          exact hnew
        · have hlt : j + 1 < 100 := by omega
          have he : n + 1 - 100 + j = n - 100 + (j + 1) := by omega
          rw [he]
          have h := hslots (j + 1) hlt
          push_cast at h
          exact hold j _ (by omega) (by omega) h

theorem strideLoop_unfold_pos {σ : Type} (step : Int) (hstep : 0 < step) (bound : Int)
    (body : Int → σ → σ) (x : Int) (s : σ) (h : x < bound) :
    strideLoop step hstep bound body x s
      = strideLoop step hstep bound body (x + step) (body x s) := by
  rw [strideLoop, if_pos h]

theorem strideLoop_unfold_neg {σ : Type} (step : Int) (hstep : 0 < step) (bound : Int)
    (body : Int → σ → σ) (x : Int) (s : σ) (h : ¬ x < bound) :
    strideLoop step hstep bound body x s = s := by
  rw [strideLoop, if_neg h]

/-- The invariant rule of the loop: a property kept by the body while `x < bound`
holds of the final state, at an exit value of `x` that is at least `bound`. -/
theorem strideLoop_invariant {σ : Type} (step : Int) (hstep : 0 < step) (bound : Int)
    (body : Int → σ → σ) (I : Int → σ → Prop)
    (hI : ∀ x s, x < bound → I x s → I (x + step) (body x s)) :
    ∀ (m : Nat) (x : Int) (s : σ), (bound - x).toNat = m → I x s →
      ∃ x', bound ≤ x' ∧ I x' (strideLoop step hstep bound body x s) := by
  intro m
  induction m using Nat.strong_induction_on with
  | _ m ih =>
    intro x s hm h
    by_cases hlt : x < bound
    · rw [strideLoop_unfold_pos _ _ _ _ _ _ hlt]
      exact ih (bound - (x + step)).toNat (by omega) (x + step) (body x s) rfl (hI x s hlt h)
    · rw [strideLoop_unfold_neg _ _ _ _ _ _ hlt]
      exact ⟨x, by omega, h⟩

theorem sample_image_gray :
    sample_image grayImage 16 16
      = { brightness_sum := 512 / 255, r_sum := 512 / 255, g_sum := 512 / 255,
          b_sum := 512 / 255, min_bright := 128 / 255, max_bright := 128 / 255,
          warm_sum := 768 / 255, cool_sum := 512 / 255, saturation_sum := 0,
          sample_count := 4 } := by
  norm_num [sample_image, grayImage, strideLoop_unfold_pos, strideLoop_unfold_neg, sample_pixel,
    u8, fmaxf, fminf]

theorem extract_photo_signature_gray :
    extract_photo_signature grayImage 16 16 0 = 128 / 255 ∧
    extract_photo_signature grayImage 16 16 4 = 0 ∧
    extract_photo_signature grayImage 16 16 5 = 153600 / 256051 ∧
    extract_photo_signature grayImage 16 16 6 = 0 := by
  simp only [extract_photo_signature, sample_image_gray]
  simp [arrayOf]
  norm_num

theorem u8_range (v : Int) : 0 ≤ u8 v ∧ u8 v < 256 := by
  unfold u8
  omega

/-- A channel whose value is the input byte over 255 is written back as that
byte. -/
theorem u8_toJbyte_scaled (v : Int) (q : ℚ) (hq : q = (u8 v : ℚ) / 255) :
    u8 (toJbyte (fmaxf 0 (fminf 1 q) * 255)) = u8 v := by
  obtain ⟨h0, h1⟩ := u8_range v
  have h0q : (0 : ℚ) ≤ (u8 v : ℚ) := by exact_mod_cast h0
  have h1q : (u8 v : ℚ) ≤ 255 := by
    have : u8 v ≤ 255 := by omega
    exact_mod_cast this
  have hq0 : 0 ≤ q := by rw [hq]; positivity
  have hq1 : q ≤ 1 := by
    rw [hq, div_le_one (by norm_num)]
    exact h1q
  have hc : fmaxf 0 (fminf 1 q) * 255 = (u8 v : ℚ) := by
    unfold fmaxf fminf
    rw [min_eq_right hq1, max_eq_right hq0, hq]
    field_simp
  rw [hc]
  unfold toJbyte truncToInt
  rw [if_pos h0q, Int.floor_intCast]
  unfold u8 at h0 h1 ⊢
  omega

theorem rule1_rule3_exclusive (sig : Int → ℚ) : ¬ (rule1 sig ∧ rule3 sig) := by
  rintro ⟨⟨h1, -⟩, ⟨-, h3⟩⟩
  linarith

theorem transform_pixel_exact_identity (inp : Int → Int) (sharpness : ℚ) (i : Int)
    (out : Int → Int) (k : Int) :
    u8 (transform_pixel_exact inp (identityParameters sharpness) i out k)
      = if k = i ∨ k = i + 1 ∨ k = i + 2 then u8 (inp k) else u8 (out k) := by
  unfold transform_pixel_exact identityParameters
  simp only [store]
  by_cases h2 : k = i + 2
  · rw [if_pos h2, if_pos (Or.inr (Or.inr h2)), h2]
    apply u8_toJbyte_scaled
    norm_num
  rw [if_neg h2]
  by_cases h1 : k = i + 1
  · rw [if_pos h1, if_pos (Or.inr (Or.inl h1)), h1]
    apply u8_toJbyte_scaled
    norm_num
  rw [if_neg h1]
  by_cases h0 : k = i
  · rw [if_pos h0, if_pos (Or.inl h0), h0]
    apply u8_toJbyte_scaled
    norm_num
  rw [if_neg h0, if_neg (by tauto)]

theorem transform_pixels_exact_identity (inp out : Int → Int) (width height : Int) (sharpness : ℚ)
    (k : Int) (h0 : 0 ≤ k) (hk : k < width * height * 3) :
    u8 (transform_pixels_exact inp out width height (identityParameters sharpness) k) = u8 (inp k) := by
  have h := strideLoop_invariant 3 (by decide) (width * height * 3)
    (transform_pixel_exact inp (identityParameters sharpness))
    (fun x o => 0 ≤ x ∧ ∀ j, 0 ≤ j → j < x → u8 (o j) = u8 (inp j))
    (by
      rintro x o - ⟨hx, ho⟩
      refine ⟨by omega, ?_⟩
      intro j hj0 hj
      rw [transform_pixel_exact_identity]
      by_cases hc : j = x ∨ j = x + 1 ∨ j = x + 2
      · rw [if_pos hc]
      · rw [if_neg hc]
        exact ho j hj0 (by omega))
    _ 0 out rfl ⟨le_refl 0, by intro j hj0 hj; omega⟩
  obtain ⟨x', hx', -, hall⟩ := h
  exact hall k h0 (by omega)

/-! ## Claims -/

/-- C2: for every state of the globals (any bias vector, any integer learning
strength, any current scene, any favorite count) the parameters returned by
`generate_personalized_parameters` satisfy exposure in [0.8, 1.8], contrast in
[0.8, 1.5], saturation in [0.8, 1.8], sharpness in [0.01, 0.2] and warmth in
[0.2, 0.8]. -/
theorem generate_within_ranges (s : Globals) :
    (0.8 ≤ (generate_personalized_parameters s).2.exposure ∧
      (generate_personalized_parameters s).2.exposure ≤ 1.8) ∧
    (0.8 ≤ (generate_personalized_parameters s).2.contrast ∧
      (generate_personalized_parameters s).2.contrast ≤ 1.5) ∧
    (0.8 ≤ (generate_personalized_parameters s).2.saturation ∧
      (generate_personalized_parameters s).2.saturation ≤ 1.8) ∧
    (0.01 ≤ (generate_personalized_parameters s).2.sharpness ∧
      (generate_personalized_parameters s).2.sharpness ≤ 0.2) ∧
    (0.2 ≤ (generate_personalized_parameters s).2.warmth ∧
      (generate_personalized_parameters s).2.warmth ≤ 0.8) := by
  rw [generate_result]
  exact ⟨clampTo_range _ _ _ (by norm_num), clampTo_range _ _ _ (by norm_num),
    clampTo_range _ _ _ (by norm_num), clampTo_range _ _ _ (by norm_num),
    clampTo_range _ _ _ (by norm_num)⟩

/-- C3: when the favorite count is 0 (whatever the bias, the learning strength and
the current scene) `generate_personalized_parameters` returns exactly the default
parameters {1.1, 1.15, 1.2, 0.08, 0.5}, and the clamp leaves the defaults as they
are. -/
theorem generate_empty_memory (s : Globals) (h : s.personal_memory.favorite_count = 0) :
    (generate_personalized_parameters s).2
        = { exposure := 1.1, contrast := 1.15, saturation := 1.2, sharpness := 0.08,
            warmth := 0.5 } ∧
    clampParameters { exposure := 1.1, contrast := 1.15, saturation := 1.2, sharpness := 0.08,
                      warmth := 0.5 }
        = { exposure := 1.1, contrast := 1.15, saturation := 1.2, sharpness := 0.08,
            warmth := 0.5 } := by
  have hc : clampParameters defaultParameters = defaultParameters := by
    simp only [clampParameters, clampTo, defaultParameters]
    norm_num
  refine ⟨?_, hc⟩
  rw [generate_result]
  have hu : unclampedParameters s = defaultParameters := by
    simp [unclampedParameters, h]
  rw [hu]
  exact hc

/-- Witness of C3: after `initPersonality` on the start state the favorite count is
0 and the defaults come back. -/
theorem generate_empty_memory_witness :
    (initPersonality startGlobals 0).personal_memory.favorite_count = 0 ∧
    (generate_personalized_parameters (initPersonality startGlobals 0)).2
        = { exposure := 1.1, contrast := 1.15, saturation := 1.2, sharpness := 0.08,
            warmth := 0.5 } :=
  ⟨rfl, (generate_empty_memory (initPersonality startGlobals 0) rfl).1⟩

/-- C4: `detect_scene_type` is the ordered cascade with the first match winning: its
result is the index of the category of the first matching rule in the order
LowLight, Portrait, Sunset, Landscape, Macro, Indoor (Unknown when none matches),
so exactly one category is returned; a vector meeting rule 1 is LowLight whatever
other rules it meets, and a vector meeting rules 2 and 3 is Portrait. -/
theorem detect_scene_type_is_cascade (sig : Int → ℚ) :
    detect_scene_type sig = (classify sig).id ∧
    (∃! c : SceneCategory, detect_scene_type sig = c.id) ∧
    (rule1 sig → detect_scene_type sig = SceneCategory.LowLight.id) ∧
    (rule2 sig ∧ rule3 sig → detect_scene_type sig = SceneCategory.Portrait.id) := by
  refine ⟨detect_scene_type_classify sig, ?_, ?_, ?_⟩
  · refine ⟨classify sig, detect_scene_type_classify sig, ?_⟩
    intro d hd
    rw [detect_scene_type_classify] at hd
    exact (sceneCategory_id_injective _ _ hd).symm
  · intro h
    have hc := h
    unfold rule1 at hc
    unfold detect_scene_type
    simp only []
    rw [if_pos hc]
    rfl
  · rintro ⟨h2, -⟩
    have hc := h2
    unfold rule2 at hc
    have h1 : ¬ (sig 0 < 0.3 ∧ sig 4 < 0.2) := by
      rintro ⟨h, -⟩
      have := hc.1
      linarith
    unfold detect_scene_type
    simp only []
    rw [if_neg h1, if_pos hc]
    rfl

/-- Witness of C4: a vector that meets rule 1 and rule 5 is LowLight (index 2), and
a vector that meets rule 2 and rule 3 is Portrait (index 0). -/
theorem detect_scene_type_is_cascade_witness :
    (rule1 (arrayOf [0.2, 0, 0, 0, 0.1, 0.9, 0.9, 0, 0, 0]) ∧
      rule5 (arrayOf [0.2, 0, 0, 0, 0.1, 0.9, 0.9, 0, 0, 0]) ∧
      detect_scene_type (arrayOf [0.2, 0, 0, 0, 0.1, 0.9, 0.9, 0, 0, 0]) = 2) ∧
    (rule2 (arrayOf [0.5, 0, 0, 0, 0, 0.9, 0, 1.2, 0, 0]) ∧
      rule3 (arrayOf [0.5, 0, 0, 0, 0, 0.9, 0, 1.2, 0, 0]) ∧
      detect_scene_type (arrayOf [0.5, 0, 0, 0, 0, 0.9, 0, 1.2, 0, 0]) = 0) := by
  have r1 : rule1 (arrayOf [0.2, 0, 0, 0, 0.1, 0.9, 0.9, 0, 0, 0]) := by
    simp [rule1, arrayOf]; norm_num
  have r5 : rule5 (arrayOf [0.2, 0, 0, 0, 0.1, 0.9, 0.9, 0, 0, 0]) := by
    simp [rule5, arrayOf]; norm_num
  have r2 : rule2 (arrayOf [0.5, 0, 0, 0, 0, 0.9, 0, 1.2, 0, 0]) := by
    simp [rule2, arrayOf]; norm_num
  have r3 : rule3 (arrayOf [0.5, 0, 0, 0, 0, 0.9, 0, 1.2, 0, 0]) := by
    simp [rule3, arrayOf]; norm_num
  exact ⟨⟨r1, r5, (detect_scene_type_is_cascade _).2.2.1 r1⟩,
    ⟨r2, r3, (detect_scene_type_is_cascade _).2.2.2 ⟨r2, r3⟩⟩⟩

/-- C5: after `clearPersonality`, from any state, the favorite count is 0,
`total_images_processed` is 0, each of the 10 bias components is 0.5, each of the 7
scene pattern counts is 0, and `learning_strength` is what it was before. -/
theorem clearPersonality_postcondition (s : Globals) :
    (clearPersonality s).personal_memory.favorite_count = 0 ∧
    (clearPersonality s).total_images_processed = 0 ∧
    (∀ i : Fin 10, (clearPersonality s).personal_memory.personal_bias ((i : Nat) : Int) = 0.5) ∧
    (∀ i : Fin 7, (clearPersonality s).personal_memory.scene_patterns ((i : Nat) : Int) = 0) ∧
    (clearPersonality s).personal_memory.learning_strength
      = s.personal_memory.learning_strength := by
  refine ⟨rfl, rfl, ?_, ?_, rfl⟩
  · intro i
    have h := forUpTo_store_apply 10 (fun _ _ => (0.5 : ℚ)) s.personal_memory.personal_bias
      ((i : Nat) : Int)
    have hi : (0 : Int) ≤ ((i : Nat) : Int) ∧ ((i : Nat) : Int) < ((10 : Nat) : Int) := by
      have := i.isLt
      omega
    rw [if_pos hi] at h
    exact h
  · intro i
    have h := forUpTo_store_apply 7 (fun _ _ => (0 : Int)) s.personal_memory.scene_patterns
      ((i : Nat) : Int)
    have hi : (0 : Int) ≤ ((i : Nat) : Int) ∧ ((i : Nat) : Int) < ((7 : Nat) : Int) := by
      have := i.isLt
      omega
    rw [if_pos hi] at h
    exact h

/-- C6: the state update of `processImage`, from any state and for any image,
increases `total_images_processed` by exactly 1, sets `current_scene_type` to
`detect_scene_type` of the image's signature, and leaves the bias vector, the stored
favorites, the favorite count, the scene pattern counts and `learning_strength`
unchanged. -/
theorem processImage_frame (s : Globals) (inp out : Int → Int) (width height : Int) :
    (processImage s inp out width height).1.total_images_processed
      = s.total_images_processed + 1 ∧
    (processImage s inp out width height).1.current_scene_type
      = detect_scene_type (extract_photo_signature inp width height) ∧
    (processImage s inp out width height).1.personal_memory.personal_bias
      = s.personal_memory.personal_bias ∧
    (processImage s inp out width height).1.personal_memory.favorite_features
      = s.personal_memory.favorite_features ∧
    (processImage s inp out width height).1.personal_memory.favorite_parameters
      = s.personal_memory.favorite_parameters ∧
    (processImage s inp out width height).1.personal_memory.favorite_count
      = s.personal_memory.favorite_count ∧
    (processImage s inp out width height).1.personal_memory.scene_patterns
      = s.personal_memory.scene_patterns ∧
    (processImage s inp out width height).1.personal_memory.learning_strength
      = s.personal_memory.learning_strength :=
  ⟨rfl, rfl, rfl, rfl, rfl, rfl, rfl, rfl⟩

/-- C7: after `addFavorite`, from any state and for any favorite, each of the 10
bias components is `bias[i] * (1 - rate) + s[i] * rate`, where `s` is the signature
of the favorite image and `rate = 0.1 * (learning_strength / 100)` with the learning
strength held when the call is made. -/
theorem addFavorite_bias_update (s : Globals) (image : Int → Int) (width height : Int)
    (exposure contrast saturation sharpness warmth : ℚ) (now : Int) (i : Fin 10) :
    (addFavorite s image width height exposure contrast saturation sharpness warmth
        now).personal_memory.personal_bias ((i : Nat) : Int)
      = s.personal_memory.personal_bias ((i : Nat) : Int)
          * (1 - 0.1 * ((s.personal_memory.learning_strength : ℚ) / 100))
        + extract_photo_signature image width height ((i : Nat) : Int)
          * (0.1 * ((s.personal_memory.learning_strength : ℚ) / 100)) := by
  have hi : (0 : Int) ≤ ((i : Nat) : Int) ∧ ((i : Nat) : Int) < ((10 : Nat) : Int) := by
    have := i.isLt
    omega
  have h := forUpTo_store_apply 10
    (fun k v => v * (1 - 0.1 * ((s.personal_memory.learning_strength : ℚ) / 100))
      + extract_photo_signature image width height k
        * (0.1 * ((s.personal_memory.learning_strength : ℚ) / 100)))
    s.personal_memory.personal_bias ((i : Nat) : Int)
  rw [if_pos hi] at h
  rw [← h]
  unfold addFavorite
  by_cases hc : s.personal_memory.favorite_count ≥ MAX_FAVORITES
  · simp only [if_pos hc]
  · simp only [if_neg hc]

/-- C8: when the favorite count is positive, `generate_personalized_parameters`
returns `clamp (sceneAdjust p)`, where `p` is the default parameter set nudged by the
bias with `biasStrength = learning_strength / 200` (sharpness stays 0.08),
`sceneAdjust` multiplies by the constants of the current scene and is the identity
for Unknown, and the clamp to each parameter's range comes last. -/
theorem generate_with_favorites (s : Globals) (h : s.personal_memory.favorite_count > 0) :
    (generate_personalized_parameters s).2
      = clampParameters (sceneAdjust s.current_scene_type (biased_parameters s)) ∧
    sceneAdjust SceneCategory.Unknown.id (biased_parameters s) = biased_parameters s := by
  refine ⟨?_, rfl⟩
  rw [generate_result]
  simp only [unclampedParameters, if_pos h]

/-- Witness of C8: with one favorite, learning strength 100, every bias component 1
and the Sunset scene, the parameters are {1.175, 1.25, 1.625, 0.08, 0.8}: the warmth
0.75 * 1.4 is clamped to 0.8. -/
theorem generate_with_favorites_witness :
    sunsetGlobals.personal_memory.favorite_count > 0 ∧
    (generate_personalized_parameters sunsetGlobals).2
      = { exposure := 1.175, contrast := 1.25, saturation := 1.625, sharpness := 0.08,
          warmth := 0.8 } := by
  have h : sunsetGlobals.personal_memory.favorite_count > 0 := by decide
  refine ⟨h, ?_⟩
  rw [(generate_with_favorites sunsetGlobals h).1]
  simp only [clampParameters, clampTo, sceneAdjust, sceneOfId, sceneAdjustOf, biased_parameters,
    sunsetGlobals]
  norm_num

/-- C1: after `n` calls of `addFavorite` on a freshly initialised memory the favorite
count is `min n 100`, and slot `j` (for `j` below the count) holds the signature and
the five user parameters of call number `n - count + j + 1`, that is of
`calls (n - count + j)` when the calls are numbered from 0. -/
theorem addFavorite_fifo (s0 : Globals) (now : Int) (calls : Nat → FavoriteCall) (n : Nat) :
    (addFavorites calls n (initPersonality s0 now)).personal_memory.favorite_count
      = ((min n 100 : Nat) : Int) ∧
    ∀ j : Fin (min n 100),
      slotHolds (addFavorites calls n (initPersonality s0 now)) ((j : Nat) : Int)
        (calls (n - min n 100 + (j : Nat))) := by
  obtain ⟨hc, hs⟩ := addFavorites_invariant calls (initPersonality s0 now) rfl n
  exact ⟨hc, fun j => hs j j.isLt⟩

/-- Witness of C1: after 101 calls told apart by their exposure (0, 1, .., 100) there
are exactly 100 favorites, the last slot holds the 101st call (exposure 100), the
first slot holds the second call (exposure 1), and no slot holds the exposure 0 of the
first call. -/
theorem addFavorite_fifo_witness :
    (addFavorites numberedCall 101 (initPersonality startGlobals 0)).personal_memory.favorite_count
      = 100 ∧
    (addFavorites numberedCall 101
      (initPersonality startGlobals 0)).personal_memory.favorite_parameters (99 * 5 + 0) = 100 ∧
    (addFavorites numberedCall 101
      (initPersonality startGlobals 0)).personal_memory.favorite_parameters (0 * 5 + 0) = 1 ∧
    ∀ j : Fin 100, (addFavorites numberedCall 101
      (initPersonality startGlobals 0)).personal_memory.favorite_parameters
        (((j : Nat) : Int) * 5 + 0) ≠ 0 := by
  obtain ⟨hc, hs⟩ := addFavorite_fifo startGlobals 0 numberedCall 101
  have hslot : ∀ j : Fin 100, (addFavorites numberedCall 101
      (initPersonality startGlobals 0)).personal_memory.favorite_parameters
        (((j : Nat) : Int) * 5 + 0) = ((j : Nat) : ℚ) + 1 := by
    intro j
    have h := (hs ⟨j, by have := j.isLt; omega⟩).2.1
    rw [h]
    have he : 101 - min 101 100 + (j : Nat) = (j : Nat) + 1 := by omega
    simp only [he, numberedCall]
    push_cast
    rfl
  refine ⟨by rw [hc]; rfl, ?_, ?_, ?_⟩
  · have h := hslot ⟨99, by decide⟩
    simp only [Nat.cast_ofNat] at h
    rw [h]; norm_num
  · have h := hslot ⟨0, by decide⟩
    simp only [Nat.cast_zero] at h
    rw [h]; norm_num
  · intro j
    rw [hslot j]
    positivity

/-- Counterexample to C10 as stated: for the uniform gray 16 x 16 image the warmth
component of the signature is 153600/256051, about 0.5999, which is not within 0.001
of 0.6665. -/
theorem gray_signature_as_claimed_fails :
    ¬ (|extract_photo_signature grayImage 16 16 0 - 0.502| < 0.001 ∧
       extract_photo_signature grayImage 16 16 4 = 0 ∧
       |extract_photo_signature grayImage 16 16 5 - 0.6665| < 0.001 ∧
       extract_photo_signature grayImage 16 16 6 = 0) := by
  obtain ⟨-, -, h5, -⟩ := extract_photo_signature_gray
  rintro ⟨-, -, h, -⟩
  rw [h5, abs_lt] at h
  norm_num at h

/-- C10, amended: for the uniform gray 16 x 16 image the signature has brightness
128/255 (within 0.001 of 0.502), contrast range exactly 0, warmth 153600/256051
(within 0.001 of 0.5999) and saturation exactly 0. -/
theorem gray_signature :
    |extract_photo_signature grayImage 16 16 0 - 0.502| < 0.001 ∧
    extract_photo_signature grayImage 16 16 4 = 0 ∧
    |extract_photo_signature grayImage 16 16 5 - 0.5999| < 0.001 ∧
    extract_photo_signature grayImage 16 16 6 = 0 := by
  obtain ⟨h0, h4, h5, h6⟩ := extract_photo_signature_gray
  refine ⟨?_, h4, ?_, h6⟩
  · rw [h0, abs_lt]
    constructor <;> norm_num
  · rw [h5, abs_lt]
    constructor <;> norm_num

/-! ## Further lemmas and claims -/

theorem extract_photo_signature_gray_ratio :
    extract_photo_signature grayImage 16 16 7 = 102400 / 102451 := by
  simp only [extract_photo_signature, sample_image_gray]
  simp [arrayOf]
  norm_num

/-- C11: for the uniform gray 16 x 16 image `detect_scene_type` of the signature is 4
(Indoor): rules 1 to 5 fail and rule 6 holds. -/
theorem gray_image_is_indoor :
    detect_scene_type (extract_photo_signature grayImage 16 16) = SceneCategory.Indoor.id ∧
    SceneCategory.Indoor.id = 4 ∧
    ¬ rule1 (extract_photo_signature grayImage 16 16) ∧
    ¬ rule2 (extract_photo_signature grayImage 16 16) ∧
    ¬ rule3 (extract_photo_signature grayImage 16 16) ∧
    ¬ rule4 (extract_photo_signature grayImage 16 16) ∧
    ¬ rule5 (extract_photo_signature grayImage 16 16) ∧
    rule6 (extract_photo_signature grayImage 16 16) := by
  obtain ⟨h0, h4, h5, h6⟩ := extract_photo_signature_gray
  have h7 := extract_photo_signature_gray_ratio
  have r1 : ¬ rule1 (extract_photo_signature grayImage 16 16) := by
    unfold rule1; rw [h0]; norm_num
  have r2 : ¬ rule2 (extract_photo_signature grayImage 16 16) := by
    unfold rule2; rw [h0, h7]; norm_num
  have r3 : ¬ rule3 (extract_photo_signature grayImage 16 16) := by
    unfold rule3; rw [h0, h5]; norm_num
  have r4 : ¬ rule4 (extract_photo_signature grayImage 16 16) := by
    unfold rule4; rw [h0]; norm_num
  have r5 : ¬ rule5 (extract_photo_signature grayImage 16 16) := by
    unfold rule5; rw [h6]; norm_num
  have r6 : rule6 (extract_photo_signature grayImage 16 16) := by
    unfold rule6; rw [h0]; norm_num
  refine ⟨?_, rfl, r1, r2, r3, r4, r5, r6⟩
  rw [detect_scene_type_classify]
  simp [classify, cascade, r1, r2, r3, r4, r5, r6]

/-- With no pixel sampled the locals keep their initial values. -/
theorem sample_image_degenerate (image : Int → Int) (width height : Int)
    (h : width ≤ 0 ∨ height ≤ 0) :
    sample_image image width height = initialSampling := by
  unfold sample_image
  by_cases hh : height ≤ 0
  · rw [strideLoop_unfold_neg _ _ _ _ _ _ (by omega)]
    rfl
  · have hw : width ≤ 0 := by omega
    obtain ⟨x', -, hx'⟩ := strideLoop_invariant 8 (by decide) height
      (fun y a => strideLoop 8 (by decide) width
        (sample_pixel image width (width * height * 3) y) 0 a)
      (fun _ a => a = initialSampling)
      (by
        intro x s _ hs
        show strideLoop 8 _ width _ 0 s = _
        rw [strideLoop_unfold_neg _ _ _ _ _ _ (by omega)]
        exact hs)
      _ 0 initialSampling rfl rfl
    exact hx'

theorem extract_photo_signature_degenerate (image : Int → Int) (width height : Int)
    (h : width ≤ 0 ∨ height ≤ 0) :
    extract_photo_signature image width height = arrayOf [0, 0, 0, 0, -1, 0, 0, 0, 0, 0] := by
  simp only [extract_photo_signature, sample_image_degenerate image width height h,
    initialSampling]
  norm_num

/-- Counterexample to C12 as stated: with width 0 and height 0 component 4 of the
signature is -1, so the signature is not zero-filled. -/
theorem degenerate_signature_not_zero_filled :
    ¬ (∀ i : Fin 10, extract_photo_signature grayImage 0 0 ((i : Nat) : Int) = 0) := by
  intro h
  have h4 := h ⟨4, by decide⟩
  rw [extract_photo_signature_degenerate grayImage 0 0 (Or.inl (le_refl 0))] at h4
  simp [arrayOf] at h4

/-- C12, amended: when `width <= 0` or `height <= 0` the signature has components 0
to 3 and 5 to 9 equal to 0, and component 4 (the brightness range) equal to -1, the
initial `max_bright` 0 minus the initial `min_bright` 1. -/
theorem degenerate_signature (image : Int → Int) (width height : Int)
    (h : width ≤ 0 ∨ height ≤ 0) :
    extract_photo_signature image width height 0 = 0 ∧
    extract_photo_signature image width height 1 = 0 ∧
    extract_photo_signature image width height 2 = 0 ∧
    extract_photo_signature image width height 3 = 0 ∧
    extract_photo_signature image width height 4 = -1 ∧
    extract_photo_signature image width height 5 = 0 ∧
    extract_photo_signature image width height 6 = 0 ∧
    extract_photo_signature image width height 7 = 0 ∧
    extract_photo_signature image width height 8 = 0 ∧
    extract_photo_signature image width height 9 = 0 := by
  rw [extract_photo_signature_degenerate image width height h]
  simp [arrayOf]

/-- Witness of C12: a 0 x 16 image. -/
theorem degenerate_signature_witness :
    ((0 : Int) ≤ 0 ∨ (16 : Int) ≤ 0) ∧
    extract_photo_signature grayImage 0 16 0 = 0 ∧
    extract_photo_signature grayImage 0 16 4 = -1 :=
  ⟨Or.inl (le_refl 0),
    (degenerate_signature grayImage 0 16 (Or.inl (le_refl 0))).1,
    (degenerate_signature grayImage 0 16 (Or.inl (le_refl 0))).2.2.2.2.1⟩

theorem detect_scene_type_range (sig : Int → ℚ) :
    0 ≤ detect_scene_type sig ∧ detect_scene_type sig < 7 := by
  unfold detect_scene_type
  simp only []
  split_ifs <;> decide

/-- C14: `addFavorite`, from any state and for any image, adds exactly 1 to the scene
pattern count of the scene that `detect_scene_type` gives the image's signature (one
of the indices 0..6), leaves every other count as it was, and sets
`current_scene_type` to that scene. -/
theorem addFavorite_scene_count (s : Globals) (image : Int → Int) (width height : Int)
    (exposure contrast saturation sharpness warmth : ℚ) (now : Int) :
    (0 ≤ detect_scene_type (extract_photo_signature image width height) ∧
      detect_scene_type (extract_photo_signature image width height) < 7) ∧
    (∀ k : Int,
      (addFavorite s image width height exposure contrast saturation sharpness warmth
          now).personal_memory.scene_patterns k
        = if k = detect_scene_type (extract_photo_signature image width height) then
            s.personal_memory.scene_patterns k + 1
          else s.personal_memory.scene_patterns k) ∧
    (addFavorite s image width height exposure contrast saturation sharpness warmth
        now).current_scene_type
      = detect_scene_type (extract_photo_signature image width height) := by
  refine ⟨detect_scene_type_range _, ?_, ?_⟩
  · intro k
    unfold addFavorite
    by_cases hc : s.personal_memory.favorite_count ≥ MAX_FAVORITES
    · simp only [if_pos hc, store]
      split_ifs with hk
      · rw [hk]
      · rfl
    · simp only [if_neg hc, store]
      split_ifs with hk
      · rw [hk]
      · rfl
  · rfl

theorem forUpTo_bias_reset (b : Int → ℚ) (i : Fin 10) :
    forUpTo 10 (fun i b => store b i (0.5 : ℚ)) b ((i : Nat) : Int) = 0.5 := by
  have h := forUpTo_store_apply 10 (fun _ _ => (0.5 : ℚ)) b ((i : Nat) : Int)
  have hi : (0 : Int) ≤ ((i : Nat) : Int) ∧ ((i : Nat) : Int) < ((10 : Nat) : Int) := by
    have := i.isLt
    omega
  rw [if_pos hi] at h
  exact h

theorem forUpTo_patterns_reset (p : Int → Int) (i : Fin 7) :
    forUpTo 7 (fun i p => store p i (0 : Int)) p ((i : Nat) : Int) = 0 := by
  have h := forUpTo_store_apply 7 (fun _ _ => (0 : Int)) p ((i : Nat) : Int)
  have hi : (0 : Int) ≤ ((i : Nat) : Int) ∧ ((i : Nat) : Int) < ((7 : Nat) : Int) := by
    have := i.isLt
    omega
  rw [if_pos hi] at h
  exact h

theorem list_range_map_const {α : Type} (n : Nat) (f : Nat → α) (v : α)
    (h : ∀ i : Fin n, f i = v) : (List.range n).map f = List.replicate n v := by
  apply List.ext_getElem
  · simp
  · intro i h1 h2
    simp only [List.length_map, List.length_range] at h1
    simp [h ⟨i, h1⟩]

theorem logicalState_clearPersonality (s : Globals) :
    logicalState (clearPersonality s)
      = { favoriteCount := 0
          learningStrength := s.personal_memory.learning_strength
          bias := List.replicate 10 0.5
          scenePatternCounts := List.replicate 7 0
          imagesProcessed := 0
          currentScene := 0 } := by
  have hb := list_range_map_const 10
    (fun i => (clearPersonality s).personal_memory.personal_bias (i : Int)) 0.5
    (fun i => forUpTo_bias_reset _ i)
  have hp := list_range_map_const 7
    (fun i => (clearPersonality s).personal_memory.scene_patterns (i : Int)) 0
    (fun i => forUpTo_patterns_reset _ i)
  unfold logicalState
  rw [hb, hp]
  rfl

theorem logicalState_initPersonality_start (now : Int) :
    logicalState (initPersonality startGlobals now)
      = { favoriteCount := 0
          learningStrength := 75
          bias := List.replicate 10 0.5
          scenePatternCounts := List.replicate 7 0
          imagesProcessed := 0
          currentScene := 0 } := by
  have hb := list_range_map_const 10
    (fun i => (initPersonality startGlobals now).personal_memory.personal_bias (i : Int)) 0.5
    (fun i => forUpTo_bias_reset _ i)
  have hp := list_range_map_const 7
    (fun i => (initPersonality startGlobals now).personal_memory.scene_patterns (i : Int)) 0
    (fun i => forUpTo_patterns_reset _ i)
  unfold logicalState
  rw [hb, hp]
  rfl

/-- Counterexample to C16 as stated: after `initPersonality`, `setLearningStrength 50`
and `clearPersonality` the learning strength is 50, not the 75 of the initial state,
so the state after the clear is not the initial state. -/
theorem clear_is_not_initial_state :
    ¬ (logicalState
          (run (initPersonality startGlobals 0) [Op.setLearningStrength 50, Op.clearPersonality])
        = logicalState (initPersonality startGlobals 0)) := by
  intro h
  have hl := congrArg LogicalState.learningStrength h
  have h1 : (logicalState (run (initPersonality startGlobals 0)
      [Op.setLearningStrength 50, Op.clearPersonality])).learningStrength = 50 := rfl
  have h2 : (logicalState (initPersonality startGlobals 0)).learningStrength = 75 := rfl
  rw [h1, h2] at hl
  exact absurd hl (by decide)

/-- C16, amended: from any state, the state after `clearPersonality` is the initial
state that `initPersonality` establishes on the fresh globals (no favorite, bias all
0.5, scene pattern counts all zero, no image processed, current scene 0) except for
the learning strength, which keeps the value it had before the clear instead of being
75; the timestamp and the content of the favorites buffers are left aside. -/
theorem clear_resets_all_but_learning_strength (s : Globals) (now : Int) :
    logicalState (clearPersonality s)
      = { logicalState (initPersonality startGlobals now) with
          learningStrength := s.personal_memory.learning_strength } ∧
    (logicalState (initPersonality startGlobals now)).learningStrength = 75 := by
  rw [logicalState_clearPersonality, logicalState_initPersonality_start]
  exact ⟨rfl, rfl⟩

theorem most_common_invariant (patterns : Int → Int) :
    0 ≤ most_common patterns ∧ most_common patterns < 7 ∧
    (∀ j : Int, 0 ≤ j → j < 7 → patterns j ≤ patterns (most_common patterns)) ∧
    (∀ j : Int, 0 ≤ j → j < most_common patterns →
      patterns j < patterns (most_common patterns)) := by
  obtain ⟨x', hx', h⟩ := strideLoop_invariant 1 (by decide) SCENE_COUNT
    (fun i most_common => if patterns i > patterns most_common then i else most_common)
    (fun i mc => 1 ≤ i ∧ i ≤ 7 ∧ 0 ≤ mc ∧ mc < i ∧
      (∀ j : Int, 0 ≤ j → j < i → patterns j ≤ patterns mc) ∧
      (∀ j : Int, 0 ≤ j → j < mc → patterns j < patterns mc))
    (by
      rintro i mc hi ⟨h1, -, h0, hlt, hmax, hlow⟩
      unfold SCENE_COUNT at hi
      by_cases hgt : patterns i > patterns mc
      · simp only [if_pos hgt]
        refine ⟨by omega, by omega, by omega, by omega, ?_, ?_⟩
        · intro j hj0 hj
          by_cases hji : j = i
          · rw [hji]
          · have := hmax j hj0 (by omega)
            omega
        · intro j hj0 hj
          have := hmax j hj0 hj
          omega
      · simp only [if_neg hgt]
        refine ⟨by omega, by omega, h0, by omega, ?_, hlow⟩
        intro j hj0 hj
        by_cases hji : j = i
        · rw [hji]; omega
        · exact hmax j hj0 (by omega))
    _ 1 0 rfl
    ⟨le_refl 1, by decide, le_refl 0, by decide,
      by intro j hj0 hj; have : j = 0 := by omega
         rw [this],
      by intro j hj0 hj; omega⟩
  unfold SCENE_COUNT at hx'
  obtain ⟨h1, h7, h0, hlt, hmax, hlow⟩ := h
  have hx : x' = 7 := by omega
  subst hx
  exact ⟨h0, hlt, hmax, hlow⟩

/-- C15: for every array of scene pattern counts the index `most_common` is one of
0..6, its count is the maximum of the 7 counts, and every index whose count equals the
maximum is at least `most_common`: each index either has a smaller count or has the
same count and is not below `most_common`. -/
theorem most_common_is_first_maximum (patterns : Int → Int) :
    0 ≤ most_common patterns ∧ most_common patterns < 7 ∧
    ∀ i : Fin 7,
      patterns ((i : Nat) : Int) < patterns (most_common patterns) ∨
      (patterns ((i : Nat) : Int) = patterns (most_common patterns) ∧
        most_common patterns ≤ ((i : Nat) : Int)) := by
  obtain ⟨h0, h7, hmax, hlow⟩ := most_common_invariant patterns
  refine ⟨h0, h7, ?_⟩
  intro i
  have hi := i.isLt
  have hle := hmax ((i : Nat) : Int) (by omega) (by omega)
  by_cases hlt : patterns ((i : Nat) : Int) < patterns (most_common patterns)
  · exact Or.inl hlt
  · refine Or.inr ⟨by omega, ?_⟩
    by_contra hc
    have := hlow ((i : Nat) : Int) (by omega) (by omega)
    omega

/-- Witness of C15: with all counts zero the index is 0 (Portrait); with the counts
2, 5, 1, 5, 0, 5, 3 the maximum 5 is first reached at index 1. -/
theorem most_common_is_first_maximum_witness :
    most_common (fun _ => 0) = 0 ∧
    most_common (fun k => if k = 0 then 2 else if k = 1 then 5 else if k = 2 then 1
      else if k = 3 then 5 else if k = 4 then 0 else if k = 5 then 5 else 3) = 1 := by
  refine ⟨?_, ?_⟩
  · obtain ⟨h0, -, h⟩ := most_common_is_first_maximum (fun _ => 0)
    have := h ⟨0, by decide⟩
    simp at this
    omega
  · norm_num [most_common, SCENE_COUNT, strideLoop_unfold_pos, strideLoop_unfold_neg]

theorem addFavorite_count (s : Globals) (c : FavoriteCall) :
    (addFavoriteCall s c).personal_memory.favorite_count = addFavorite_idx s + 1 := by
  unfold addFavoriteCall addFavorite addFavorite_idx
  by_cases hc : s.personal_memory.favorite_count ≥ MAX_FAVORITES
  · simp only [if_pos hc]
  · simp only [if_neg hc]

theorem step_count_bounds (s : Globals) (op : Op)
    (h : 0 ≤ s.personal_memory.favorite_count ∧ s.personal_memory.favorite_count ≤ 100) :
    0 ≤ (step s op).personal_memory.favorite_count ∧
    (step s op).personal_memory.favorite_count ≤ 100 := by
  cases op with
  | addFavorite c =>
    show 0 ≤ (addFavoriteCall s c).personal_memory.favorite_count ∧
      (addFavoriteCall s c).personal_memory.favorite_count ≤ 100
    rw [addFavorite_count]
    unfold addFavorite_idx MAX_FAVORITES
    split_ifs <;> omega
  | processImage inp out width height => exact h
  | setLearningStrength strength => exact h
  | clearPersonality =>
    show (0 : Int) ≤ 0 ∧ (0 : Int) ≤ 100
    exact ⟨le_refl 0, by decide⟩

theorem run_count_bounds (ops : List Op) :
    ∀ s : Globals,
      (0 ≤ s.personal_memory.favorite_count ∧ s.personal_memory.favorite_count ≤ 100) →
      0 ≤ (run s ops).personal_memory.favorite_count ∧
      (run s ops).personal_memory.favorite_count ≤ 100 := by
  induction ops with
  | nil => intro s h; exact h
  | cons op ops ih =>
    intro s h
    exact ih (step s op) (step_count_bounds s op h)

/-- C13: in every state reached from `initPersonality` by a sequence of `addFavorite`,
`processImage`, `setLearningStrength` and `clearPersonality` calls the favorite count
is between 0 and 100, so the slot index `idx` that `addFavorite` writes to is between
0 and 99 and the ten features and five parameters of the slot lie inside the
favorites arrays of 1000 and 500 elements. -/
theorem capacity_invariant (s0 : Globals) (now : Int) (ops : List Op) :
    (0 ≤ (run (initPersonality s0 now) ops).personal_memory.favorite_count ∧
      (run (initPersonality s0 now) ops).personal_memory.favorite_count ≤ 100) ∧
    (0 ≤ addFavorite_idx (run (initPersonality s0 now) ops) ∧
      addFavorite_idx (run (initPersonality s0 now) ops) < 100) ∧
    (0 ≤ addFavorite_idx (run (initPersonality s0 now) ops) * FEATURE_COUNT ∧
      addFavorite_idx (run (initPersonality s0 now) ops) * FEATURE_COUNT + FEATURE_COUNT
        ≤ MAX_FAVORITES * FEATURE_COUNT) ∧
    (0 ≤ addFavorite_idx (run (initPersonality s0 now) ops) * PARAM_COUNT ∧
      addFavorite_idx (run (initPersonality s0 now) ops) * PARAM_COUNT + PARAM_COUNT
        ≤ MAX_FAVORITES * PARAM_COUNT) := by
  have hinit : (0 : Int) ≤ 0 ∧ (0 : Int) ≤ 100 := ⟨le_refl 0, by decide⟩
  have h := run_count_bounds ops (initPersonality s0 now) hinit
  have hi : 0 ≤ addFavorite_idx (run (initPersonality s0 now) ops) ∧
      addFavorite_idx (run (initPersonality s0 now) ops) < 100 := by
    unfold addFavorite_idx MAX_FAVORITES
    split_ifs <;> omega
  refine ⟨h, hi, ?_, ?_⟩
  · unfold FEATURE_COUNT MAX_FAVORITES
    omega
  · unfold PARAM_COUNT MAX_FAVORITES
    omega

theorem patternSum_addFavorite (s : Globals) (c : FavoriteCall) :
    patternSum (addFavoriteCall s c) = patternSum s + 1 := by
  obtain ⟨⟨h0, h7⟩, hk, -⟩ := addFavorite_scene_count s c.image c.width c.height c.exposure
    c.contrast c.saturation c.sharpness c.warmth c.now
  unfold patternSum addFavoriteCall
  rw [hk 0, hk 1, hk 2, hk 3, hk 4, hk 5, hk 6]
  have hs : detect_scene_type (extract_photo_signature c.image c.width c.height) = 0 ∨
      detect_scene_type (extract_photo_signature c.image c.width c.height) = 1 ∨
      detect_scene_type (extract_photo_signature c.image c.width c.height) = 2 ∨
      detect_scene_type (extract_photo_signature c.image c.width c.height) = 3 ∨
      detect_scene_type (extract_photo_signature c.image c.width c.height) = 4 ∨
      detect_scene_type (extract_photo_signature c.image c.width c.height) = 5 ∨
      detect_scene_type (extract_photo_signature c.image c.width c.height) = 6 := by
    omega
  rcases hs with h | h | h | h | h | h | h <;> rw [h] <;> simp <;> ring

theorem patternSum_clearPersonality (s : Globals) : patternSum (clearPersonality s) = 0 := by
  have h := fun i : Fin 7 => forUpTo_patterns_reset s.personal_memory.scene_patterns i
  have h0 := h ⟨0, by decide⟩
  have h1 := h ⟨1, by decide⟩
  have h2 := h ⟨2, by decide⟩
  have h3 := h ⟨3, by decide⟩
  have h4 := h ⟨4, by decide⟩
  have h5 := h ⟨5, by decide⟩
  have h6 := h ⟨6, by decide⟩
  simp only [Nat.cast_zero, Nat.cast_one, Nat.cast_ofNat] at h0 h1 h2 h3 h4 h5 h6
  unfold patternSum clearPersonality
  simp only [h0, h1, h2, h3, h4, h5, h6]
  rfl

theorem step_coupling (s : Globals) (op : Op) (n : Nat)
    (h : patternSum s = (n : Int) ∧ s.personal_memory.favorite_count = min 100 (n : Int)) :
    patternSum (step s op) = ((addsStep n op : Nat) : Int) ∧
    (step s op).personal_memory.favorite_count = min 100 ((addsStep n op : Nat) : Int) := by
  obtain ⟨hs, hc⟩ := h
  cases op with
  | addFavorite c =>
    show patternSum (addFavoriteCall s c) = _ ∧
      (addFavoriteCall s c).personal_memory.favorite_count = _
    rw [patternSum_addFavorite, addFavorite_count]
    unfold addFavorite_idx MAX_FAVORITES addsStep
    rw [hs, hc]
    push_cast
    refine ⟨rfl, ?_⟩
    split_ifs <;> omega
  | processImage inp out width height => exact ⟨hs, hc⟩
  | setLearningStrength strength => exact ⟨hs, hc⟩
  | clearPersonality =>
    show patternSum (clearPersonality s) = _ ∧
      (clearPersonality s).personal_memory.favorite_count = _
    rw [patternSum_clearPersonality]
    exact ⟨rfl, rfl⟩

theorem run_coupling (ops : List Op) :
    ∀ (s : Globals) (n : Nat),
      (patternSum s = (n : Int) ∧ s.personal_memory.favorite_count = min 100 (n : Int)) →
      patternSum (run s ops) = ((ops.foldl addsStep n : Nat) : Int) ∧
      (run s ops).personal_memory.favorite_count
        = min 100 ((ops.foldl addsStep n : Nat) : Int) := by
  induction ops with
  | nil => intro s n h; exact h
  | cons op ops ih =>
    intro s n h
    exact ih (step s op) (addsStep n op) (step_coupling s op n h)

theorem patternSum_initPersonality (s0 : Globals) (now : Int) :
    patternSum (initPersonality s0 now) = 0 := by
  have h := fun i : Fin 7 => forUpTo_patterns_reset s0.personal_memory.scene_patterns i
  have h0 := h ⟨0, by decide⟩
  have h1 := h ⟨1, by decide⟩
  have h2 := h ⟨2, by decide⟩
  have h3 := h ⟨3, by decide⟩
  have h4 := h ⟨4, by decide⟩
  have h5 := h ⟨5, by decide⟩
  have h6 := h ⟨6, by decide⟩
  simp only [Nat.cast_zero, Nat.cast_one, Nat.cast_ofNat] at h0 h1 h2 h3 h4 h5 h6
  unfold patternSum initPersonality
  simp only [h0, h1, h2, h3, h4, h5, h6]
  rfl

/-- C20: in every state reached from `initPersonality` by a sequence of `addFavorite`,
`processImage`, `setLearningStrength` and `clearPersonality` calls, the sum of the 7
scene pattern counts is the number of `addFavorite` calls made since the start or the
last `clearPersonality` (evicted favorites included), and the favorite count is the
minimum of 100 and that sum. -/
theorem counts_and_favorites_coupled (s0 : Globals) (now : Int) (ops : List Op) :
    patternSum (run (initPersonality s0 now) ops) = ((addsSinceClear ops : Nat) : Int) ∧
    (run (initPersonality s0 now) ops).personal_memory.favorite_count
      = min 100 (patternSum (run (initPersonality s0 now) ops)) := by
  have h := run_coupling ops (initPersonality s0 now) 0
    ⟨patternSum_initPersonality s0 now, rfl⟩
  unfold addsSinceClear
  rw [h.1]
  exact ⟨rfl, h.2⟩

theorem channel_range (image : Int → Int) (idx : Int) :
    0 ≤ channel image idx ∧ channel image idx ≤ 1 := by
  obtain ⟨h0, h1⟩ := u8_range (image idx)
  have h0q : (0 : ℚ) ≤ (u8 (image idx) : ℚ) := by exact_mod_cast h0
  have h1q : (u8 (image idx) : ℚ) ≤ 255 := by
    have : u8 (image idx) ≤ 255 := by omega
    exact_mod_cast this
  unfold channel
  constructor
  · positivity
  · rw [div_le_one (by norm_num)]
    exact h1q

theorem luma_range (image : Int → Int) (width x y : Int) :
    0 ≤ luma image width x y ∧ luma image width x y ≤ 1 := by
  obtain ⟨r0, r1⟩ := channel_range image ((y * width + x) * 3)
  obtain ⟨g0, g1⟩ := channel_range image ((y * width + x) * 3 + 1)
  obtain ⟨b0, b1⟩ := channel_range image ((y * width + x) * 3 + 2)
  unfold luma
  constructor
  · linarith
  · linarith

theorem saturationTerm_range (r g b : ℚ) (hr : 0 ≤ r) (hg : 0 ≤ g) (hb : 0 ≤ b) :
    0 ≤ saturationTerm r g b ∧ saturationTerm r g b ≤ 1 := by
  unfold saturationTerm
  split_ifs with h
  · have hmin0 : 0 ≤ fminf (fminf r g) b := by
      unfold fminf
      exact le_min (le_min hr hg) hb
    have hle : fminf (fminf r g) b ≤ fmaxf (fmaxf r g) b := by
      unfold fminf fmaxf
      exact le_trans (min_le_right _ _) (le_max_right _ _)
    constructor
    · apply div_nonneg <;> linarith
    · rw [div_le_one h]
      linarith
  · exact ⟨le_refl 0, by norm_num⟩

/-- Inside the image the bounds check of the sampling loop passes. -/
theorem sample_index_in_bounds (width height x y : Int) (hx0 : 0 ≤ x) (hx : x < width)
    (hy0 : 0 ≤ y) (hy : y < height) :
    0 ≤ (y * width + x) * 3 ∧ (y * width + x) * 3 + 2 < width * height * 3 := by
  have h1 : 0 ≤ y * width := mul_nonneg hy0 (by omega)
  have h2 : (y + 1) * width ≤ height * width :=
    mul_le_mul_of_nonneg_right (by omega) (by omega)
  constructor
  · nlinarith
  · nlinarith

/-- The locals after the body of the inner loop at a position inside the image. -/
theorem sample_pixel_fields (image : Int → Int) (width height x y : Int) (a : Sampling)
    (hx0 : 0 ≤ x) (hx : x < width) (hy0 : 0 ≤ y) (hy : y < height) :
    (sample_pixel image width (width * height * 3) y x a).sample_count = a.sample_count + 1 ∧
    (sample_pixel image width (width * height * 3) y x a).brightness_sum
      = a.brightness_sum + luma image width x y ∧
    (sample_pixel image width (width * height * 3) y x a).r_sum
      = a.r_sum + channel image ((y * width + x) * 3) ∧
    (sample_pixel image width (width * height * 3) y x a).g_sum
      = a.g_sum + channel image ((y * width + x) * 3 + 1) ∧
    (sample_pixel image width (width * height * 3) y x a).b_sum
      = a.b_sum + channel image ((y * width + x) * 3 + 2) ∧
    (sample_pixel image width (width * height * 3) y x a).min_bright
      = (if luma image width x y < a.min_bright then luma image width x y else a.min_bright) ∧
    (sample_pixel image width (width * height * 3) y x a).max_bright
      = (if luma image width x y > a.max_bright then luma image width x y else a.max_bright) ∧
    (sample_pixel image width (width * height * 3) y x a).warm_sum
      = a.warm_sum + (channel image ((y * width + x) * 3)
          + channel image ((y * width + x) * 3 + 1) * 0.5) ∧
    (sample_pixel image width (width * height * 3) y x a).cool_sum
      = a.cool_sum + channel image ((y * width + x) * 3 + 2) ∧
    (sample_pixel image width (width * height * 3) y x a).saturation_sum
      = a.saturation_sum + saturationTerm (channel image ((y * width + x) * 3))
          (channel image ((y * width + x) * 3 + 1)) (channel image ((y * width + x) * 3 + 2)) := by
  have hguard : ¬ ((y * width + x) * 3 + 2 ≥ width * height * 3) := by
    have := (sample_index_in_bounds width height x y hx0 hx hy0 hy).2
    omega
  unfold sample_pixel
  simp only [if_neg hguard]
  refine ⟨trivial, rfl, rfl, rfl, rfl, rfl, rfl, rfl, rfl, ?_⟩
  unfold saturationTerm channel
  split_ifs
  · rfl
  · simp

theorem visitedBefore_step (width height x y x' y' : Int) (hg : onGrid width height x y) :
    visitedBefore width height y (x + 8) x' y'
      ↔ visitedBefore width height y x x' y' ∨ (x' = x ∧ y' = y) := by
  unfold visitedBefore onGrid at *
  constructor
  · intro h
    omega
  · intro h
    omega

theorem visitedBefore_row_end (width height x y x' y' : Int) (hx : width ≤ x)
    (hy : y % 8 = 0) :
    visitedBefore width height (y + 8) 0 x' y' ↔ visitedBefore width height y x x' y' := by
  unfold visitedBefore onGrid at *
  constructor
  · intro h
    omega
  · intro h
    omega

theorem samplingInv_step (image : Int → Int) (width height x y : Int) (a : Sampling)
    (hg : onGrid width height x y) (h : SamplingInv image width height y x a) :
    SamplingInv image width height y (x + 8)
      (sample_pixel image width (width * height * 3) y x a) := by
  obtain ⟨hc, hbr, hr, hgr, hb, hmin, hmax, hwarm, hcool, hsat⟩ :=
    sample_pixel_fields image width height x y a hg.1.1 hg.1.2.1 hg.2.1 hg.2.2.1
  obtain ⟨l0, l1⟩ := luma_range image width x y
  obtain ⟨r0, r1⟩ := channel_range image ((y * width + x) * 3)
  obtain ⟨g0, g1⟩ := channel_range image ((y * width + x) * 3 + 1)
  obtain ⟨b0, b1⟩ := channel_range image ((y * width + x) * 3 + 2)
  obtain ⟨s0, s1⟩ := saturationTerm_range _ _ _ r0 g0 b0
  have hcq : (((sample_pixel image width (width * height * 3) y x a).sample_count : Int) : ℚ)
      = (a.sample_count : ℚ) + 1 := by
    rw [hc]; push_cast; rfl
  have hmin_le : (sample_pixel image width (width * height * 3) y x a).min_bright
      ≤ a.min_bright ∧
      (sample_pixel image width (width * height * 3) y x a).min_bright
        ≤ luma image width x y := by
    rw [hmin]
    split_ifs with hlt
    · exact ⟨le_of_lt hlt, le_refl _⟩
    · exact ⟨le_refl _, not_lt.mp hlt⟩
  have hmax_le : a.max_bright
      ≤ (sample_pixel image width (width * height * 3) y x a).max_bright ∧
      luma image width x y
        ≤ (sample_pixel image width (width * height * 3) y x a).max_bright := by
    rw [hmax]
    split_ifs with hlt
    · exact ⟨le_of_lt hlt, le_refl _⟩
    · exact ⟨le_refl _, not_lt.mp hlt⟩
  have hhere : visitedBefore width height y (x + 8) x y :=
    (visitedBefore_step width height x y x y hg).mpr (Or.inr ⟨rfl, rfl⟩)
  have hbr_lo := h.brightness_lo
  have hbr_hi := h.brightness_hi
  have hr_lo := h.r_lo
  have hr_hi := h.r_hi
  have hg_lo := h.g_lo
  have hg_hi := h.g_hi
  have hb_lo := h.b_lo
  have hb_hi := h.b_hi
  have hs_lo := h.saturation_lo
  have hs_hi := h.saturation_hi
  have hw_lo := h.warm_lo
  have hc_lo := h.cool_lo
  refine
    { count_eq := ?_, count_nonneg := ?_, brightness_lo := ?_, brightness_hi := ?_,
      r_lo := ?_, r_hi := ?_, g_lo := ?_, g_hi := ?_, b_lo := ?_, b_hi := ?_,
      saturation_lo := ?_, saturation_hi := ?_, warm_lo := ?_, cool_lo := ?_,
      between := ?_, min_attained := ?_, max_attained := ?_ }
  · have h8 : (x + 8) / 8 = x / 8 + 1 := by omega
    rw [hc, h.count_eq, h8]
    ring
  · rw [hc]
    have := h.count_nonneg
    omega
  · rw [hbr]; linarith
  · rw [hbr, hcq]; linarith
  · rw [hr]; linarith
  · rw [hr, hcq]; linarith
  · rw [hgr]; linarith
  · rw [hgr, hcq]; linarith
  · rw [hb]; linarith
  · rw [hb, hcq]; linarith
  · rw [hsat]; linarith
  · rw [hsat, hcq]; linarith
  · rw [hwarm]; linarith
  · rw [hcool]; linarith
  · intro x' y' hv
    rcases (visitedBefore_step width height x y x' y' hg).mp hv with hold | ⟨hx', hy'⟩
    · obtain ⟨h1, h2⟩ := h.between x' y' hold
      exact ⟨le_trans hmin_le.1 h1, le_trans h2 hmax_le.1⟩
    · rw [hx', hy']
      exact ⟨hmin_le.2, hmax_le.2⟩
  · rw [hmin]
    split_ifs with hlt
    · exact Or.inr ⟨x, y, hhere, rfl⟩
    · rcases h.min_attained with h1 | ⟨x', y', hv, he⟩
      · exact Or.inl h1
      · exact Or.inr ⟨x', y',
          (visitedBefore_step width height x y x' y' hg).mpr (Or.inl hv), he⟩
  · rw [hmax]
    split_ifs with hlt
    · exact Or.inr ⟨x, y, hhere, rfl⟩
    · rcases h.max_attained with h1 | ⟨x', y', hv, he⟩
      · exact Or.inl h1
      · exact Or.inr ⟨x', y',
          (visitedBefore_step width height x y x' y' hg).mpr (Or.inl hv), he⟩

theorem samplingInv_row (image : Int → Int) (width height y : Int) (a : Sampling)
    (hy0 : 0 ≤ y) (hy : y < height) (hy8 : y % 8 = 0) (hw : 1 ≤ width)
    (h : SamplingInv image width height y 0 a) :
    SamplingInv image width height (y + 8) 0
      (strideLoop 8 (by decide) width (sample_pixel image width (width * height * 3) y) 0 a) := by
  obtain ⟨x', hx', hx8, hx0, hxw, hinv⟩ := strideLoop_invariant 8 (by decide) width
    (sample_pixel image width (width * height * 3) y)
    (fun x a => x % 8 = 0 ∧ 0 ≤ x ∧ x < width + 8 ∧ SamplingInv image width height y x a)
    (by
      rintro x s hx ⟨h8, h0, -, hs⟩
      exact ⟨by omega, by omega, by omega,
        samplingInv_step image width height x y s ⟨⟨h0, hx, h8⟩, ⟨hy0, hy, hy8⟩⟩ hs⟩)
    _ 0 a rfl ⟨by decide, le_refl 0, by omega, h⟩
  have hxe : x' / 8 = (width + 7) / 8 := by omega
  have hye : (y + 8) / 8 = y / 8 + 1 := by omega
  exact
    { count_eq := by
        rw [hinv.count_eq, hxe, hye]
        ring
      count_nonneg := hinv.count_nonneg
      brightness_lo := hinv.brightness_lo
      brightness_hi := hinv.brightness_hi
      r_lo := hinv.r_lo
      r_hi := hinv.r_hi
      g_lo := hinv.g_lo
      g_hi := hinv.g_hi
      b_lo := hinv.b_lo
      b_hi := hinv.b_hi
      saturation_lo := hinv.saturation_lo
      saturation_hi := hinv.saturation_hi
      warm_lo := hinv.warm_lo
      cool_lo := hinv.cool_lo
      between := fun x'' y'' hv =>
        hinv.between x'' y'' ((visitedBefore_row_end width height x' y x'' y'' hx' hy8).mp hv)
      min_attained := by
        rcases hinv.min_attained with h1 | ⟨x'', y'', hv, he⟩
        · exact Or.inl h1
        · exact Or.inr ⟨x'', y'',
            (visitedBefore_row_end width height x' y x'' y'' hx' hy8).mpr hv, he⟩
      max_attained := by
        rcases hinv.max_attained with h1 | ⟨x'', y'', hv, he⟩
        · exact Or.inl h1
        · exact Or.inr ⟨x'', y'',
            (visitedBefore_row_end width height x' y x'' y'' hx' hy8).mpr hv, he⟩ }

theorem samplingInv_initial (image : Int → Int) (width height : Int) :
    SamplingInv image width height 0 0 initialSampling :=
  { count_eq := by simp [initialSampling]
    count_nonneg := le_refl 0
    brightness_lo := le_refl 0
    brightness_hi := by simp [initialSampling]
    r_lo := le_refl 0
    r_hi := by simp [initialSampling]
    g_lo := le_refl 0
    g_hi := by simp [initialSampling]
    b_lo := le_refl 0
    b_hi := by simp [initialSampling]
    saturation_lo := le_refl 0
    saturation_hi := by simp [initialSampling]
    warm_lo := le_refl 0
    cool_lo := le_refl 0
    between := by
      intro x' y' hv
      unfold visitedBefore onGrid at hv
      omega
    min_attained := Or.inl rfl
    max_attained := Or.inl rfl }

/-- The invariant at the exit of the outer loop: every grid position is visited. -/
theorem samplingInv_image (image : Int → Int) (width height : Int) (hw : 1 ≤ width)
    (hh : 1 ≤ height) :
    ∃ y, height ≤ y ∧ y % 8 = 0 ∧ y < height + 8 ∧
      SamplingInv image width height y 0 (sample_image image width height) := by
  obtain ⟨y, hy, hy8, hy0, hyh, hinv⟩ := strideLoop_invariant 8 (by decide) height
    (fun y a => strideLoop 8 (by decide) width
      (sample_pixel image width (width * height * 3) y) 0 a)
    (fun y a => y % 8 = 0 ∧ 0 ≤ y ∧ y < height + 8 ∧ SamplingInv image width height y 0 a)
    (by
      rintro y s hy ⟨h8, h0, -, hs⟩
      exact ⟨by omega, by omega, by omega,
        samplingInv_row image width height y s h0 hy h8 hw hs⟩)
    _ 0 initialSampling rfl
    ⟨by decide, le_refl 0, by omega, samplingInv_initial image width height⟩
  exact ⟨y, hy, hy8, hyh, hinv⟩

theorem visitedBefore_all (width height y x' y' : Int) (hy : height ≤ y) :
    visitedBefore width height y 0 x' y' ↔ onGrid width height x' y' := by
  unfold visitedBefore onGrid
  constructor
  · intro h
    exact h.1
  · intro h
    refine ⟨h, ?_⟩
    omega

theorem sample_count_valid (image : Int → Int) (width height : Int) (hw : 1 ≤ width)
    (hh : 1 ≤ height) :
    (sample_image image width height).sample_count = ((width + 7) / 8) * ((height + 7) / 8) ∧
    1 ≤ (sample_image image width height).sample_count := by
  obtain ⟨y, hy, hy8, hyh, hinv⟩ := samplingInv_image image width height hw hh
  have hye : y / 8 = (height + 7) / 8 := by omega
  have hc : (sample_image image width height).sample_count
      = ((width + 7) / 8) * ((height + 7) / 8) := by
    rw [hinv.count_eq, hye]
    have : (0 : Int) / 8 = 0 := by decide
    rw [this]
    ring
  refine ⟨hc, ?_⟩
  rw [hc]
  have h1 : 1 ≤ (width + 7) / 8 := by omega
  have h2 : 1 ≤ (height + 7) / 8 := by omega
  nlinarith

/-- The minimum and the maximum brightness found by the sampling loops are those of
the sampled grid positions. -/
theorem sample_brightness_extremes (image : Int → Int) (width height : Int) (hw : 1 ≤ width)
    (hh : 1 ≤ height) :
    (∀ x y, onGrid width height x y →
      (sample_image image width height).min_bright ≤ luma image width x y ∧
      luma image width x y ≤ (sample_image image width height).max_bright) ∧
    (∃ x y, onGrid width height x y ∧
      (sample_image image width height).min_bright = luma image width x y) ∧
    (∃ x y, onGrid width height x y ∧
      (sample_image image width height).max_bright = luma image width x y) := by
  obtain ⟨y, hy, hy8, hyh, hinv⟩ := samplingInv_image image width height hw hh
  have hall : ∀ x' y', onGrid width height x' y' →
      (sample_image image width height).min_bright ≤ luma image width x' y' ∧
      luma image width x' y' ≤ (sample_image image width height).max_bright := by
    intro x' y' hg
    exact hinv.between x' y' ((visitedBefore_all width height y x' y' hy).mpr hg)
  have h00 : onGrid width height 0 0 := by
    unfold onGrid
    omega
  obtain ⟨l0, l1⟩ := luma_range image width 0 0
  obtain ⟨hmin00, hmax00⟩ := hall 0 0 h00
  refine ⟨hall, ?_, ?_⟩
  · rcases hinv.min_attained with h1 | ⟨x', y', hv, he⟩
    · exact ⟨0, 0, h00, by rw [h1] at hmin00 ⊢; linarith⟩
    · exact ⟨x', y', (visitedBefore_all width height y x' y' hy).mp hv, he⟩
  · rcases hinv.max_attained with h1 | ⟨x', y', hv, he⟩
    · exact ⟨0, 0, h00, by rw [h1] at hmax00 ⊢; linarith⟩
    · exact ⟨x', y', (visitedBefore_all width height y x' y' hy).mp hv, he⟩

theorem extract_photo_signature_components (image : Int → Int) (width height : Int)
    (hc : 1 ≤ (sample_image image width height).sample_count) :
    extract_photo_signature image width height 0
      = (sample_image image width height).brightness_sum
          / ((sample_image image width height).sample_count : ℚ) ∧
    extract_photo_signature image width height 1
      = (sample_image image width height).r_sum
          / ((sample_image image width height).sample_count : ℚ) ∧
    extract_photo_signature image width height 2
      = (sample_image image width height).g_sum
          / ((sample_image image width height).sample_count : ℚ) ∧
    extract_photo_signature image width height 3
      = (sample_image image width height).b_sum
          / ((sample_image image width height).sample_count : ℚ) ∧
    extract_photo_signature image width height 4
      = (sample_image image width height).max_bright
          - (sample_image image width height).min_bright ∧
    extract_photo_signature image width height 5
      = (sample_image image width height).warm_sum
          / ((sample_image image width height).warm_sum
              + (sample_image image width height).cool_sum + 0.001) ∧
    extract_photo_signature image width height 6
      = (sample_image image width height).saturation_sum
          / ((sample_image image width height).sample_count : ℚ) := by
  have hne : ¬ (sample_image image width height).sample_count = 0 := by omega
  unfold extract_photo_signature
  simp only [if_neg hne]
  simp [arrayOf]

theorem mean_range (sum : ℚ) (count : Int) (hc : 1 ≤ count) (h0 : 0 ≤ sum)
    (h1 : sum ≤ (count : ℚ)) : 0 ≤ sum / (count : ℚ) ∧ sum / (count : ℚ) ≤ 1 := by
  have hpos : (0 : ℚ) < (count : ℚ) := by
    have : (0 : Int) < count := by omega
    exact_mod_cast this
  exact ⟨div_nonneg h0 (le_of_lt hpos), (div_le_one hpos).mpr h1⟩

/-- The ranges of the signature components 0 to 6 of a valid image. -/
theorem signature_ranges (image : Int → Int) (width height : Int) (hw : 1 ≤ width)
    (hh : 1 ≤ height) :
    (0 ≤ extract_photo_signature image width height 0 ∧
      extract_photo_signature image width height 0 ≤ 1) ∧
    (0 ≤ extract_photo_signature image width height 1 ∧
      extract_photo_signature image width height 1 ≤ 1) ∧
    (0 ≤ extract_photo_signature image width height 2 ∧
      extract_photo_signature image width height 2 ≤ 1) ∧
    (0 ≤ extract_photo_signature image width height 3 ∧
      extract_photo_signature image width height 3 ≤ 1) ∧
    (0 ≤ extract_photo_signature image width height 4 ∧
      extract_photo_signature image width height 4 ≤ 1) ∧
    (0 ≤ extract_photo_signature image width height 5 ∧
      extract_photo_signature image width height 5 < 1) ∧
    (0 ≤ extract_photo_signature image width height 6 ∧
      extract_photo_signature image width height 6 ≤ 1) := by
  obtain ⟨-, hc⟩ := sample_count_valid image width height hw hh
  obtain ⟨y, -, -, -, hinv⟩ := samplingInv_image image width height hw hh
  obtain ⟨hall, ⟨xm, ym, hgm, hmin⟩, ⟨xM, yM, hgM, hmax⟩⟩ :=
    sample_brightness_extremes image width height hw hh
  obtain ⟨e0, e1, e2, e3, e4, e5, e6⟩ :=
    extract_photo_signature_components image width height hc
  rw [e0, e1, e2, e3, e4, e5, e6]
  refine ⟨mean_range _ _ hc hinv.brightness_lo hinv.brightness_hi,
    mean_range _ _ hc hinv.r_lo hinv.r_hi, mean_range _ _ hc hinv.g_lo hinv.g_hi,
    mean_range _ _ hc hinv.b_lo hinv.b_hi, ?_, ?_,
    mean_range _ _ hc hinv.saturation_lo hinv.saturation_hi⟩
  · obtain ⟨-, hM1⟩ := luma_range image width xM yM
    obtain ⟨hm0, -⟩ := luma_range image width xm ym
    have hle := (hall xM yM hgM).1
    constructor
    · linarith [(hall xm ym hgm).2]
    · rw [hmax, hmin]
      linarith
  · have hw0 := hinv.warm_lo
    have hc0 := hinv.cool_lo
    have hpos : 0 < (sample_image image width height).warm_sum
        + (sample_image image width height).cool_sum + 0.001 := by
      have : (0 : ℚ) < 0.001 := by norm_num
      linarith
    constructor
    · exact div_nonneg hw0 (le_of_lt hpos)
    · rw [div_lt_one hpos]
      have : (0 : ℚ) < 0.001 := by norm_num
      linarith

/-- C17: for `width >= 1` and `height >= 1` every position `(x, y)` inside the image
(the grid positions among them) has its three byte offsets inside the buffer of
`width * height * 3` bytes, so the bounds check of the sampling loop never skips a
pixel there; the number of sampled pixels is `ceil(width/8) * ceil(height/8)`, which is
at least 1, so the `sample_count == 0` fallback is not reached. -/
theorem sampling_total_on_valid_images (image : Int → Int) (width height : Int)
    (hw : 1 ≤ width) (hh : 1 ≤ height) :
    (∀ x y : Int, onGrid width height x y →
      0 ≤ (y * width + x) * 3 ∧ (y * width + x) * 3 + 2 < width * height * 3) ∧
    (∀ (x y : Int) (a : Sampling), onGrid width height x y →
      (sample_pixel image width (width * height * 3) y x a).sample_count
        = a.sample_count + 1) ∧
    (sample_image image width height).sample_count
      = ((width + 7) / 8) * ((height + 7) / 8) ∧
    1 ≤ (sample_image image width height).sample_count ∧
    (sample_image image width height).sample_count ≠ 0 := by
  obtain ⟨hc, h1⟩ := sample_count_valid image width height hw hh
  refine ⟨?_, ?_, hc, h1, by omega⟩
  · intro x y hg
    exact sample_index_in_bounds width height x y hg.1.1 hg.1.2.1 hg.2.1 hg.2.2.1
  · intro x y a hg
    exact (sample_pixel_fields image width height x y a hg.1.1 hg.1.2.1 hg.2.1 hg.2.2.1).1

/-- Witness of C17: a 20 x 9 image has 3 * 2 = 6 sampled pixels, and the grid
position (16, 8) has its last byte offset 530 below the 540 bytes of the buffer. -/
theorem sampling_total_on_valid_images_witness :
    (1 : Int) ≤ 20 ∧ (1 : Int) ≤ 9 ∧
    (sample_image rampImage 20 9).sample_count = 6 ∧
    ((8 : Int) * 20 + 16) * 3 + 2 < 20 * 9 * 3 := by
  obtain ⟨hb, -, hc, -, -⟩ :=
    sampling_total_on_valid_images rampImage 20 9 (by decide) (by decide)
  refine ⟨by decide, by decide, ?_, ?_⟩
  · rw [hc]
    decide
  · exact (hb 16 8 (by unfold onGrid; decide)).2

theorem addFavoriteCall_bias (s : Globals) (c : FavoriteCall) (k : Int) :
    (addFavoriteCall s c).personal_memory.personal_bias k
      = if 0 ≤ k ∧ k < 10 then
          s.personal_memory.personal_bias k * (1 - learnRate s)
            + extract_photo_signature c.image c.width c.height k * learnRate s
        else s.personal_memory.personal_bias k := by
  have h := forUpTo_store_apply 10
    (fun k v => v * (1 - learnRate s)
      + extract_photo_signature c.image c.width c.height k * learnRate s)
    s.personal_memory.personal_bias k
  simp only [Nat.cast_ofNat] at h
  rw [← h]
  unfold addFavoriteCall addFavorite learnRate
  by_cases hc : s.personal_memory.favorite_count ≥ MAX_FAVORITES
  · simp only [if_pos hc]
  · simp only [if_neg hc]

theorem addFavoriteCall_learning_strength (s : Globals) (c : FavoriteCall) :
    (addFavoriteCall s c).personal_memory.learning_strength
      = s.personal_memory.learning_strength := by
  unfold addFavoriteCall addFavorite
  by_cases hc : s.personal_memory.favorite_count ≥ MAX_FAVORITES
  · simp only [if_pos hc]
  · simp only [if_neg hc]

theorem learnRate_range (s : Globals) (h0 : 0 ≤ s.personal_memory.learning_strength)
    (h1 : s.personal_memory.learning_strength ≤ 100) :
    0 ≤ learnRate s ∧ learnRate s ≤ 0.1 := by
  have h0q : (0 : ℚ) ≤ (s.personal_memory.learning_strength : ℚ) := by exact_mod_cast h0
  have h1q : (s.personal_memory.learning_strength : ℚ) ≤ 100 := by exact_mod_cast h1
  unfold learnRate
  constructor
  · positivity
  · linarith

theorem signature_unit_range (image : Int → Int) (width height : Int) (hw : 1 ≤ width)
    (hh : 1 ≤ height) (i : Fin 7) :
    0 ≤ extract_photo_signature image width height ((i : Nat) : Int) ∧
    extract_photo_signature image width height ((i : Nat) : Int) ≤ 1 := by
  obtain ⟨h0, h1, h2, h3, h4, h5, h6⟩ := signature_ranges image width height hw hh
  fin_cases i
  · exact h0
  · exact h1
  · exact h2
  · exact h3
  · exact h4
  · exact ⟨h5.1, le_of_lt h5.2⟩
  · exact h6

/-- The invariant behind the bound of the bias: the learning strength is in [0, 100]
and the bias components 0 to 6 are in [0, 1]. -/
theorem step_bias_bounds (s : Globals) (op : Op) (hv : op.valid)
    (h : (0 ≤ s.personal_memory.learning_strength ∧ s.personal_memory.learning_strength ≤ 100) ∧
      ∀ i : Fin 7, 0 ≤ s.personal_memory.personal_bias ((i : Nat) : Int) ∧
        s.personal_memory.personal_bias ((i : Nat) : Int) ≤ 1) :
    (0 ≤ (step s op).personal_memory.learning_strength ∧
      (step s op).personal_memory.learning_strength ≤ 100) ∧
    ∀ i : Fin 7, 0 ≤ (step s op).personal_memory.personal_bias ((i : Nat) : Int) ∧
      (step s op).personal_memory.personal_bias ((i : Nat) : Int) ≤ 1 := by
  obtain ⟨hl, hb⟩ := h
  cases op with
  | addFavorite c =>
    obtain ⟨hw, hh⟩ := hv
    obtain ⟨r0, r1⟩ := learnRate_range s hl.1 hl.2
    refine ⟨?_, ?_⟩
    · show 0 ≤ (addFavoriteCall s c).personal_memory.learning_strength ∧
        (addFavoriteCall s c).personal_memory.learning_strength ≤ 100
      rw [addFavoriteCall_learning_strength]
      exact hl
    · intro i
      show 0 ≤ (addFavoriteCall s c).personal_memory.personal_bias ((i : Nat) : Int) ∧
        (addFavoriteCall s c).personal_memory.personal_bias ((i : Nat) : Int) ≤ 1
      have hi : (0 : Int) ≤ ((i : Nat) : Int) ∧ ((i : Nat) : Int) < 10 := by
        have := i.isLt
        omega
      rw [addFavoriteCall_bias, if_pos hi]
      obtain ⟨b0, b1⟩ := hb i
      obtain ⟨s0, s1⟩ := signature_unit_range c.image c.width c.height hw hh i
      constructor
      · have h1 : 0 ≤ s.personal_memory.personal_bias ((i : Nat) : Int) * (1 - learnRate s) :=
          mul_nonneg b0 (by linarith)
        have h2 : 0 ≤ extract_photo_signature c.image c.width c.height ((i : Nat) : Int)
            * learnRate s := mul_nonneg s0 r0
        linarith
      · have h1 : s.personal_memory.personal_bias ((i : Nat) : Int) * (1 - learnRate s)
            ≤ 1 * (1 - learnRate s) := mul_le_mul_of_nonneg_right b1 (by linarith)
        have h2 : extract_photo_signature c.image c.width c.height ((i : Nat) : Int)
            * learnRate s ≤ 1 * learnRate s := mul_le_mul_of_nonneg_right s1 r0
        linarith
  | processImage inp out width height => exact ⟨hl, hb⟩
  | setLearningStrength strength => exact ⟨hv, hb⟩
  | clearPersonality =>
    refine ⟨hl, ?_⟩
    intro i
    show 0 ≤ (clearPersonality s).personal_memory.personal_bias ((i : Nat) : Int) ∧
      (clearPersonality s).personal_memory.personal_bias ((i : Nat) : Int) ≤ 1
    have h := forUpTo_bias_reset s.personal_memory.personal_bias
      ⟨(i : Nat), by have := i.isLt; omega⟩
    have he : (clearPersonality s).personal_memory.personal_bias ((i : Nat) : Int) = 0.5 := h
    rw [he]
    norm_num

theorem run_bias_bounds (ops : List Op) :
    ∀ s : Globals, (∀ op ∈ ops, op.valid) →
      ((0 ≤ s.personal_memory.learning_strength ∧ s.personal_memory.learning_strength ≤ 100) ∧
        ∀ i : Fin 7, 0 ≤ s.personal_memory.personal_bias ((i : Nat) : Int) ∧
          s.personal_memory.personal_bias ((i : Nat) : Int) ≤ 1) →
      (0 ≤ (run s ops).personal_memory.learning_strength ∧
        (run s ops).personal_memory.learning_strength ≤ 100) ∧
      ∀ i : Fin 7, 0 ≤ (run s ops).personal_memory.personal_bias ((i : Nat) : Int) ∧
        (run s ops).personal_memory.personal_bias ((i : Nat) : Int) ≤ 1 := by
  induction ops with
  | nil => intro s _ h; exact h
  | cons op ops ih =>
    intro s hv h
    exact ih (step s op) (fun o ho => hv o (List.mem_cons_of_mem op ho))
      (step_bias_bounds s op (hv op (List.mem_cons_self op ops)) h)

theorem initPersonality_bias_bounds (s0 : Globals) (now : Int) :
    (0 ≤ (initPersonality s0 now).personal_memory.learning_strength ∧
      (initPersonality s0 now).personal_memory.learning_strength ≤ 100) ∧
    ∀ i : Fin 7, 0 ≤ (initPersonality s0 now).personal_memory.personal_bias ((i : Nat) : Int) ∧
      (initPersonality s0 now).personal_memory.personal_bias ((i : Nat) : Int) ≤ 1 := by
  refine ⟨?_, ?_⟩
  · show (0 : Int) ≤ 75 ∧ (75 : Int) ≤ 100
    decide
  · intro i
    have h := forUpTo_bias_reset s0.personal_memory.personal_bias
      ⟨(i : Nat), by have := i.isLt; omega⟩
    have he : (initPersonality s0 now).personal_memory.personal_bias ((i : Nat) : Int)
        = 0.5 := h
    rw [he]
    norm_num

/-- C19: in every state reached from `initPersonality` by `addFavorite` on images with
width and height at least 1, `processImage`, `clearPersonality` and
`setLearningStrength` with values in [0, 100], the bias components 0 to 6 are in
[0, 1]; the rate `0.1 * (learning_strength / 100)` is in [0, 0.1] and an `addFavorite`
moves each of the 10 bias components to `(1 - rate) * bias[i] + rate * signature[i]`;
when the learning strength is 0 it leaves the bias unchanged. -/
theorem bias_stays_bounded (s0 : Globals) (now : Int) (ops : List Op)
    (hv : ∀ op ∈ ops, op.valid) :
    (∀ i : Fin 7,
      0 ≤ (run (initPersonality s0 now) ops).personal_memory.personal_bias ((i : Nat) : Int) ∧
      (run (initPersonality s0 now) ops).personal_memory.personal_bias ((i : Nat) : Int) ≤ 1) ∧
    (0 ≤ learnRate (run (initPersonality s0 now) ops) ∧
      learnRate (run (initPersonality s0 now) ops) ≤ 0.1) ∧
    (∀ (c : FavoriteCall) (i : Fin 10),
      (addFavoriteCall (run (initPersonality s0 now) ops) c).personal_memory.personal_bias
          ((i : Nat) : Int)
        = (1 - learnRate (run (initPersonality s0 now) ops))
            * (run (initPersonality s0 now) ops).personal_memory.personal_bias ((i : Nat) : Int)
          + learnRate (run (initPersonality s0 now) ops)
            * extract_photo_signature c.image c.width c.height ((i : Nat) : Int)) ∧
    ((run (initPersonality s0 now) ops).personal_memory.learning_strength = 0 →
      ∀ c : FavoriteCall,
        (addFavoriteCall (run (initPersonality s0 now) ops) c).personal_memory.personal_bias
          = (run (initPersonality s0 now) ops).personal_memory.personal_bias) := by
  obtain ⟨hl, hb⟩ := run_bias_bounds ops (initPersonality s0 now) hv
    (initPersonality_bias_bounds s0 now)
  refine ⟨hb, learnRate_range _ hl.1 hl.2, ?_, ?_⟩
  · intro c i
    have hi : (0 : Int) ≤ ((i : Nat) : Int) ∧ ((i : Nat) : Int) < 10 := by
      have := i.isLt
      omega
    rw [addFavoriteCall_bias, if_pos hi]
    ring
  · intro h0 c
    funext k
    rw [addFavoriteCall_bias]
    have hr : learnRate (run (initPersonality s0 now) ops) = 0 := by
      unfold learnRate
      rw [h0]
      norm_num
    rw [hr]
    split_ifs
    · ring
    · rfl

/-- Witness of C19: after the valid sequence `sampleOps` the bias component 0 is in
[0, 1] and the rate is in [0, 0.1]. -/
theorem bias_stays_bounded_witness :
    (∀ op ∈ sampleOps, op.valid) ∧
    (0 ≤ (run (initPersonality startGlobals 0) sampleOps).personal_memory.personal_bias 0 ∧
      (run (initPersonality startGlobals 0) sampleOps).personal_memory.personal_bias 0 ≤ 1) ∧
    (0 ≤ learnRate (run (initPersonality startGlobals 0) sampleOps) ∧
      learnRate (run (initPersonality startGlobals 0) sampleOps) ≤ 0.1) := by
  have hv : ∀ op ∈ sampleOps, op.valid := by
    intro op hop
    simp only [sampleOps, List.mem_cons, List.mem_singleton, List.not_mem_nil, or_false] at hop
    rcases hop with h | h | h | h | h <;> subst h <;> simp [Op.valid, numberedCall]
  have h := bias_stays_bounded startGlobals 0 sampleOps hv
  exact ⟨hv, h.1 ⟨0, by decide⟩, h.2.1⟩

/-! ## Binary32: the pixel loop -/

/-- The rounding error of a number below 4 is at most `2 ^ (-23)`. -/
theorem f32_error_lt_four (q : ℚ) (h : |q| < 4) : |f32 q - q| ≤ 1 / 8388608 := by
  have h1 := f32_error_of_abs_lt q 1 (by decide) (by norm_num; exact h)
  norm_num at h1
  linarith

/-- The rounding error of a number below 256 is at most `2 ^ (-17)`. -/
theorem f32_error_lt_256 (q : ℚ) (h : |q| < 256) : |f32 q - q| ≤ 1 / 131072 := by
  have h1 := f32_error_of_abs_lt q 7 (by decide) (by norm_num; exact h)
  norm_num at h1
  linarith

/-- The channel value the pixel loop starts from: the byte over 255, rounded. -/
theorem input_channel_range (v : Int) :
    0 ≤ f32 ((u8 v : ℚ) / 255) ∧ f32 ((u8 v : ℚ) / 255) ≤ 1 ∧
    |f32 ((u8 v : ℚ) / 255) - (u8 v : ℚ) / 255| ≤ 1 / 8388608 := by
  obtain ⟨h0, h1⟩ := u8_range v
  have h0q : (0 : ℚ) ≤ (u8 v : ℚ) := by exact_mod_cast h0
  have h1q : (u8 v : ℚ) ≤ 255 := by
    have : u8 v ≤ 255 := by omega
    exact_mod_cast this
  have hq0 : 0 ≤ (u8 v : ℚ) / 255 := by positivity
  have hq1 : (u8 v : ℚ) / 255 ≤ 1 := by
    rw [div_le_one (by norm_num)]
    exact h1q
  refine ⟨f32_nonneg _ hq0, ?_, ?_⟩
  · have := f32_mono _ _ hq0 hq1
    rw [f32_one] at this
    exact this
  · apply f32_error_lt_four
    rw [abs_of_nonneg hq0]
    linarith

theorem warmth_factor_minus : f32 (1 - f32 (f32 ((0.5 : ℚ) - 0.5) * f32 0.3)) = 1 := by
  rw [sub_self, f32_zero, zero_mul, f32_zero, sub_zero, f32_one]

theorem warmth_factor_plus : f32 (1 + f32 (f32 ((0.5 : ℚ) - 0.5) * f32 0.4)) = 1 := by
  rw [sub_self, f32_zero, zero_mul, f32_zero, add_zero, f32_one]

/-- The contrast step with contrast 1 (the product by 1 left out) moves a channel by at most three roundings. -/
theorem contrast_one_near (x : ℚ) (hx0 : 0 ≤ x) (hx1 : x ≤ 1) :
    |f32 (0.5 + f32 (f32 (x - 0.5))) - x| ≤ 3 / 8388608 := by
  have e1 := f32_error_lt_four (x - 0.5) (by rw [abs_lt]; constructor <;> norm_num <;> linarith)
  rw [abs_le] at e1
  have e2 := f32_error_lt_four (f32 (x - 0.5))
    (by rw [abs_lt]; constructor <;> norm_num at e1 ⊢ <;> linarith)
  rw [abs_le] at e2
  have e3 := f32_error_lt_four (0.5 + f32 (f32 (x - 0.5)))
    (by rw [abs_lt]; constructor <;> norm_num at e1 e2 ⊢ <;> linarith)
  rw [abs_le] at e3 ⊢
  norm_num at e1 e2 e3 ⊢
  constructor <;> linarith

theorem abs_mul_le_of_le (a b A B : ℚ) (ha : |a| ≤ A) (hb : |b| ≤ B) : |a * b| ≤ A * B := by
  rw [abs_mul]
  exact mul_le_mul ha hb (abs_nonneg b) (le_trans (abs_nonneg a) ha)

theorem f32_constant_near (c : ℚ) (h : |c| < 4) : |f32 c| ≤ |c| + 1 / 8388608 := by
  have e := f32_error_lt_four c h
  have := abs_sub_abs_le_abs_sub (f32 c) c
  linarith

/-- The luminance of three channels near [0, 1] is below 1.1 in absolute value. -/
theorem luminance_bound (r g b : ℚ) (hr : |r| ≤ 1001 / 1000) (hg : |g| ≤ 1001 / 1000)
    (hb : |b| ≤ 1001 / 1000) :
    |f32 (f32 (f32 (f32 0.299 * r) + f32 (f32 0.587 * g)) + f32 (f32 0.114 * b))|
      ≤ 11 / 10 := by
  have c1 : |f32 0.299| ≤ 3 / 10 := by
    have := f32_constant_near 0.299 (by rw [abs_of_pos] <;> norm_num)
    rw [abs_of_pos (by norm_num : (0 : ℚ) < 0.299)] at this
    norm_num at this ⊢
    linarith
  have c2 : |f32 0.587| ≤ 59 / 100 := by
    have := f32_constant_near 0.587 (by rw [abs_of_pos] <;> norm_num)
    rw [abs_of_pos (by norm_num : (0 : ℚ) < 0.587)] at this
    norm_num at this ⊢
    linarith
  have c3 : |f32 0.114| ≤ 115 / 1000 := by
    have := f32_constant_near 0.114 (by rw [abs_of_pos] <;> norm_num)
    rw [abs_of_pos (by norm_num : (0 : ℚ) < 0.114)] at this
    norm_num at this ⊢
    linarith
  have p1 := abs_mul_le_of_le _ _ _ _ c1 hr
  have p2 := abs_mul_le_of_le _ _ _ _ c2 hg
  have p3 := abs_mul_le_of_le _ _ _ _ c3 hb
  have e1 := f32_error_lt_four (f32 0.299 * r) (by linarith)
  have e2 := f32_error_lt_four (f32 0.587 * g) (by linarith)
  have e3 := f32_error_lt_four (f32 0.114 * b) (by linarith)
  rw [abs_le] at p1 p2 p3 e1 e2 e3
  have e4 := f32_error_lt_four (f32 (f32 0.299 * r) + f32 (f32 0.587 * g))
    (by rw [abs_lt]; constructor <;> linarith)
  rw [abs_le] at e4
  have e5 := f32_error_lt_four
    (f32 (f32 (f32 0.299 * r) + f32 (f32 0.587 * g)) + f32 (f32 0.114 * b))
    (by rw [abs_lt]; constructor <;> linarith)
  rw [abs_le] at e5 ⊢
  constructor <;> linarith

/-- The saturation step with saturation 1 (the product by 1 left out) moves a channel by at most three
roundings. -/
theorem saturation_one_near (lum x : ℚ) (hl : |lum| ≤ 11 / 10) (hx : |x| ≤ 1001 / 1000) :
    |f32 (lum + f32 (f32 (x - lum))) - x| ≤ 3 / 8388608 := by
  rw [abs_le] at hl hx
  have e1 := f32_error_lt_four (x - lum) (by rw [abs_lt]; constructor <;> linarith)
  rw [abs_le] at e1
  have e2 := f32_error_lt_four (f32 (x - lum))
    (by rw [abs_lt]; constructor <;> linarith)
  rw [abs_le] at e2
  have e3 := f32_error_lt_four (lum + f32 (f32 (x - lum)))
    (by rw [abs_lt]; constructor <;> linarith)
  rw [abs_le] at e3 ⊢
  constructor <;> linarith

/-- The clamp to [0, 1] does not move a value away from a number of [0, 1]. -/
theorem clamp_near (s x : ℚ) (d : ℚ) (hx0 : 0 ≤ x) (hx1 : x ≤ 1) (h : |s - x| ≤ d) :
    0 ≤ fmaxf 0 (fminf 1 s) ∧ fmaxf 0 (fminf 1 s) ≤ 1 ∧ |fmaxf 0 (fminf 1 s) - x| ≤ d := by
  unfold fmaxf fminf
  rw [abs_le] at h ⊢
  refine ⟨le_max_left _ _, max_le (by norm_num) (min_le_left _ _), ?_, ?_⟩
  · have : min 1 s ≤ max 0 (min 1 s) := le_max_right _ _
    rcases le_total 1 s with h1 | h1
    · rw [min_eq_left h1] at this ⊢
      linarith
    · rw [min_eq_right h1] at this ⊢
      linarith
  · rcases le_total 0 (min 1 s) with h0 | h0
    · rw [max_eq_right h0]
      have := min_le_right 1 s
      linarith
    · rw [max_eq_left h0]
      linarith [h.1, hx0, (le_trans (abs_nonneg _) (abs_le.mpr h) : (0 : ℚ) ≤ d)]

/-- The write-back of a clamped channel within `10 ^ (-5)` of `k / 255` stores a byte
whose unsigned value is `k - 1` or `k`. -/
theorem write_back_near (v : Int) (c : ℚ) (hc0 : 0 ≤ c) (hc1 : c ≤ 1)
    (h : |c - (u8 v : ℚ) / 255| ≤ 1 / 100000) :
    |u8 (toJbyte (f32 (c * 255))) - u8 v| ≤ 1 := by
  obtain ⟨h0, h1⟩ := u8_range v
  have hp0 : 0 ≤ c * 255 := by positivity
  have hp1 : c * 255 ≤ 255 := by linarith
  have hv0 := f32_nonneg (c * 255) hp0
  have hv1 : f32 (c * 255) ≤ 255 := by
    have := f32_mono _ _ hp0 hp1
    have h255 : f32 255 = 255 := by
      have := f32_intCast 255 (by decide)
      simpa using this
    rw [h255] at this
    exact this
  have e := f32_error_lt_256 (c * 255) (by rw [abs_of_nonneg hp0]; linarith)
  rw [abs_le] at e h
  have hlo : (u8 v : ℚ) - 1 < f32 (c * 255) := by linarith
  have hhi : f32 (c * 255) < (u8 v : ℚ) + 1 := by linarith
  have hf0 : 0 ≤ ⌊f32 (c * 255)⌋ := Int.floor_nonneg.mpr hv0
  have hf1 : ⌊f32 (c * 255)⌋ ≤ 255 := by
    have : ⌊f32 (c * 255)⌋ ≤ ⌊(255 : ℚ)⌋ := Int.floor_mono hv1
    have h255 : ⌊(255 : ℚ)⌋ = 255 := by simp
    omega
  have hflo : u8 v - 1 ≤ ⌊f32 (c * 255)⌋ := by
    rw [Int.le_floor]
    push_cast
    linarith
  have hfhi : ⌊f32 (c * 255)⌋ < u8 v + 1 := by
    rw [Int.floor_lt]
    push_cast
    linarith
  unfold toJbyte truncToInt
  rw [if_pos hv0, abs_le]
  unfold u8 at h0 h1 hflo hfhi ⊢
  omega

theorem contrast_channel_bound (v : Int) :
    |f32 (0.5 + f32 (f32 (f32 ((u8 v : ℚ) / 255) - 0.5)))| ≤ 1001 / 1000 := by
  obtain ⟨h0, h1, -⟩ := input_channel_range v
  have e := contrast_one_near (f32 ((u8 v : ℚ) / 255)) h0 h1
  rw [abs_le] at e ⊢
  constructor <;> linarith

/-- One channel through the pixel loop with the identity parameters: whatever the
luminance (below 1.1), the byte written differs from the input byte by at most 1. -/
theorem identity_channel (v : Int) (lum : ℚ) (hl : |lum| ≤ 11 / 10) :
    |u8 (toJbyte (f32 (fmaxf 0 (fminf 1
        (f32 (lum + f32 (f32 (f32 (0.5 + f32 (f32 (f32 ((u8 v : ℚ) / 255) - 0.5)))
          - lum))))) * 255))) - u8 v| ≤ 1 := by
  obtain ⟨h0, h1, he⟩ := input_channel_range v
  have hc := contrast_one_near (f32 ((u8 v : ℚ) / 255)) h0 h1
  have hs := saturation_one_near lum _ hl (contrast_channel_bound v)
  obtain ⟨u0, u1⟩ := u8_range v
  have hq0 : (0 : ℚ) ≤ (u8 v : ℚ) / 255 := by
    have : (0 : ℚ) ≤ (u8 v : ℚ) := by exact_mod_cast u0
    positivity
  have hq1 : (u8 v : ℚ) / 255 ≤ 1 := by
    rw [div_le_one (by norm_num)]
    have : u8 v ≤ 255 := by omega
    exact_mod_cast this
  have htot : |f32 (lum + f32 (f32 (f32 (0.5 + f32 (f32 (f32 ((u8 v : ℚ) / 255) - 0.5)))
      - lum))) - (u8 v : ℚ) / 255| ≤ 1 / 100000 := by
    rw [abs_le] at he hc hs ⊢
    constructor <;> linarith
  obtain ⟨c0, c1, cn⟩ := clamp_near _ _ _ hq0 hq1 htot
  exact write_back_near v _ c0 c1 cn

theorem f32_idem_channel (v : Int) :
    f32 (f32 ((u8 v : ℚ) / 255)) = f32 ((u8 v : ℚ) / 255) := by
  obtain ⟨h0, -⟩ := u8_range v
  have : (0 : ℚ) ≤ (u8 v : ℚ) := by exact_mod_cast h0
  exact f32_idem _ (by positivity)

/-- The body of the pixel loop with the identity parameters: each of the three bytes it
writes differs from the input byte by at most 1, and no other byte changes. -/
theorem transform_pixel_identity (inp : Int → Int) (sharpness : ℚ) (i : Int)
    (out : Int → Int) (k : Int) :
    (k = i ∨ k = i + 1 ∨ k = i + 2 →
      |u8 (transform_pixel inp (identityParameters sharpness) i out k) - u8 (inp k)| ≤ 1) ∧
    (¬ (k = i ∨ k = i + 1 ∨ k = i + 2) →
      transform_pixel inp (identityParameters sharpness) i out k = out k) := by
  have hw : ¬ ((0.5 : ℚ) > 0.5) := lt_irrefl _
  have hR := contrast_channel_bound (inp i)
  have hG := contrast_channel_bound (inp (i + 1))
  have hB := contrast_channel_bound (inp (i + 2))
  have hL := luminance_bound _ _ _ hR hG hB
  unfold transform_pixel identityParameters
  simp only [store, if_neg hw, warmth_factor_minus, warmth_factor_plus, mul_one, one_mul,
    f32_idem_channel]
  constructor
  · intro hk
    by_cases h2 : k = i + 2
    · rw [if_pos h2, h2]
      exact identity_channel (inp (i + 2)) _ hL
    rw [if_neg h2]
    by_cases h1 : k = i + 1
    · rw [if_pos h1, h1]
      exact identity_channel (inp (i + 1)) _ hL
    rw [if_neg h1]
    have h0 : k = i := by tauto
    rw [if_pos h0, h0]
    exact identity_channel (inp i) _ hL
  · intro hk
    rw [if_neg (by tauto), if_neg (by tauto), if_neg (by tauto)]

theorem transform_pixels_identity (inp out : Int → Int) (width height : Int) (sharpness : ℚ)
    (k : Int) (h0 : 0 ≤ k) (hk : k < width * height * 3) :
    |u8 (transform_pixels inp out width height (identityParameters sharpness) k) - u8 (inp k)|
      ≤ 1 := by
  have h := strideLoop_invariant 3 (by decide) (width * height * 3)
    (transform_pixel inp (identityParameters sharpness))
    (fun x o => 0 ≤ x ∧ ∀ j, 0 ≤ j → j < x → |u8 (o j) - u8 (inp j)| ≤ 1)
    (by
      rintro x o - ⟨hx, ho⟩
      refine ⟨by omega, ?_⟩
      intro j hj0 hj
      obtain ⟨hin, hout⟩ := transform_pixel_identity inp sharpness x o j
      by_cases hc : j = x ∨ j = x + 1 ∨ j = x + 2
      · exact hin hc
      · rw [hout hc]
        exact ho j hj0 (by omega))
    _ 0 out rfl ⟨le_refl 0, by intro j hj0 hj; omega⟩
  obtain ⟨x', hx', -, hall⟩ := h
  exact hall k h0 (by omega)

/-- C9: with warmth 0.5, exposure 1, contrast 1 and saturation 1 (any sharpness) the
pixel loop of `processImage`, computed in binary32, writes at every offset below
`width * height * 3` a byte whose unsigned value differs from that of the input byte by
at most 1; computed in exact arithmetic it writes the input byte itself. -/
theorem identity_transform (inp out : Int → Int) (width height : Int) (sharpness : ℚ) (k : Int)
    (h0 : 0 ≤ k) (hk : k < width * height * 3) :
    |u8 (transform_pixels inp out width height
        { exposure := 1, contrast := 1, saturation := 1, sharpness := sharpness, warmth := 0.5 } k)
      - u8 (inp k)| ≤ 1 ∧
    u8 (transform_pixels_exact inp out width height
        { exposure := 1, contrast := 1, saturation := 1, sharpness := sharpness, warmth := 0.5 } k)
      = u8 (inp k) :=
  ⟨transform_pixels_identity inp out width height sharpness k h0 hk,
    transform_pixels_exact_identity inp out width height sharpness k h0 hk⟩

/-- Witness of C9: offset 4 of a 2 x 1 image. -/
theorem identity_transform_witness :
    (0 : Int) ≤ 4 ∧ (4 : Int) < 2 * 1 * 3 ∧
    |u8 (transform_pixels rampImage (fun _ => 0) 2 1
        { exposure := 1, contrast := 1, saturation := 1, sharpness := 0.08, warmth := 0.5 } 4)
      - u8 (rampImage 4)| ≤ 1 ∧
    u8 (transform_pixels_exact rampImage (fun _ => 0) 2 1
        { exposure := 1, contrast := 1, saturation := 1, sharpness := 0.08, warmth := 0.5 } 4)
      = u8 (rampImage 4) :=
  ⟨by decide, by decide,
    identity_transform rampImage (fun _ => 0) 2 1 0.08 4 (by decide) (by decide)⟩

/-- Evaluation of a rounding, with the value given apart. -/
theorem f32_eval (x : ℚ) (e m : Int) (v : ℚ) (he : -126 ≤ e) (h1 : (2 : ℚ) ^ e ≤ |x|)
    (h2 : |x| < (2 : ℚ) ^ (e + 1)) (hm : |x / (2 : ℚ) ^ (e - 23) - (m : ℚ)| < 1 / 2)
    (hv : (m : ℚ) * (2 : ℚ) ^ (e - 23) = v) : f32 x = v := by
  rw [← hv]
  exact f32_eq_of_near x e m he h1 h2 hm

/-- The pixel loop in binary32 is not the identity: with the identity parameters a
gray pixel of level 11 is written back as level 10. -/
theorem transform_pixel_gray_11 (out : Int → Int) (sharpness : ℚ) :
    u8 (transform_pixel (fun _ => 11) (identityParameters sharpness) 0 out 0) = 10 := by
  have hw : ¬ ((0.5 : ℚ) > 0.5) := lt_irrefl _
  have c299 : f32 (299 / 1000) = (10032775 / 33554432) :=
    f32_eval _ (-2) (10032775) _ (by decide) (by rw [le_abs]; left; norm_num)
      (by rw [abs_lt]; constructor <;> norm_num) (by rw [abs_lt]; constructor <;> norm_num)
      (by norm_num)
  have c587 : f32 (587 / 1000) = (4924113 / 8388608) :=
    f32_eval _ (-1) (9848226) _ (by decide) (by rw [le_abs]; left; norm_num)
      (by rw [abs_lt]; constructor <;> norm_num) (by rw [abs_lt]; constructor <;> norm_num)
      (by norm_num)
  have c114 : f32 (57 / 500) = (15300821 / 134217728) :=
    f32_eval _ (-4) (15300821) _ (by decide) (by rw [le_abs]; left; norm_num)
      (by rw [abs_lt]; constructor <;> norm_num) (by rw [abs_lt]; constructor <;> norm_num)
      (by norm_num)
  have hr0 : f32 (11 / 255) = (11579569 / 268435456) :=
    f32_eval _ (-5) (11579569) _ (by decide) (by rw [le_abs]; left; norm_num)
      (by rw [abs_lt]; constructor <;> norm_num) (by rw [abs_lt]; constructor <;> norm_num)
      (by norm_num)
  have ht1 : f32 (-(122638159 / 268435456)) = (-(7664885 / 16777216)) :=
    f32_eval _ (-2) (-15329770) _ (by decide) (by rw [le_abs]; right; norm_num)
      (by rw [abs_lt]; constructor <;> norm_num) (by rw [abs_lt]; constructor <;> norm_num)
      (by norm_num)
  have ht2 : f32 (-(7664885 / 16777216)) = (-(7664885 / 16777216)) :=
    f32_eval _ (-2) (-15329770) _ (by decide) (by rw [le_abs]; right; norm_num)
      (by rw [abs_lt]; constructor <;> norm_num) (by rw [abs_lt]; constructor <;> norm_num)
      (by norm_num)
  have hrc : f32 (723723 / 16777216) = (723723 / 16777216) :=
    f32_eval _ (-5) (11579568) _ (by decide) (by rw [le_abs]; left; norm_num)
      (by rw [abs_lt]; constructor <;> norm_num) (by rw [abs_lt]; constructor <;> norm_num)
      (by norm_num)
  have ha1 : f32 (7260950021325 / 562949953421312) = (13849163 / 1073741824) :=
    f32_eval _ (-7) (13849163) _ (by decide) (by rw [le_abs]; left; norm_num)
      (by rw [abs_lt]; constructor <;> norm_num) (by rw [abs_lt]; constructor <;> norm_num)
      (by norm_num)
  have ha2 : f32 (3563693832699 / 140737488355328) = (13594413 / 536870912) :=
    f32_eval _ (-6) (13594413) _ (by decide) (by rw [le_abs]; left; norm_num)
      (by rw [abs_lt]; constructor <;> norm_num) (by rw [abs_lt]; constructor <;> norm_num)
      (by norm_num)
  have ha3 : f32 (11073556076583 / 2251799813685248) = (5280283 / 1073741824) :=
    f32_eval _ (-8) (10560566) _ (by decide) (by rw [le_abs]; left; norm_num)
      (by rw [abs_lt]; constructor <;> norm_num) (by rw [abs_lt]; constructor <;> norm_num)
      (by norm_num)
  have hs12 : f32 (41037989 / 1073741824) = (10259497 / 268435456) :=
    f32_eval _ (-5) (10259497) _ (by decide) (by rw [le_abs]; left; norm_num)
      (by rw [abs_lt]; constructor <;> norm_num) (by rw [abs_lt]; constructor <;> norm_num)
      (by norm_num)
  have hlum : f32 (46318271 / 1073741824) = (723723 / 16777216) :=
    f32_eval _ (-5) (11579568) _ (by decide) (by rw [le_abs]; left; norm_num)
      (by rw [abs_lt]; constructor <;> norm_num) (by rw [abs_lt]; constructor <;> norm_num)
      (by norm_num)
  have hv : f32 (184549365 / 16777216) = (11534335 / 1048576) :=
    f32_eval _ (3) (11534335) _ (by decide) (by rw [le_abs]; left; norm_num)
      (by rw [abs_lt]; constructor <;> norm_num) (by rw [abs_lt]; constructor <;> norm_num)
      (by norm_num)
  have hfloor : ⌊(11534335 / 1048576 : ℚ)⌋ = 10 := by
    rw [Int.floor_eq_iff]
    constructor <;> norm_num
  unfold transform_pixel identityParameters
  simp only [store, if_neg hw, warmth_factor_minus, warmth_factor_plus, mul_one, one_mul,
    f32_idem_channel]
  norm_num [u8, c299, c587, c114, hr0, ht1, ht2, hrc, ha1, ha2, ha3, hs12, hlum, hv, f32_zero,
    fmaxf, fminf, toJbyte, truncToInt, hfloor]

/-! ## Binary32: the photo signature -/

theorem channel32_range (image : Int → Int) (idx : Int) :
    0 ≤ channel32 image idx ∧ channel32 image idx ≤ 1 ∧
    f32 (channel32 image idx) = channel32 image idx := by
  obtain ⟨h0, h1, -⟩ := input_channel_range (image idx)
  exact ⟨h0, h1, f32_idem_channel (image idx)⟩

theorem f32_c587 : f32 0.587 = 9848226 * (2 : ℚ) ^ (-24 : Int) :=
  f32_eval _ (-1) 9848226 _ (by decide) (by rw [le_abs]; left; norm_num)
    (by rw [abs_lt]; constructor <;> norm_num) (by rw [abs_lt]; constructor <;> norm_num)
    (by norm_num)

theorem f32_c114 : f32 0.114 = 15300821 * (2 : ℚ) ^ (-27 : Int) :=
  f32_eval _ (-4) 15300821 _ (by decide) (by rw [le_abs]; left; norm_num)
    (by rw [abs_lt]; constructor <;> norm_num) (by rw [abs_lt]; constructor <;> norm_num)
    (by norm_num)

theorem roundNearestEven_tie_odd (m : Int) (hm : m % 2 = 1) :
    roundNearestEven ((m : ℚ) + 1 / 2) = m + 1 := by
  have hf : ⌊(m : ℚ) + 1 / 2⌋ = m := by
    rw [Int.floor_eq_iff]
    constructor <;> linarith
  unfold roundNearestEven
  rw [hf]
  have h1 : ¬ ((m : ℚ) + 1 / 2 - (m : ℚ) < 1 / 2) := by norm_num
  have h2 : ¬ ((m : ℚ) + 1 / 2 - (m : ℚ) > 1 / 2) := by norm_num
  have h3 : ¬ (m % 2 = 0) := by omega
  rw [if_neg h1, if_neg h2, if_neg h3]

/-- Evaluation of a rounding at a tie whose lower neighbour has an odd significand:
the number rounds up. -/
theorem f32_eq_of_tie_odd (x : ℚ) (e m : Int) (he : -126 ≤ e) (h1 : (2 : ℚ) ^ e ≤ |x|)
    (h2 : |x| < (2 : ℚ) ^ (e + 1)) (hm : x / (2 : ℚ) ^ (e - 23) = (m : ℚ) + 1 / 2)
    (hodd : m % 2 = 1) :
    f32 x = ((m + 1 : Int) : ℚ) * (2 : ℚ) ^ (e - 23) := by
  have hb := binade_eq x e he h1 h2
  unfold f32 ulp
  rw [hb, hm, roundNearestEven_tie_odd m hodd]

/-- The brightness of a white pixel is exactly 1 in binary32: the sum of the three
weights rounds to 1. -/
theorem luma_weights_sum :
    f32 (f32 (f32 (f32 0.299) + f32 (f32 0.587)) + f32 (f32 0.114)) = 1 := by
  have i1 : f32 (f32 0.299) = f32 0.299 := f32_idem _ (by norm_num)
  have i2 : f32 (f32 0.587) = f32 0.587 := f32_idem _ (by norm_num)
  have i3 : f32 (f32 0.114) = f32 0.114 := f32_idem _ (by norm_num)
  rw [i1, i2, i3, f32_c299, f32_c587, f32_c114]
  have h12 : f32 (10032775 * (2 : ℚ) ^ (-25 : Int) + 9848226 * (2 : ℚ) ^ (-24 : Int))
      = 14864614 * (2 : ℚ) ^ (-24 : Int) := by
    have h := f32_eq_of_tie_odd
      (10032775 * (2 : ℚ) ^ (-25 : Int) + 9848226 * (2 : ℚ) ^ (-24 : Int))
      (-1) 14864613 (by decide) (by rw [le_abs]; left; norm_num)
      (by rw [abs_lt]; constructor <;> norm_num) (by norm_num) (by decide)
    rw [h]
    norm_num
  rw [h12]
  exact f32_eval _ 0 8388608 _ (by decide) (by rw [le_abs]; left; norm_num)
    (by rw [abs_lt]; constructor <;> norm_num) (by rw [abs_lt]; constructor <;> norm_num)
    (by norm_num)

/-- The sum 2 ^ 24 + 1 is a tie and rounds down to 2 ^ 24: a binary32 sum of terms
in [0, 1] stops growing there. -/
theorem f32_saturation_point : f32 16777217 = 16777216 := by
  have h := f32_eq_of_tie 16777217 24 8388608 (by decide) (by rw [le_abs]; left; norm_num)
    (by rw [abs_lt]; constructor <;> norm_num) (by norm_num) (by decide)
  rw [h]
  norm_num

theorem f32_weight_nonneg : 0 ≤ f32 0.299 ∧ 0 ≤ f32 0.587 ∧ 0 ≤ f32 0.114 :=
  ⟨f32_nonneg _ (by norm_num), f32_nonneg _ (by norm_num), f32_nonneg _ (by norm_num)⟩

/-- The brightness of three channels of [0, 1] is in [0, 1] in binary32. -/
theorem brightness32_range (r g b : ℚ) (hr0 : 0 ≤ r) (hr1 : r ≤ 1) (hg0 : 0 ≤ g) (hg1 : g ≤ 1)
    (hb0 : 0 ≤ b) (hb1 : b ≤ 1) :
    0 ≤ f32 (f32 (f32 (f32 0.299 * r) + f32 (f32 0.587 * g)) + f32 (f32 0.114 * b)) ∧
    f32 (f32 (f32 (f32 0.299 * r) + f32 (f32 0.587 * g)) + f32 (f32 0.114 * b)) ≤ 1 := by
  obtain ⟨w1, w2, w3⟩ := f32_weight_nonneg
  have p1 : 0 ≤ f32 0.299 * r := mul_nonneg w1 hr0
  have p2 : 0 ≤ f32 0.587 * g := mul_nonneg w2 hg0
  have p3 : 0 ≤ f32 0.114 * b := mul_nonneg w3 hb0
  have q1 : f32 0.299 * r ≤ f32 0.299 := by nlinarith
  have q2 : f32 0.587 * g ≤ f32 0.587 := by nlinarith
  have q3 : f32 0.114 * b ≤ f32 0.114 := by nlinarith
  have a1 := f32_nonneg _ p1
  have a2 := f32_nonneg _ p2
  have a3 := f32_nonneg _ p3
  have m1 := f32_mono _ _ p1 q1
  have m2 := f32_mono _ _ p2 q2
  have m3 := f32_mono _ _ p3 q3
  have s12 : 0 ≤ f32 (f32 0.299 * r) + f32 (f32 0.587 * g) := by linarith
  have a12 := f32_nonneg _ s12
  have m12 := f32_mono _ _ s12 (by linarith : f32 (f32 0.299 * r) + f32 (f32 0.587 * g)
    ≤ f32 (f32 0.299) + f32 (f32 0.587))
  have s123 : 0 ≤ f32 (f32 (f32 0.299 * r) + f32 (f32 0.587 * g)) + f32 (f32 0.114 * b) := by
    linarith
  refine ⟨f32_nonneg _ s123, ?_⟩
  have m123 := f32_mono _ _ s123
    (by linarith : f32 (f32 (f32 0.299 * r) + f32 (f32 0.587 * g)) + f32 (f32 0.114 * b)
      ≤ f32 (f32 (f32 0.299) + f32 (f32 0.587)) + f32 (f32 0.114))
  rw [luma_weights_sum] at m123
  exact m123

theorem luma32_range (image : Int → Int) (width x y : Int) :
    0 ≤ luma32 image width x y ∧ luma32 image width x y ≤ 1 := by
  obtain ⟨r0, r1, -⟩ := channel32_range image ((y * width + x) * 3)
  obtain ⟨g0, g1, -⟩ := channel32_range image ((y * width + x) * 3 + 1)
  obtain ⟨b0, b1, -⟩ := channel32_range image ((y * width + x) * 3 + 2)
  exact brightness32_range _ _ _ r0 r1 g0 g1 b0 b1

/-- One accumulation `sum += v` in binary32 with `v` in [0, 1]: the sum stays between 0
and the number of terms, and never passes 2 ^ 24. -/
theorem accumulate32 (s v : ℚ) (n : Int) (hn : 0 ≤ n) (hs0 : 0 ≤ s) (hsn : s ≤ (n : ℚ))
    (hs : s ≤ 16777216) (hv0 : 0 ≤ v) (hv1 : v ≤ 1) :
    0 ≤ f32 (s + v) ∧
    (f32 (s + v) ≤ ((n + 1 : Int) : ℚ) ∧ f32 (s + v) ≤ 16777216) := by
  have hsv : 0 ≤ s + v := by linarith
  have htop : f32 (s + v) ≤ 16777216 := by
    have := f32_mono (s + v) 16777217 hsv (by linarith)
    rw [f32_saturation_point] at this
    exact this
  refine ⟨f32_nonneg _ hsv, ?_, htop⟩
  by_cases hc : n + 1 < 2 ^ 24
  · have h := f32_mono (s + v) ((n + 1 : Int) : ℚ) hsv (by push_cast; linarith)
    rw [f32_intCast (n + 1) (by rw [abs_of_nonneg (by omega)]; exact hc)] at h
    exact h
  · have : (16777216 : ℚ) ≤ ((n + 1 : Int) : ℚ) := by
      have h2 : (2 ^ 24 : Int) ≤ n + 1 := by omega
      have : ((2 ^ 24 : Int) : ℚ) ≤ ((n + 1 : Int) : ℚ) := by exact_mod_cast h2
      norm_num at this ⊢
      exact this
    linarith

theorem saturationTerm32_range (r g b : ℚ) (hr : 0 ≤ r ∧ f32 r = r) (hg : 0 ≤ g ∧ f32 g = g)
    (hb : 0 ≤ b ∧ f32 b = b) (hpos : fmaxf (fmaxf r g) b > 0) :
    0 ≤ saturationTerm32 r g b ∧ saturationTerm32 r g b ≤ 1 := by
  have hmax0 : 0 < fmaxf (fmaxf r g) b := hpos
  have hmin0 : 0 ≤ fminf (fminf r g) b := by
    unfold fminf
    exact le_min (le_min hr.1 hg.1) hb.1
  have hle : fminf (fminf r g) b ≤ fmaxf (fmaxf r g) b := by
    unfold fminf fmaxf
    exact le_trans (min_le_right _ _) (le_max_right _ _)
  have hfl : f32 (fmaxf (fmaxf r g) b) = fmaxf (fmaxf r g) b := by
    unfold fmaxf
    rcases max_cases (max r g) b with ⟨h1, -⟩ | ⟨h1, -⟩
    · rw [h1]
      rcases max_cases r g with ⟨h2, -⟩ | ⟨h2, -⟩
      · rw [h2]; exact hr.2
      · rw [h2]; exact hg.2
    · rw [h1]; exact hb.2
  have hd0 : 0 ≤ fmaxf (fmaxf r g) b - fminf (fminf r g) b := by linarith
  have hd := f32_mono _ _ hd0
    (by linarith : fmaxf (fmaxf r g) b - fminf (fminf r g) b ≤ fmaxf (fmaxf r g) b)
  rw [hfl] at hd
  have hn := f32_nonneg _ hd0
  have hq0 : 0 ≤ f32 (fmaxf (fmaxf r g) b - fminf (fminf r g) b) / fmaxf (fmaxf r g) b :=
    div_nonneg hn (le_of_lt hmax0)
  have hq1 : f32 (fmaxf (fmaxf r g) b - fminf (fminf r g) b) / fmaxf (fmaxf r g) b ≤ 1 :=
    (div_le_one hmax0).mpr hd
  unfold saturationTerm32
  refine ⟨f32_nonneg _ hq0, ?_⟩
  have := f32_mono _ _ hq0 hq1
  rw [f32_one] at this
  exact this

/-- The locals after the body of the binary32 inner loop at a position inside the
image. -/
theorem sample_pixel32_fields (image : Int → Int) (width height x y : Int) (a : Sampling)
    (hx0 : 0 ≤ x) (hx : x < width) (hy0 : 0 ≤ y) (hy : y < height) :
    (Binary32.sample_pixel image width (width * height * 3) y x a).sample_count
      = a.sample_count + 1 ∧
    (Binary32.sample_pixel image width (width * height * 3) y x a).brightness_sum
      = f32 (a.brightness_sum + luma32 image width x y) ∧
    (Binary32.sample_pixel image width (width * height * 3) y x a).r_sum
      = f32 (a.r_sum + channel32 image ((y * width + x) * 3)) ∧
    (Binary32.sample_pixel image width (width * height * 3) y x a).g_sum
      = f32 (a.g_sum + channel32 image ((y * width + x) * 3 + 1)) ∧
    (Binary32.sample_pixel image width (width * height * 3) y x a).b_sum
      = f32 (a.b_sum + channel32 image ((y * width + x) * 3 + 2)) ∧
    (Binary32.sample_pixel image width (width * height * 3) y x a).min_bright
      = (if luma32 image width x y < a.min_bright then luma32 image width x y
          else a.min_bright) ∧
    (Binary32.sample_pixel image width (width * height * 3) y x a).max_bright
      = (if luma32 image width x y > a.max_bright then luma32 image width x y
          else a.max_bright) ∧
    (Binary32.sample_pixel image width (width * height * 3) y x a).warm_sum
      = f32 (a.warm_sum + f32 (channel32 image ((y * width + x) * 3)
          + f32 (channel32 image ((y * width + x) * 3 + 1) * 0.5))) ∧
    (Binary32.sample_pixel image width (width * height * 3) y x a).cool_sum
      = f32 (a.cool_sum + channel32 image ((y * width + x) * 3 + 2)) ∧
    (Binary32.sample_pixel image width (width * height * 3) y x a).saturation_sum
      = (if fmaxf (fmaxf (channel32 image ((y * width + x) * 3))
            (channel32 image ((y * width + x) * 3 + 1)))
            (channel32 image ((y * width + x) * 3 + 2)) > 0 then
          f32 (a.saturation_sum + saturationTerm32 (channel32 image ((y * width + x) * 3))
            (channel32 image ((y * width + x) * 3 + 1))
            (channel32 image ((y * width + x) * 3 + 2)))
        else a.saturation_sum) := by
  have hguard : ¬ ((y * width + x) * 3 + 2 ≥ width * height * 3) := by
    have := (sample_index_in_bounds width height x y hx0 hx hy0 hy).2
    omega
  unfold Binary32.sample_pixel
  simp only [if_neg hguard]
  exact ⟨trivial, rfl, rfl, rfl, rfl, rfl, rfl, rfl, rfl, rfl⟩

theorem samplingInv32_step (image : Int → Int) (width height x y : Int) (a : Sampling)
    (hg : onGrid width height x y) (h : SamplingInv32 image width height y x a) :
    SamplingInv32 image width height y (x + 8)
      (Binary32.sample_pixel image width (width * height * 3) y x a) := by
  obtain ⟨hc, hbr, hr, hgr, hb, hmin, hmax, hwarm, hcool, hsat⟩ :=
    sample_pixel32_fields image width height x y a hg.1.1 hg.1.2.1 hg.2.1 hg.2.2.1
  obtain ⟨l0, l1⟩ := luma32_range image width x y
  obtain ⟨r0, r1, rf⟩ := channel32_range image ((y * width + x) * 3)
  obtain ⟨g0, g1, gf⟩ := channel32_range image ((y * width + x) * 3 + 1)
  obtain ⟨b0, b1, bf⟩ := channel32_range image ((y * width + x) * 3 + 2)
  have hcn := h.count_nonneg
  have hmin_le : (Binary32.sample_pixel image width (width * height * 3) y x a).min_bright
      ≤ a.min_bright ∧
      (Binary32.sample_pixel image width (width * height * 3) y x a).min_bright
        ≤ luma32 image width x y := by
    rw [hmin]
    split_ifs with hlt
    · exact ⟨le_of_lt hlt, le_refl _⟩
    · exact ⟨le_refl _, not_lt.mp hlt⟩
  have hmax_le : a.max_bright
      ≤ (Binary32.sample_pixel image width (width * height * 3) y x a).max_bright ∧
      luma32 image width x y
        ≤ (Binary32.sample_pixel image width (width * height * 3) y x a).max_bright := by
    rw [hmax]
    split_ifs with hlt
    · exact ⟨le_of_lt hlt, le_refl _⟩
    · exact ⟨le_refl _, not_lt.mp hlt⟩
  have hhere : visitedBefore width height y (x + 8) x y :=
    (visitedBefore_step width height x y x y hg).mpr (Or.inr ⟨rfl, rfl⟩)
  have abr := accumulate32 _ _ _ hcn h.brightness_lo h.brightness_hi.1 h.brightness_hi.2 l0 l1
  have ar := accumulate32 _ _ _ hcn h.r_lo h.r_hi.1 h.r_hi.2 r0 r1
  have ag := accumulate32 _ _ _ hcn h.g_lo h.g_hi.1 h.g_hi.2 g0 g1
  have ab := accumulate32 _ _ _ hcn h.b_lo h.b_hi.1 h.b_hi.2 b0 b1
  have hw0 : 0 ≤ a.warm_sum + f32 (channel32 image ((y * width + x) * 3)
      + f32 (channel32 image ((y * width + x) * 3 + 1) * 0.5)) := by
    have h1 := f32_nonneg (channel32 image ((y * width + x) * 3 + 1) * 0.5) (by positivity)
    have h2 := f32_nonneg (channel32 image ((y * width + x) * 3)
      + f32 (channel32 image ((y * width + x) * 3 + 1) * 0.5)) (by linarith)
    linarith [h.warm_lo]
  have hc0 : 0 ≤ a.cool_sum + channel32 image ((y * width + x) * 3 + 2) := by
    linarith [h.cool_lo]
  have hsat_all : 0 ≤ (Binary32.sample_pixel image width (width * height * 3) y x a).saturation_sum
      ∧ ((Binary32.sample_pixel image width (width * height * 3) y x a).saturation_sum
          ≤ ((a.sample_count + 1 : Int) : ℚ) ∧
        (Binary32.sample_pixel image width (width * height * 3) y x a).saturation_sum
          ≤ 16777216) := by
    rw [hsat]
    split_ifs with hpos
    · obtain ⟨t0, t1⟩ := saturationTerm32_range _ _ _ ⟨r0, rf⟩ ⟨g0, gf⟩ ⟨b0, bf⟩ hpos
      exact accumulate32 _ _ _ hcn h.saturation_lo h.saturation_hi.1 h.saturation_hi.2 t0 t1
    · refine ⟨h.saturation_lo, ?_, h.saturation_hi.2⟩
      have := h.saturation_hi.1
      push_cast
      linarith
  refine
    { count_eq := ?_, count_nonneg := ?_, brightness_lo := ?_, brightness_hi := ?_,
      r_lo := ?_, r_hi := ?_, g_lo := ?_, g_hi := ?_, b_lo := ?_, b_hi := ?_,
      saturation_lo := ?_, saturation_hi := ?_, warm_lo := ?_, warm_float := ?_, cool_lo := ?_,
      between := ?_, min_attained := ?_, max_attained := ?_ }
  · have h8 : (x + 8) / 8 = x / 8 + 1 := by omega
    rw [hc, h.count_eq, h8]
    ring
  · rw [hc]
    omega
  · rw [hbr]; exact abr.1
  · rw [hbr, hc]; exact abr.2
  · rw [hr]; exact ar.1
  · rw [hr, hc]; exact ar.2
  · rw [hgr]; exact ag.1
  · rw [hgr, hc]; exact ag.2
  · rw [hb]; exact ab.1
  · rw [hb, hc]; exact ab.2
  · exact hsat_all.1
  · rw [hc]; exact hsat_all.2
  · rw [hwarm]; exact f32_nonneg _ hw0
  · rw [hwarm]; exact f32_idem _ hw0
  · rw [hcool]; exact f32_nonneg _ hc0
  · intro x' y' hv
    rcases (visitedBefore_step width height x y x' y' hg).mp hv with hold | ⟨hx', hy'⟩
    · obtain ⟨h1, h2⟩ := h.between x' y' hold
      exact ⟨le_trans hmin_le.1 h1, le_trans h2 hmax_le.1⟩
    · rw [hx', hy']
      exact ⟨hmin_le.2, hmax_le.2⟩
  · rw [hmin]
    split_ifs with hlt
    · exact Or.inr ⟨x, y, hhere, rfl⟩
    · rcases h.min_attained with h1 | ⟨x', y', hv, he⟩
      · exact Or.inl h1
      · exact Or.inr ⟨x', y',
          (visitedBefore_step width height x y x' y' hg).mpr (Or.inl hv), he⟩
  · rw [hmax]
    split_ifs with hlt
    · exact Or.inr ⟨x, y, hhere, rfl⟩
    · rcases h.max_attained with h1 | ⟨x', y', hv, he⟩
      · exact Or.inl h1
      · exact Or.inr ⟨x', y',
          (visitedBefore_step width height x y x' y' hg).mpr (Or.inl hv), he⟩

theorem samplingInv32_row (image : Int → Int) (width height y : Int) (a : Sampling)
    (hy0 : 0 ≤ y) (hy : y < height) (hy8 : y % 8 = 0) (hw : 1 ≤ width)
    (h : SamplingInv32 image width height y 0 a) :
    SamplingInv32 image width height (y + 8) 0
      (strideLoop 8 (by decide) width
        (Binary32.sample_pixel image width (width * height * 3) y) 0 a) := by
  obtain ⟨x', hx', hx8, hx0, hxw, hinv⟩ := strideLoop_invariant 8 (by decide) width
    (Binary32.sample_pixel image width (width * height * 3) y)
    (fun x a => x % 8 = 0 ∧ 0 ≤ x ∧ x < width + 8 ∧ SamplingInv32 image width height y x a)
    (by
      rintro x s hx ⟨h8, h0, -, hs⟩
      exact ⟨by omega, by omega, by omega,
        samplingInv32_step image width height x y s ⟨⟨h0, hx, h8⟩, ⟨hy0, hy, hy8⟩⟩ hs⟩)
    _ 0 a rfl ⟨by decide, le_refl 0, by omega, h⟩
  have hxe : x' / 8 = (width + 7) / 8 := by omega
  have hye : (y + 8) / 8 = y / 8 + 1 := by omega
  exact
    { count_eq := by
        rw [hinv.count_eq, hxe, hye]
        ring
      count_nonneg := hinv.count_nonneg
      brightness_lo := hinv.brightness_lo
      brightness_hi := hinv.brightness_hi
      r_lo := hinv.r_lo
      r_hi := hinv.r_hi
      g_lo := hinv.g_lo
      g_hi := hinv.g_hi
      b_lo := hinv.b_lo
      b_hi := hinv.b_hi
      saturation_lo := hinv.saturation_lo
      saturation_hi := hinv.saturation_hi
      warm_lo := hinv.warm_lo
      warm_float := hinv.warm_float
      cool_lo := hinv.cool_lo
      between := fun x'' y'' hv =>
        hinv.between x'' y'' ((visitedBefore_row_end width height x' y x'' y'' hx' hy8).mp hv)
      min_attained := by
        rcases hinv.min_attained with h1 | ⟨x'', y'', hv, he⟩
        · exact Or.inl h1
        · exact Or.inr ⟨x'', y'',
            (visitedBefore_row_end width height x' y x'' y'' hx' hy8).mpr hv, he⟩
      max_attained := by
        rcases hinv.max_attained with h1 | ⟨x'', y'', hv, he⟩
        · exact Or.inl h1
        · exact Or.inr ⟨x'', y'',
            (visitedBefore_row_end width height x' y x'' y'' hx' hy8).mpr hv, he⟩ }

theorem samplingInv32_initial (image : Int → Int) (width height : Int) :
    SamplingInv32 image width height 0 0 initialSampling :=
  { count_eq := by simp [initialSampling]
    count_nonneg := le_refl 0
    brightness_lo := le_refl 0
    brightness_hi := by simp [initialSampling]
    r_lo := le_refl 0
    r_hi := by simp [initialSampling]
    g_lo := le_refl 0
    g_hi := by simp [initialSampling]
    b_lo := le_refl 0
    b_hi := by simp [initialSampling]
    saturation_lo := le_refl 0
    saturation_hi := by simp [initialSampling]
    warm_lo := le_refl 0
    warm_float := f32_zero
    cool_lo := le_refl 0
    between := by
      intro x' y' hv
      unfold visitedBefore onGrid at hv
      omega
    min_attained := Or.inl rfl
    max_attained := Or.inl rfl }

/-- The invariant at the exit of the outer binary32 loop: every grid position is
visited. -/
theorem samplingInv32_image (image : Int → Int) (width height : Int) (hw : 1 ≤ width)
    (hh : 1 ≤ height) :
    ∃ y, height ≤ y ∧ y % 8 = 0 ∧ y < height + 8 ∧
      SamplingInv32 image width height y 0 (Binary32.sample_image image width height) := by
  obtain ⟨y, hy, hy8, hy0, hyh, hinv⟩ := strideLoop_invariant 8 (by decide) height
    (fun y a => strideLoop 8 (by decide) width
      (Binary32.sample_pixel image width (width * height * 3) y) 0 a)
    (fun y a => y % 8 = 0 ∧ 0 ≤ y ∧ y < height + 8 ∧ SamplingInv32 image width height y 0 a)
    (by
      rintro y s hy ⟨h8, h0, -, hs⟩
      exact ⟨by omega, by omega, by omega,
        samplingInv32_row image width height y s h0 hy h8 hw hs⟩)
    _ 0 initialSampling rfl
    ⟨by decide, le_refl 0, by omega, samplingInv32_initial image width height⟩
  exact ⟨y, hy, hy8, hyh, hinv⟩

theorem sample_count32_valid (image : Int → Int) (width height : Int) (hw : 1 ≤ width)
    (hh : 1 ≤ height) :
    (Binary32.sample_image image width height).sample_count
      = ((width + 7) / 8) * ((height + 7) / 8) ∧
    1 ≤ (Binary32.sample_image image width height).sample_count := by
  obtain ⟨y, hy, hy8, hyh, hinv⟩ := samplingInv32_image image width height hw hh
  have hye : y / 8 = (height + 7) / 8 := by omega
  have hc : (Binary32.sample_image image width height).sample_count
      = ((width + 7) / 8) * ((height + 7) / 8) := by
    rw [hinv.count_eq, hye]
    have : (0 : Int) / 8 = 0 := by decide
    rw [this]
    ring
  refine ⟨hc, ?_⟩
  rw [hc]
  have h1 : 1 ≤ (width + 7) / 8 := by omega
  have h2 : 1 ≤ (height + 7) / 8 := by omega
  nlinarith

/-- The minimum and the maximum brightness found by the binary32 sampling loops are
those of the sampled grid positions. -/
theorem sample_brightness32_extremes (image : Int → Int) (width height : Int)
    (hw : 1 ≤ width) (hh : 1 ≤ height) :
    (∀ x y, onGrid width height x y →
      (Binary32.sample_image image width height).min_bright ≤ luma32 image width x y ∧
      luma32 image width x y ≤ (Binary32.sample_image image width height).max_bright) ∧
    (∃ x y, onGrid width height x y ∧
      (Binary32.sample_image image width height).min_bright = luma32 image width x y) ∧
    (∃ x y, onGrid width height x y ∧
      (Binary32.sample_image image width height).max_bright = luma32 image width x y) := by
  obtain ⟨y, hy, hy8, hyh, hinv⟩ := samplingInv32_image image width height hw hh
  have hall : ∀ x' y', onGrid width height x' y' →
      (Binary32.sample_image image width height).min_bright ≤ luma32 image width x' y' ∧
      luma32 image width x' y' ≤ (Binary32.sample_image image width height).max_bright := by
    intro x' y' hg
    exact hinv.between x' y' ((visitedBefore_all width height y x' y' hy).mpr hg)
  have h00 : onGrid width height 0 0 := by
    unfold onGrid
    omega
  obtain ⟨l0, l1⟩ := luma32_range image width 0 0
  obtain ⟨hmin00, hmax00⟩ := hall 0 0 h00
  refine ⟨hall, ?_, ?_⟩
  · rcases hinv.min_attained with h1 | ⟨x', y', hv, he⟩
    · exact ⟨0, 0, h00, by rw [h1] at hmin00 ⊢; linarith⟩
    · exact ⟨x', y', (visitedBefore_all width height y x' y' hy).mp hv, he⟩
  · rcases hinv.max_attained with h1 | ⟨x', y', hv, he⟩
    · exact ⟨0, 0, h00, by rw [h1] at hmax00 ⊢; linarith⟩
    · exact ⟨x', y', (visitedBefore_all width height y x' y' hy).mp hv, he⟩

theorem extract_photo_signature32_components (image : Int → Int) (width height : Int)
    (hc : 1 ≤ (Binary32.sample_image image width height).sample_count) :
    Binary32.extract_photo_signature image width height 0
      = f32 ((Binary32.sample_image image width height).brightness_sum
          / f32 ((Binary32.sample_image image width height).sample_count : ℚ)) ∧
    Binary32.extract_photo_signature image width height 1
      = f32 ((Binary32.sample_image image width height).r_sum
          / f32 ((Binary32.sample_image image width height).sample_count : ℚ)) ∧
    Binary32.extract_photo_signature image width height 2
      = f32 ((Binary32.sample_image image width height).g_sum
          / f32 ((Binary32.sample_image image width height).sample_count : ℚ)) ∧
    Binary32.extract_photo_signature image width height 3
      = f32 ((Binary32.sample_image image width height).b_sum
          / f32 ((Binary32.sample_image image width height).sample_count : ℚ)) ∧
    Binary32.extract_photo_signature image width height 4
      = f32 ((Binary32.sample_image image width height).max_bright
          - (Binary32.sample_image image width height).min_bright) ∧
    Binary32.extract_photo_signature image width height 5
      = f32 ((Binary32.sample_image image width height).warm_sum
          / f32 (f32 ((Binary32.sample_image image width height).warm_sum
              + (Binary32.sample_image image width height).cool_sum) + f32 0.001)) ∧
    Binary32.extract_photo_signature image width height 6
      = f32 ((Binary32.sample_image image width height).saturation_sum
          / f32 ((Binary32.sample_image image width height).sample_count : ℚ)) := by
  have hne : ¬ (Binary32.sample_image image width height).sample_count = 0 := by omega
  unfold Binary32.extract_photo_signature
  simp only [if_neg hne]
  simp [arrayOf]

theorem f32_two_pow_24 : f32 16777216 = 16777216 := by
  have h := f32_of_significand 1 24 (by decide) (by decide)
  norm_num at h
  exact h

/-- A binary32 mean of a sum that is at most the count and at most 2^24 lies in
[0, 1]. -/
theorem mean32_range (sum : ℚ) (count : Int) (hc : 1 ≤ count) (h0 : 0 ≤ sum)
    (h1 : sum ≤ (count : ℚ) ∧ sum ≤ 16777216) :
    0 ≤ f32 (sum / f32 (count : ℚ)) ∧ f32 (sum / f32 (count : ℚ)) ≤ 1 := by
  have hcq : (1 : ℚ) ≤ (count : ℚ) := by exact_mod_cast hc
  have hden : sum ≤ f32 (count : ℚ) ∧ 1 ≤ f32 (count : ℚ) := by
    by_cases hlt : count < 2 ^ 24
    · have habs : |count| < 2 ^ 24 := by
        rw [abs_lt]
        constructor <;> omega
      rw [f32_intCast count habs]
      exact ⟨h1.1, hcq⟩
    · have hge : (16777216 : ℚ) ≤ (count : ℚ) := by
        have : (16777216 : Int) ≤ count := by
          have h24 : (2 : Int) ^ 24 = 16777216 := by decide
          omega
        exact_mod_cast this
      have hm := f32_mono 16777216 (count : ℚ) (by norm_num) hge
      rw [f32_two_pow_24] at hm
      exact ⟨le_trans h1.2 hm, by linarith⟩
  have hpos : (0 : ℚ) < f32 (count : ℚ) := by linarith [hden.2]
  have hq0 : 0 ≤ sum / f32 (count : ℚ) := div_nonneg h0 (le_of_lt hpos)
  have hq1 : sum / f32 (count : ℚ) ≤ 1 := (div_le_one hpos).mpr hden.1
  refine ⟨f32_nonneg _ hq0, ?_⟩
  have hm := f32_mono _ 1 hq0 hq1
  rw [f32_one] at hm
  exact hm

theorem f32_epsilon_pos : 0 < f32 0.001 := by
  have h := f32_error_lt_four 0.001 (by rw [abs_lt]; constructor <;> norm_num)
  rw [abs_le] at h
  have h1 := h.1
  norm_num at h1 ⊢
  linarith

/-- The binary32 warm/cool ratio lies in [0, 1] when the warm sum is a nonnegative
binary32 number and the cool sum is nonnegative. -/
theorem warm_ratio32_range (warm cool : ℚ) (hw0 : 0 ≤ warm) (hwf : f32 warm = warm)
    (hc0 : 0 ≤ cool) :
    0 ≤ f32 (warm / f32 (f32 (warm + cool) + f32 0.001)) ∧
    f32 (warm / f32 (f32 (warm + cool) + f32 0.001)) ≤ 1 := by
  have he := f32_epsilon_pos
  have hs0 : 0 ≤ f32 (warm + cool) := f32_nonneg _ (by linarith)
  have hs1 : warm ≤ f32 (warm + cool) := by
    have hm := f32_mono warm (warm + cool) hw0 (by linarith)
    rw [hwf] at hm
    exact hm
  have hd1 : f32 (warm + cool) ≤ f32 (f32 (warm + cool) + f32 0.001) := by
    have hm := f32_mono (f32 (warm + cool)) (f32 (warm + cool) + f32 0.001) hs0 (by linarith)
    rw [f32_idem _ (by linarith)] at hm
    exact hm
  have hd2 : f32 0.001 ≤ f32 (f32 (warm + cool) + f32 0.001) := by
    have hm := f32_mono (f32 0.001) (f32 (warm + cool) + f32 0.001) (le_of_lt he)
      (by linarith)
    rw [f32_idem _ (by norm_num)] at hm
    exact hm
  have hpos : 0 < f32 (f32 (warm + cool) + f32 0.001) := by linarith
  have hq0 : 0 ≤ warm / f32 (f32 (warm + cool) + f32 0.001) :=
    div_nonneg hw0 (le_of_lt hpos)
  have hq1 : warm / f32 (f32 (warm + cool) + f32 0.001) ≤ 1 :=
    (div_le_one hpos).mpr (by linarith)
  refine ⟨f32_nonneg _ hq0, ?_⟩
  have hm := f32_mono _ 1 hq0 hq1
  rw [f32_one] at hm
  exact hm

/-- The ranges of the components 0 to 6 of the binary32 signature of a valid image. -/
theorem signature32_ranges (image : Int → Int) (width height : Int) (hw : 1 ≤ width)
    (hh : 1 ≤ height) :
    (0 ≤ Binary32.extract_photo_signature image width height 0 ∧
      Binary32.extract_photo_signature image width height 0 ≤ 1) ∧
    (0 ≤ Binary32.extract_photo_signature image width height 1 ∧
      Binary32.extract_photo_signature image width height 1 ≤ 1) ∧
    (0 ≤ Binary32.extract_photo_signature image width height 2 ∧
      Binary32.extract_photo_signature image width height 2 ≤ 1) ∧
    (0 ≤ Binary32.extract_photo_signature image width height 3 ∧
      Binary32.extract_photo_signature image width height 3 ≤ 1) ∧
    (0 ≤ Binary32.extract_photo_signature image width height 4 ∧
      Binary32.extract_photo_signature image width height 4 ≤ 1) ∧
    (0 ≤ Binary32.extract_photo_signature image width height 5 ∧
      Binary32.extract_photo_signature image width height 5 ≤ 1) ∧
    (0 ≤ Binary32.extract_photo_signature image width height 6 ∧
      Binary32.extract_photo_signature image width height 6 ≤ 1) := by
  obtain ⟨-, hc⟩ := sample_count32_valid image width height hw hh
  obtain ⟨y, -, -, -, hinv⟩ := samplingInv32_image image width height hw hh
  obtain ⟨hall, ⟨xm, ym, hgm, hmin⟩, ⟨xM, yM, hgM, hmax⟩⟩ :=
    sample_brightness32_extremes image width height hw hh
  obtain ⟨e0, e1, e2, e3, e4, e5, e6⟩ :=
    extract_photo_signature32_components image width height hc
  rw [e0, e1, e2, e3, e4, e5, e6]
  refine ⟨mean32_range _ _ hc hinv.brightness_lo hinv.brightness_hi,
    mean32_range _ _ hc hinv.r_lo hinv.r_hi, mean32_range _ _ hc hinv.g_lo hinv.g_hi,
    mean32_range _ _ hc hinv.b_lo hinv.b_hi, ?_,
    warm_ratio32_range _ _ hinv.warm_lo hinv.warm_float hinv.cool_lo,
    mean32_range _ _ hc hinv.saturation_lo hinv.saturation_hi⟩
  obtain ⟨-, hM1⟩ := luma32_range image width xM yM
  obtain ⟨hm0, -⟩ := luma32_range image width xm ym
  have hle := (hall xM yM hgM).1
  have hd0 : 0 ≤ (Binary32.sample_image image width height).max_bright
      - (Binary32.sample_image image width height).min_bright := by
    linarith [(hall xm ym hgm).2]
  have hd1 : (Binary32.sample_image image width height).max_bright
      - (Binary32.sample_image image width height).min_bright ≤ 1 := by
    rw [hmax, hmin]
    linarith
  refine ⟨f32_nonneg _ hd0, ?_⟩
  have hm := f32_mono _ 1 hd0 hd1
  rw [f32_one] at hm
  exact hm

theorem channel32_yellow (x y : Int) :
    channel32 yellowImage ((y * 1184 + x) * 3) = 1 ∧
    channel32 yellowImage ((y * 1184 + x) * 3 + 1) = 1 ∧
    channel32 yellowImage ((y * 1184 + x) * 3 + 2) = 0 := by
  have h0 : yellowImage ((y * 1184 + x) * 3) = -1 := by
    unfold yellowImage
    rw [if_neg (by omega)]
  have h1 : yellowImage ((y * 1184 + x) * 3 + 1) = -1 := by
    unfold yellowImage
    rw [if_neg (by omega)]
  have h2 : yellowImage ((y * 1184 + x) * 3 + 2) = 0 := by
    unfold yellowImage
    rw [if_pos (by omega)]
  have hu1 : u8 (-1) = 255 := by decide
  have hu0 : u8 0 = 0 := by decide
  unfold channel32
  rw [h0, h1, h2, hu1, hu0]
  refine ⟨?_, ?_, ?_⟩
  · norm_num
    exact f32_one
  · norm_num
    exact f32_one
  · norm_num
    exact f32_zero

/-- One sampled pixel of the pure yellow image adds 1.5 to the warm sum and nothing to
the cool sum, without rounding while the count stays below 21904. -/
theorem sample_pixel32_yellow (w h x y : Int) (a : Sampling) (hw : w = 1184)
    (hh : h = 1184) (hx0 : 0 ≤ x) (hx : x < w) (hy0 : 0 ≤ y) (hy : y < h)
    (hc0 : 0 ≤ a.sample_count) (hc : a.sample_count < 21904)
    (hwarm : a.warm_sum = 3 / 2 * (a.sample_count : ℚ)) (hcool : a.cool_sum = 0) :
    (Binary32.sample_pixel yellowImage w (w * h * 3) y x a).sample_count
      = a.sample_count + 1 ∧
    (Binary32.sample_pixel yellowImage w (w * h * 3) y x a).warm_sum
      = 3 / 2 * ((a.sample_count + 1 : Int) : ℚ) ∧
    (Binary32.sample_pixel yellowImage w (w * h * 3) y x a).cool_sum = 0 := by
  subst hw hh
  obtain ⟨e1, -, -, -, -, -, -, e8, e9, -⟩ :=
    sample_pixel32_fields yellowImage 1184 1184 x y a hx0 hx hy0 hy
  obtain ⟨c0, c1, c2⟩ := channel32_yellow x y
  rw [e1, e8, e9, c0, c1, c2, hwarm, hcool]
  refine ⟨rfl, ?_, ?_⟩
  · have h1 : f32 ((1 : ℚ) * 0.5) = 1 / 2 := by
      norm_num
      exact f32_half
    have h2 : f32 ((1 : ℚ) + 1 / 2) = 3 / 2 := by
      have h := f32_of_significand 3 (-1) (by decide) (by decide)
      norm_num at h ⊢
      exact h
    rw [h1, h2]
    have h3 := f32_of_significand (3 * (a.sample_count + 1)) (-1)
      (by rw [abs_lt]; constructor <;> omega) (by decide)
    have h4 : (3 : ℚ) / 2 * (a.sample_count : ℚ) + 3 / 2
        = ((3 * (a.sample_count + 1) : Int) : ℚ) * (2 : ℚ) ^ (-1 : Int) := by
      push_cast
      norm_num
      ring
    have h5 : (3 : ℚ) / 2 * ((a.sample_count + 1 : Int) : ℚ)
        = ((3 * (a.sample_count + 1) : Int) : ℚ) * (2 : ℚ) ^ (-1 : Int) := by
      push_cast
      norm_num
      ring
    rw [h4, h5]
    exact h3
  · norm_num
    exact f32_zero

/-- The sums of the binary32 sampling loops over a 1184 x 1184 pure yellow image: 21904
sampled pixels, warm sum 32856, cool sum 0. -/
theorem sample_image32_yellow (w h : Int) (hw : w = 1184) (hh : h = 1184) :
    (Binary32.sample_image yellowImage w h).sample_count = 21904 ∧
    (Binary32.sample_image yellowImage w h).warm_sum = 32856 ∧
    (Binary32.sample_image yellowImage w h).cool_sum = 0 := by
  obtain ⟨y, hy, hy8, hy0, hyh, hcnt, hwarm, hcool⟩ := strideLoop_invariant 8 (by decide) h
    (fun y a => strideLoop 8 (by decide) w
      (Binary32.sample_pixel yellowImage w (w * h * 3) y) 0 a)
    (fun y a => y % 8 = 0 ∧ 0 ≤ y ∧ y < h + 8 ∧ a.sample_count = (y / 8) * 148 ∧
      a.warm_sum = 3 / 2 * (a.sample_count : ℚ) ∧ a.cool_sum = 0)
    (by
      rintro y s hy ⟨h8, h0, -, hc, hws, hcl⟩
      obtain ⟨x, hx, hx8, hx0, hxw, hxc, hxwarm, hxcool⟩ :=
        strideLoop_invariant 8 (by decide) w
          (Binary32.sample_pixel yellowImage w (w * h * 3) y)
          (fun x a => x % 8 = 0 ∧ 0 ≤ x ∧ x < w + 8 ∧
            a.sample_count = (y / 8) * 148 + x / 8 ∧
            a.warm_sum = 3 / 2 * (a.sample_count : ℚ) ∧ a.cool_sum = 0)
          (by
            rintro x t hx ⟨k8, k0, -, kc, kw, kcl⟩
            obtain ⟨f1, f2, f3⟩ := sample_pixel32_yellow w h x y t hw hh k0 hx h0 hy
              (by omega) (by omega) kw kcl
            refine ⟨by omega, by omega, by omega, ?_, ?_, f3⟩
            · rw [f1, kc]
              omega
            · rw [f2, f1])
          _ 0 s rfl ⟨by decide, le_refl 0, by omega, by omega, hws, hcl⟩
      exact ⟨by omega, by omega, by omega, by rw [hxc]; omega, hxwarm, hxcool⟩)
    _ 0 initialSampling rfl
    ⟨by decide, le_refl 0, by omega, by simp [initialSampling],
      by simp [initialSampling], by simp [initialSampling]⟩
  have hc : (strideLoop 8 (by decide) h
      (fun y a => strideLoop 8 (by decide) w
        (Binary32.sample_pixel yellowImage w (w * h * 3) y) 0 a)
      0 initialSampling).sample_count = 21904 := by
    rw [hcnt]
    omega
  refine ⟨hc, ?_, hcool⟩
  show (strideLoop 8 _ h _ 0 initialSampling).warm_sum = 32856
  rw [hwarm, hc]
  norm_num

theorem f32_c001 : f32 0.001 = 8589935 * (2 : ℚ) ^ (-33 : Int) :=
  f32_eval 0.001 (-10) 8589935 _ (by decide) (by rw [le_abs]; left; norm_num)
    (by rw [abs_lt]; constructor <;> norm_num) (by rw [abs_lt]; constructor <;> norm_num)
    (by norm_num)

/-- In binary32 the sum 32856 + 0.001 is 32856: the epsilon is absorbed. -/
theorem f32_epsilon_absorbed : f32 (f32 (32856 + 0) + f32 0.001) = 32856 := by
  have h0 : f32 ((32856 : ℚ) + 0) = 32856 := by
    have h := f32_intCast 32856 (by decide)
    norm_num at h ⊢
    exact h
  rw [h0, f32_c001]
  exact f32_eval _ 15 8411136 _ (by decide) (by rw [le_abs]; left; norm_num)
    (by rw [abs_lt]; constructor <;> norm_num) (by rw [abs_lt]; constructor <;> norm_num)
    (by norm_num)

theorem signature32_yellow_warmth :
    Binary32.extract_photo_signature yellowImage 1184 1184 5 = 1 := by
  obtain ⟨hc, hw, hcool⟩ := sample_image32_yellow 1184 1184 rfl rfl
  obtain ⟨-, -, -, -, -, e5, -⟩ :=
    extract_photo_signature32_components yellowImage 1184 1184 (by rw [hc]; decide)
  rw [e5, hw, hcool, f32_epsilon_absorbed]
  norm_num
  exact f32_one

/-- Counterexample to C18 as stated: the 1184 x 1184 pure yellow image is a valid image
whose warm/cool ratio, computed in binary32 as the code computes it, is exactly 1 and so
not below 1: the warm sum 32856 absorbs the 0.001 added to the denominator. -/
theorem signature_warm_ratio_reaches_one :
    (1 : Int) ≤ 1184 ∧ (1 : Int) ≤ 1184 ∧
    Binary32.extract_photo_signature yellowImage 1184 1184 5 = 1 ∧
    ¬ Binary32.extract_photo_signature yellowImage 1184 1184 5 < 1 := by
  refine ⟨by decide, by decide, signature32_yellow_warmth, ?_⟩
  rw [signature32_yellow_warmth]
  exact lt_irrefl 1

/-- C18 (amended): for `width >= 1` and `height >= 1` the signature computed in binary32
has mean brightness, mean red, mean green, mean blue, brightness range and mean
saturation (components 0, 1, 2, 3, 4, 6) in [0, 1] and the warm/cool ratio (component 5)
in the closed interval [0, 1]; the brightness range is the binary32 difference of the
largest and the smallest brightness of a sampled grid position. -/
theorem signature_component_ranges (image : Int → Int) (width height : Int)
    (hw : 1 ≤ width) (hh : 1 ≤ height) :
    ((0 ≤ Binary32.extract_photo_signature image width height 0 ∧
        Binary32.extract_photo_signature image width height 0 ≤ 1) ∧
      (0 ≤ Binary32.extract_photo_signature image width height 1 ∧
        Binary32.extract_photo_signature image width height 1 ≤ 1) ∧
      (0 ≤ Binary32.extract_photo_signature image width height 2 ∧
        Binary32.extract_photo_signature image width height 2 ≤ 1) ∧
      (0 ≤ Binary32.extract_photo_signature image width height 3 ∧
        Binary32.extract_photo_signature image width height 3 ≤ 1) ∧
      (0 ≤ Binary32.extract_photo_signature image width height 4 ∧
        Binary32.extract_photo_signature image width height 4 ≤ 1) ∧
      (0 ≤ Binary32.extract_photo_signature image width height 5 ∧
        Binary32.extract_photo_signature image width height 5 ≤ 1) ∧
      (0 ≤ Binary32.extract_photo_signature image width height 6 ∧
        Binary32.extract_photo_signature image width height 6 ≤ 1)) ∧
    ∃ xM yM xm ym : Int,
      onGrid width height xM yM ∧ onGrid width height xm ym ∧
      (∀ x y : Int, onGrid width height x y →
        luma32 image width xm ym ≤ luma32 image width x y ∧
        luma32 image width x y ≤ luma32 image width xM yM) ∧
      Binary32.extract_photo_signature image width height 4
        = f32 (luma32 image width xM yM - luma32 image width xm ym) := by
  refine ⟨signature32_ranges image width height hw hh, ?_⟩
  obtain ⟨-, hc⟩ := sample_count32_valid image width height hw hh
  obtain ⟨hall, ⟨xm, ym, hgm, hmin⟩, ⟨xM, yM, hgM, hmax⟩⟩ :=
    sample_brightness32_extremes image width height hw hh
  obtain ⟨-, -, -, -, e4, -, -⟩ :=
    extract_photo_signature32_components image width height hc
  refine ⟨xM, yM, xm, ym, hgM, hgm, ?_, ?_⟩
  · intro x y hg
    rw [← hmin, ← hmax]
    exact hall x y hg
  · rw [e4, hmax, hmin]

/-- Witness of C18: the 1184 x 1184 pure yellow image, whose warm/cool ratio is in
[0, 1] and whose brightness range is in [0, 1]. -/
theorem signature_component_ranges_witness :
    (1 : Int) ≤ 1184 ∧ (1 : Int) ≤ 1184 ∧
    (0 ≤ Binary32.extract_photo_signature yellowImage 1184 1184 5 ∧
      Binary32.extract_photo_signature yellowImage 1184 1184 5 ≤ 1) ∧
    (0 ≤ Binary32.extract_photo_signature yellowImage 1184 1184 4 ∧
      Binary32.extract_photo_signature yellowImage 1184 1184 4 ≤ 1) :=
  ⟨by decide, by decide,
    (signature_component_ranges yellowImage 1184 1184 (by decide) (by decide)).1.2.2.2.2.2.1,
    (signature_component_ranges yellowImage 1184 1184 (by decide) (by decide)).1.2.2.2.2.1⟩

end NeuralGram
